import Mathlib

/-!
# Mako utilities: the combiner's metadata merge, the imposer, the watermarker and the splitter

A shallow embedding of `makocombiner` (page-range resolution, the running page
offset, the bookmark tree and the named-destination registry), of the argument
handling and the spreads of `makoimposer`, of the argument handling of
`makowatermarker` and of the jobs of `makosplitter`, together with the
properties checked against them.

Conventions of the embedding.

* `uint32` values are natural numbers below `2^32`; every `uint32` operation
  that can wrap is written with an explicit `% 4294967296`.  `int` values are
  integers, and the conversions between `uint32` and `int` are `toInt32` and
  `toUInt32` (two's complement).
* Objects of the document library (pages, outline entries, targets) are
  records; a call that the library answers with an exception is `none`.
* Mutation through a reference parameter is explicit state passing: the
  function returns the updated object.
-/

namespace MakoCombiner

/-! ## Machine integers -/

/-- Truncation of a natural number to `uint32`. -/
def u32 (n : Nat) : Nat := n % 4294967296

/-- Subtraction `a - b` of two `uint32` values, wrapping modulo `2^32`. -/
def u32sub (a b : Nat) : Nat := (4294967296 + a - b % 4294967296) % 4294967296

/-- Conversion of a `uint32` value to `int` (two's complement). -/
def toInt32 (n : Nat) : Int :=
  if n % 4294967296 < 2147483648 then ((n % 4294967296 : Nat) : Int)
  else ((n % 4294967296 : Nat) : Int) - 4294967296

/-- Conversion of an `int` value to `uint32` (two's complement). -/
def toUInt32 (z : Int) : Nat := (z % 4294967296).toNat

/-- Addition of two `int` values, wrapping to the 32-bit two's complement range. -/
def addInt32 (a b : Int) : Int := toInt32 (toUInt32 (a + b))

/-! ## Input streams (`std::wistream`)

`processRange` and `isSeparator` read from a `std::wistream`.  They are
embedded over an arbitrary stream, given by the four operations they use, so
that what is proved about them holds for whatever the extraction operators
return.  `WIStream` below is one concrete stream, over a list of characters.
-/

/-- The stream operations used by `isSeparator` and `processRange`.
`extractUInt32 s v` is `s >> v` for a `uint32` variable holding `v`, and
`extractChar s c` is `s >> c` for a `wchar_t` variable holding `c`; both return
the variable's new value and the stream.  `ok s` is the stream's conversion to
`bool`. -/
structure WIStreamOps (σ : Type) where
  extractUInt32 : σ → Nat → Nat × σ
  extractChar : σ → Char → Char × σ
  putback : σ → Char → σ
  ok : σ → Bool

/-- A stream over a list of characters with the `eofbit` and `failbit` flags. -/
structure WIStream where
  buf : List Char
  eofbit : Bool := false
  failbit : Bool := false
  deriving DecidableEq, Repr

namespace WIStream

/-- White space, as skipped by formatted extraction. -/
def isSpace (c : Char) : Bool :=
  c.toNat = 32 || (9 ≤ c.toNat && c.toNat ≤ 13)

/-- The stream's `good()`. -/
def good (s : WIStream) : Bool := !s.eofbit && !s.failbit

/-- The stream's conversion to `bool`, that is `!fail()`. -/
def ok (s : WIStream) : Bool := !s.failbit

/-- The sentry of a formatted extraction: fails on a stream that is not good,
otherwise skips white space and fails at the end of the buffer. -/
def sentry (s : WIStream) : Bool × WIStream :=
  if !s.good then (false, { s with failbit := true })
  else
    let rest := s.buf.dropWhile isSpace
    if rest.isEmpty then (false, { buf := [], eofbit := true, failbit := true })
    else (true, { s with buf := rest })

/-- Extraction `s >> c` of one character. -/
def extractChar (s : WIStream) (old : Char) : Char × WIStream :=
  match s.sentry with
  | (false, s1) => (old, s1)
  | (true, s1) =>
    match s1.buf with
    | [] => (old, s1)
    | c :: rest => (c, { s1 with buf := rest })

/-- The value of a run of decimal digits. -/
def digitsValue (ds : List Char) : Nat :=
  ds.foldl (fun acc c => 10 * acc + (c.toNat - 48)) 0

/-- Extraction `s >> v` of a `uint32`: an optional sign and decimal digits.
Without digits the value is 0 and `failbit` is set; a value that does not fit
is replaced by `2^32 - 1` with `failbit` set; a negated value wraps. -/
def extractUInt32 (s : WIStream) (old : Nat) : Nat × WIStream :=
  match s.sentry with
  | (false, s1) => (old, s1)
  | (true, s1) =>
    let negative := s1.buf.head? = some '-'
    let afterSign :=
      if s1.buf.head? = some '-' ∨ s1.buf.head? = some '+' then s1.buf.tail else s1.buf
    let ds := afterSign.takeWhile Char.isDigit
    let rest := afterSign.dropWhile Char.isDigit
    let s2 : WIStream := { s1 with buf := rest, eofbit := rest.isEmpty }
    if ds.isEmpty then (0, { s2 with failbit := true })
    else if 4294967295 < digitsValue ds then (4294967295, { s2 with failbit := true })
    else if negative then ((4294967296 - digitsValue ds) % 4294967296, s2)
    else (digitsValue ds, s2)

/-- The stream's `putback`: clears `eofbit`, then fails on a stream that is not
good and otherwise puts the character back in front of the buffer. -/
def putback (s : WIStream) (c : Char) : WIStream :=
  if s.failbit then { s with eofbit := false }
  else { s with buf := c :: s.buf, eofbit := false }

/-- The operations of the list-backed stream. -/
def ops : WIStreamOps WIStream where
  extractUInt32 := extractUInt32
  extractChar := extractChar
  putback := putback
  ok := ok

/-- A stream over the characters of a string, as `std::wistringstream` builds it. -/
def ofString (text : String) : WIStream := { buf := text.toList }

end WIStream

/-! ## Page ranges (`makocombiner.cpp`) -/

/-- The page range of the source, `struct sPageRange`: 1-based, inclusive,
`lastPage = 0` standing for the end of the document. -/
structure sPageRange where
  firstPage : Nat := 1
  lastPage : Nat := 0
  deriving DecidableEq, Repr

/-- The source's `isSeparator(source, separ)`: reads one character, puts it back
when it is not the separator, and answers whether it was the separator. -/
def isSeparator {σ : Type} (strm : WIStreamOps σ) (source : σ) (separ : Char) : Bool × σ :=
  let (next, s1) := strm.extractChar source (Char.ofNat 0)
  let s2 := if strm.ok s1 && next != separ then strm.putback s1 next else s1
  (strm.ok s2 && next == separ, s2)

/-- Lines 138-144 of `processRange`: the range as read from the stream, before
any adjustment. -/
def readPageRange {σ : Type} (strm : WIStreamOps σ) (source : σ) : sPageRange × σ :=
  let pageRange : sPageRange := {}
  let (firstPage, s1) := strm.extractUInt32 source pageRange.firstPage
  let (sep, s2) := isSeparator strm s1 '-'
  if sep then
    let (lastPage, s3) := strm.extractUInt32 s2 pageRange.lastPage
    ({ firstPage := firstPage, lastPage := lastPage }, s3)
  else
    ({ firstPage := firstPage, lastPage := firstPage }, s2)

/-- Lines 146-150 of `processRange`: an inverted pair is swapped, unless the
last page is 0. -/
def swapInverted (pageRange : sPageRange) : sPageRange :=
  if pageRange.lastPage ≠ 0 ∧ pageRange.lastPage < pageRange.firstPage then
    { firstPage := pageRange.lastPage, lastPage := pageRange.firstPage }
  else pageRange

/-- The source's `processRange(results, source)`: reads a range, swaps an inverted
pair and appends the range to `results` unless its first page is 0. -/
def processRange {σ : Type} (strm : WIStreamOps σ) (results : List sPageRange) (source : σ) :
    List sPageRange × σ :=
  let (raw, s1) := readPageRange strm source
  let pageRange := swapInverted raw
  if pageRange.firstPage ≠ 0 then (results ++ [pageRange], s1) else (results, s1)

/-- Lines 418-424 of `main`: the adjustment of a stored range to the page count
of the document. -/
def adjustPageRange (pageCount : Nat) (r : sPageRange) : sPageRange :=
  let firstPage := if r.firstPage > pageCount then pageCount else r.firstPage
  let lastPage := if r.lastPage = 0 ∨ r.lastPage > pageCount then pageCount else r.lastPage
  { firstPage := firstPage, lastPage := lastPage }

/-- Lines 402-408 of `main`: a document without page ranges gets the default
range, from page 1 to the page count. -/
def defaultPageRanges (pageRanges : List sPageRange) (pageCount : Nat) : List sPageRange :=
  if pageRanges.length = 0 then
    let dpr : sPageRange := {}
    pageRanges ++ [{ dpr with lastPage := pageCount }]
  else pageRanges

/-! ## The document model

The document library is outside the repository; its objects are modelled by
the data the combiner reads from them and writes to them.
-/

/-- The identifier of a page, `DOMid`. -/
abbrev DOMid := Nat

/-- A page of a document: its identifier and its content. -/
structure Page where
  pageId : DOMid
  content : Nat := 0
  deriving DecidableEq, Repr

/-- A target on a rectangle of a page, `IDOMPageRectTarget`: the page
identifier and the view parameters. -/
structure PageRectTarget where
  pageId : DOMid
  fitType : Nat := 0
  zoom : Int := 0
  left : Int := 0
  top : Int := 0
  right : Int := 0
  bottom : Int := 0
  deriving DecidableEq, Repr

/-- The target of an outline entry: a whole page by its 1-based number
(`IDOMPageTarget`) or a rectangle of a page (`IDOMPageRectTarget`). -/
inductive Target where
  | page (targetPage : Nat)
  | pageRect (r : PageRectTarget)
  deriving DecidableEq, Repr

/-- A colour: alpha, red, green and blue, in hundredths. -/
structure Color where
  alpha : Nat
  red : Nat
  green : Nat
  blue : Nat
  deriving DecidableEq, Repr

/-- An outline entry, `IDOMOutlineEntry`; `target = none` when `getTarget`
answers false. -/
structure OutlineEntry where
  title : String
  isOpen : Bool := true
  target : Option Target := none
  color : Option Color := none
  textStyle : Nat := 0
  deriving DecidableEq, Repr

/-- A node of an outline tree, `IDOMOutlineTreeNode`: the entry it carries,
`none` when `getData` answers false, and its children in order. -/
inductive OutlineTreeNode where
  | mk (data : Option OutlineEntry) (children : List OutlineTreeNode)
  deriving Repr

namespace OutlineTreeNode

/-- The entry of a node. -/
def data : OutlineTreeNode → Option OutlineEntry
  | mk d _ => d

/-- The children of a node. -/
def children : OutlineTreeNode → List OutlineTreeNode
  | mk _ cs => cs

/-- The node's `appendChild`. -/
def appendChild : OutlineTreeNode → OutlineTreeNode → OutlineTreeNode
  | mk d cs, node => mk d (cs ++ [node])

end OutlineTreeNode

/-- A named destination, `INamedDestination`. -/
structure NamedDestination where
  name : String
  target : Option PageRectTarget := none
  deriving DecidableEq, Repr

/-- An optional content group (a layer), `IOptionalContentGroup`: its reference
and its name. -/
structure OptionalContentGroup where
  reference : Nat
  name : String := ""
  deriving DecidableEq, Repr

/-- An entry of the order of a configuration,
`IOptionalContentConfiguration::COrderEntry`: a group, named by its reference,
or a named list of entries. -/
inductive COrderEntry where
  | mk (isGroup : Bool) (groupRef : Option Nat) (name : String) (children : List COrderEntry)
  deriving Repr

namespace COrderEntry

/-- The field `isGroup` of an entry. -/
def isGroup : COrderEntry → Bool
  | mk b _ _ _ => b

/-- The field `groupRef` of an entry. -/
def groupRef : COrderEntry → Option Nat
  | mk _ r _ _ => r

/-- The field `name` of an entry. -/
def name : COrderEntry → String
  | mk _ _ n _ => n

/-- The field `children` of an entry. -/
def children : COrderEntry → List COrderEntry
  | mk _ _ _ cs => cs

/-- The entry that `COrderEntry::create()` returns, before its fields are set. -/
def create : COrderEntry := mk false none "" []

end COrderEntry

/-- The list modes of a configuration, `IOptionalContentConfiguration::eListMode`. -/
inductive eListMode where
  | eLMAllPages
  | eLMVisiblePages
  deriving DecidableEq, Repr

/-- A configuration of optional content, `IOptionalContentConfiguration`: its
order and its list mode. -/
structure OptionalContentConfiguration where
  order : List COrderEntry := []
  listMode : eListMode := eListMode.eLMAllPages
  deriving Repr

/-- The optional content of a document, `IOptionalContent`: its groups and its
default configuration. -/
structure OptionalContent where
  groups : List OptionalContentGroup := []
  defaultConfiguration : OptionalContentConfiguration := {}
  deriving Repr

namespace OptionalContent

/-- The library's `IOptionalContent::create`: no group, and a default
configuration whose order is empty. -/
def create : OptionalContent := {}

/-- The library's `addGroup(group, sourceDocument)`: the group is added after the
groups already there. -/
def addGroup (self : OptionalContent) (group : OptionalContentGroup) : OptionalContent :=
  { self with groups := self.groups ++ [group] }

end OptionalContent

/-- A document, `IDocument`: its pages, the root of its outline tree (`none`
without an outline), its named destinations and its optional content (`none`
without optional content). -/
structure Document where
  pages : List Page := []
  outline : Option OutlineTreeNode := none
  namedDestinations : List NamedDestination := []
  optionalContent : Option OptionalContent := none
  deriving Repr

namespace Document

/-- The document's `getNumPages()`, a `uint32`. -/
def getNumPages (d : Document) : Nat := d.pages.length % 4294967296

/-- The document's `getPage(index)`; `none` when there is no such page. -/
def getPage (d : Document) (index : Nat) : Option Page := d.pages[index]?

/-- The document's `appendPage(page)`. -/
def appendPage (d : Document) (page : Page) : Document :=
  { d with pages := d.pages ++ [page] }

end Document

/-! ## Layers (`Layers.cpp`) -/

/-- The merged optional content, `class Layers`.  The member `m_newConfiguration`
points at the default configuration of `m_newOptionalContent` and is that
field here. -/
structure Layers where
  m_newOptionalContent : OptionalContent
  m_newOrderEntryVect : List COrderEntry
  deriving Repr

namespace Layers

/-- The constructor of `Layers`. -/
def create : Layers :=
  let m_newOptionalContent := OptionalContent.create
  { m_newOptionalContent := m_newOptionalContent,
    m_newOrderEntryVect := m_newOptionalContent.defaultConfiguration.order }

/-- The loop of `AppendDocumentLayers` that copies the groups over. -/
def addGroups (target : OptionalContent) : List OptionalContentGroup → OptionalContent
  | [] => target
  | group :: rest => addGroups (target.addGroup group) rest

/-- The source's `AppendDocumentLayers(sourceDocument, name)`: the value returned
and the object afterwards. -/
def AppendDocumentLayers (self : Layers) (sourceDocument : Document) (name : String) :
    Bool × Layers :=
  match sourceDocument.optionalContent with
  | some optionalContent =>
    let content := addGroups self.m_newOptionalContent optionalContent.groups
    let newOrderEntry :=
      COrderEntry.mk false COrderEntry.create.groupRef name
        optionalContent.defaultConfiguration.order
    let m_newOrderEntryVect := self.m_newOrderEntryVect ++ [newOrderEntry]
    (true,
      { m_newOptionalContent :=
          { content with
            defaultConfiguration :=
              { order := m_newOrderEntryVect, listMode := eListMode.eLMAllPages } },
        m_newOrderEntryVect := m_newOrderEntryVect })
  | none => (true, self)

/-- The source's `getLayers()`. -/
def getLayers (self : Layers) : OptionalContent := self.m_newOptionalContent

/-- A sequence of calls of `AppendDocumentLayers`, one for each document and name:
the values returned, in call order, and the object afterwards. -/
def appendDocuments (self : Layers) : List (Document × String) → List Bool × Layers
  | [] => ([], self)
  | (sourceDocument, name) :: rest =>
    let (result, self1) := self.AppendDocumentLayers sourceDocument name
    let (results, self2) := appendDocuments self1 rest
    (result :: results, self2)

end Layers

/-! ## The bookmark tree (`BookMarkTreeNode.cpp`) -/

/-- The map from page identifier to page index, `std::map<DOMid, int>`, as the
list of its assignments, latest first. -/
abbrev PageIdToIndexMap := List (DOMid × Int)

/-- The map's `m[k] = v`. -/
def PageIdToIndexMap.assign (m : PageIdToIndexMap) (k : DOMid) (v : Int) : PageIdToIndexMap :=
  (k, v) :: m

/-- The map's `find(k)`: the value assigned to `k` last, `none` for `end()`. -/
def PageIdToIndexMap.find (m : PageIdToIndexMap) (k : DOMid) : Option Int :=
  List.lookup k m

/-- A node of the bookmark tree, `class BookmarkTreeNode`: the source document,
the outline entry (`none` at the root) and the children.  The non-owning
`m_parent` pointer, which nothing reads, is left out. -/
inductive BookmarkTreeNode where
  | mk (m_sourceDocument : Document) (m_outline : Option OutlineEntry)
      (m_children : List BookmarkTreeNode)
  deriving Repr

namespace BookmarkTreeNode

/-- The source document of a node. -/
def m_sourceDocument : BookmarkTreeNode → Document
  | mk d _ _ => d

/-- The outline entry of a node. -/
def m_outline : BookmarkTreeNode → Option OutlineEntry
  | mk _ o _ => o

/-- The children of a node. -/
def m_children : BookmarkTreeNode → List BookmarkTreeNode
  | mk _ _ cs => cs

/-- The source's `addChild(outline)`: a new child without children, at the end. -/
def addChild : BookmarkTreeNode → OutlineEntry → BookmarkTreeNode
  | mk d o cs, outline => mk d o (cs ++ [mk d (some outline) []])

/-- The update in place of the last child, `m_children[m_children.size() - 1]`. -/
def updateLastChild (f : BookmarkTreeNode → BookmarkTreeNode) :
    BookmarkTreeNode → BookmarkTreeNode
  | mk d o cs =>
    match cs.getLast? with
    | none => mk d o cs
    | some c => mk d o (cs.dropLast ++ [f c])

mutual
/-- The source's `getChildCount(true)`: one plus the count of each child,
accumulated in a `uint32`. -/
def countRecursive : BookmarkTreeNode → Nat
  | mk _ _ cs => countChildren 0 cs
/-- The loop of `getChildCount(true)` over the children, from a running count. -/
def countChildren (count : Nat) : List BookmarkTreeNode → Nat
  | [] => count
  | c :: rest => countChildren ((count + (1 + countRecursive c) % 4294967296) % 4294967296) rest
end

/-- The source's `getChildCount(recurse)`. -/
def getChildCount (node : BookmarkTreeNode) (recurse : Bool) : Nat :=
  if !recurse then node.m_children.length % 4294967296 else countRecursive node

end BookmarkTreeNode

/-- The source's `getOutlineRectTarget(outline)`: the entry's target when it has
one and it is a page-rectangle target. -/
def getOutlineRectTarget (outline : OutlineEntry) : Option PageRectTarget :=
  match outline.target with
  | some (Target.pageRect r) => some r
  | _ => none

/-- The source's `getOutlinePageId(outline, pageId)`: `none` for `false`. -/
def getOutlinePageId (outline : OutlineEntry) : Option DOMid :=
  match getOutlineRectTarget outline with
  | none => none
  | some rectTarget => some rectTarget.pageId

/-- The source's `bookmarkHasPageId(outlineEntry, pageIds)`. -/
def bookmarkHasPageId (outlineEntry : OutlineEntry) (pageIds : List DOMid) : Bool :=
  match getOutlinePageId outlineEntry with
  | none => false
  | some pageId => pageIds.contains pageId

mutual
/-- The source's `buildBookmarkTree(root, pageIds, outlineRoot)`; the updated
`root` is returned. -/
def buildBookmarkTree (root : BookmarkTreeNode) (pageIds : List DOMid) :
    OutlineTreeNode → BookmarkTreeNode
  | OutlineTreeNode.mk _ children => buildBookmarkTreeLoop root pageIds children
/-- The loop of `buildBookmarkTree` over the children of `outlineRoot`. -/
def buildBookmarkTreeLoop (root : BookmarkTreeNode) (pageIds : List DOMid) :
    List OutlineTreeNode → BookmarkTreeNode
  | [] => root
  | treeNode :: rest =>
    match treeNode.data with
    | none => buildBookmarkTreeLoop root pageIds rest
    | some outlineEntry =>
      if bookmarkHasPageId outlineEntry pageIds then
        buildBookmarkTreeLoop
          ((root.addChild outlineEntry).updateLastChild
            (fun child => buildBookmarkTree child pageIds treeNode))
          pageIds rest
      else buildBookmarkTreeLoop root pageIds rest
end

/-- The loop of `createFromDocument` that collects the page identifiers:
`count` iterations from index `i`. -/
def collectPageIds (document : Document) : Nat → Int → List DOMid → Option (List DOMid)
  | 0, _, pageIds => some pageIds
  | count + 1, i, pageIds =>
    match document.getPage (toUInt32 i) with
    | none => none
    | some page => collectPageIds document count (i + 1) (pageIds.insert page.pageId)

/-- The source's `createFromDocument(document, startPageIndex, endPageIndex)`.
The loop `for (int i = start; i <= end; i++)` makes `end + 1 - start`
iterations, none when that is negative. -/
def BookmarkTreeNode.createFromDocument (document : Document)
    (startPageIndex endPageIndex : Int) : Option BookmarkTreeNode :=
  let root := BookmarkTreeNode.mk document none []
  match document.outline with
  | none => some root
  | some outlineRoot =>
    match collectPageIds document (endPageIndex + 1 - startPageIndex).toNat startPageIndex [] with
    | none => none
    | some pageIds => some (buildBookmarkTree root pageIds outlineRoot)

/-- The loop of `buildPageIdToPageIndexMap`: `count` iterations from index `i`. -/
def buildPageIdToPageIndexMapLoop (document : Document) :
    Nat → Nat → PageIdToIndexMap → Option PageIdToIndexMap
  | 0, _, map => some map
  | count + 1, i, map =>
    match document.getPage i with
    | none => none
    | some page =>
      buildPageIdToPageIndexMapLoop document count (i + 1) (map.assign page.pageId (toInt32 i))

/-- The source's `buildPageIdToPageIndexMap(document)`. -/
def buildPageIdToPageIndexMap (document : Document) : Option PageIdToIndexMap :=
  buildPageIdToPageIndexMapLoop document document.getNumPages 0 []

mutual
/-- The source's `copyNodeTree`; the updated `targetOutlineRoot` is returned,
`none` when a call of the library fails.  The new node is filled by the
recursive call and then appended, which is what appending it and filling it
through the shared pointer amounts to. -/
def copyNodeTree (currentNode : BookmarkTreeNode) (targetDocument : Document)
    (sourceToTargetPageDelta : Int) (pageIdToPageIndexMap : PageIdToIndexMap)
    (targetOutlineRoot : OutlineTreeNode) : Option OutlineTreeNode :=
  match currentNode with
  | BookmarkTreeNode.mk _ _ children =>
    copyNodeTreeLoop children targetDocument sourceToTargetPageDelta pageIdToPageIndexMap
      targetOutlineRoot
/-- The loop of `copyNodeTree` over the children of `currentNode`. -/
def copyNodeTreeLoop (children : List BookmarkTreeNode) (targetDocument : Document)
    (sourceToTargetPageDelta : Int) (pageIdToPageIndexMap : PageIdToIndexMap)
    (targetOutlineRoot : OutlineTreeNode) : Option OutlineTreeNode :=
  match children with
  | [] => some targetOutlineRoot
  | childNode :: rest =>
    match childNode.m_outline with
    | none => none
    | some outline =>
      match getOutlinePageId outline with
      | none =>
        copyNodeTreeLoop rest targetDocument sourceToTargetPageDelta pageIdToPageIndexMap
          targetOutlineRoot
      | some pageId =>
        match pageIdToPageIndexMap.find pageId with
        | none =>
          copyNodeTreeLoop rest targetDocument sourceToTargetPageDelta pageIdToPageIndexMap
            targetOutlineRoot
        | some mapEntry =>
          match getOutlineRectTarget outline,
            targetDocument.getPage (toUInt32 (addInt32 mapEntry sourceToTargetPageDelta)) with
          | some target, some page =>
            let clonedTarget : PageRectTarget := { target with pageId := page.pageId }
            let clonedOutline : OutlineEntry :=
              { outline with target := some (Target.pageRect clonedTarget) }
            match copyNodeTree childNode targetDocument sourceToTargetPageDelta
                pageIdToPageIndexMap (OutlineTreeNode.mk (some clonedOutline) []) with
            | none => none
            | some node =>
              copyNodeTreeLoop rest targetDocument sourceToTargetPageDelta
                pageIdToPageIndexMap (targetOutlineRoot.appendChild node)
          | _, _ => none
end

/-- The source's `appendToDocument`; the updated target document and the updated
`targetOutline` are returned.  Without a `targetOutline` the root of the target
document's outline is used, and the outline is created when missing. -/
def BookmarkTreeNode.appendToDocument (self : BookmarkTreeNode) (targetDocument : Document)
    (sourceToTargetPageDelta : Int) (targetOutline : Option OutlineTreeNode) :
    Option (Document × Option OutlineTreeNode) :=
  match buildPageIdToPageIndexMap self.m_sourceDocument with
  | none => none
  | some pageIdToPageIndexMap =>
    match targetOutline with
    | none =>
      let outlineRoot := targetDocument.outline.getD (OutlineTreeNode.mk none [])
      match copyNodeTree self targetDocument sourceToTargetPageDelta pageIdToPageIndexMap
          outlineRoot with
      | none => none
      | some newRoot => some ({ targetDocument with outline := some newRoot }, none)
    | some targetOutlineRoot =>
      match copyNodeTree self targetDocument sourceToTargetPageDelta pageIdToPageIndexMap
          targetOutlineRoot with
      | none => none
      | some newRoot => some (targetDocument, some newRoot)

/-! ## The assembly loop (`main` of `makocombiner.cpp`) -/

/-- The file formats of the source, `eFileFormat`, as far as the combiner names them. -/
inductive eFileFormat where
  | eFFPDF
  | eFFXPS
  | eFFPCLXL
  | eFFPCL5
  | eFFUnknown
  deriving DecidableEq, Repr

/-- A command argument split into its parts, `struct sArgument`. -/
structure sArgument where
  fullPath : String := ""
  basename : String := ""
  ext : String := ""
  modifier : String := ""
  fileFormat : eFileFormat := eFileFormat.eFFUnknown
  pageRanges : List sPageRange := []
  deriving DecidableEq, Repr

/-- The position of the last occurrence of a character, `find_last_of`; `none`
for `npos`. -/
def findLastOf (text : List Char) (c : Char) : Option Nat :=
  if text.reverse.indexOf c < text.length then
    some (text.length - 1 - text.reverse.indexOf c)
  else none

/-- The source's `filenameWithoutPrecedingPath(path)`.  The path separator
`PATH_SEP_CHAR` is a macro of the document library and is a parameter here. -/
def filenameWithoutPrecedingPath (pathSep : Char) (path : String) : String :=
  match findLastOf path.toList pathSep with
  | some lastPathSeparator => String.mk (path.toList.drop (lastPathSeparator + 1))
  | none => path

/-- The colour of the bookmark of an input document: alpha 1.0, red 0.09,
green 0.6, blue 0.89. -/
def blueColor : Color := { alpha := 100, red := 9, green := 60, blue := 89 }

/-- The text style `IDOMOutlineEntry::eTextStyleBold`, a constant of the document
library. -/
def eTextStyleBold : Nat := 2

/-- The source's `makeOutlineNode(jawsMako, pageIndex, entry)`: an open, bold,
blue entry that targets the whole page `pageIndex + 1`. -/
def makeOutlineNode (pageIndex : Nat) (entry : String) : OutlineTreeNode :=
  OutlineTreeNode.mk
    (some { title := entry, isOpen := true,
            target := some (Target.page ((pageIndex + 1) % 4294967296)),
            color := some blueColor, textStyle := eTextStyleBold })
    []

/-- The loop of lines 430-438 of `main`: `count` iterations from `pageIndex`,
each appending one page of the source document to the output document
(`deepCopy` is the constant `false`). -/
def copyPages (sourceDocument : Document) : Nat → Nat → Document → Option Document
  | 0, _, document => some document
  | count + 1, pageIndex, document =>
    match sourceDocument.getPage pageIndex with
    | none => none
    | some sourcePage =>
      copyPages sourceDocument count (pageIndex + 1) (document.appendPage sourcePage)

/-- The state of the loop over the page ranges of one input document: the
output document, the bookmark `newNode` of the input document (a child of the
output outline's root, reached through its own pointer) and the running offset
`targetDocumentPageIndex`. -/
structure CombinerState where
  document : Document
  newNode : OutlineTreeNode
  targetDocumentPageIndex : Nat
  deriving Repr

/-- One iteration of the loop of lines 416-450 of `main`, for the stored range
`pageRange`.  The page loop runs from `sourceFirstPageIndex` while
`pageIndex < lastPage`, that is `lastPage - sourceFirstPageIndex` times. -/
def processPageRange (sourceDocument : Document) (pageCount : Nat) (st : CombinerState)
    (pageRange : sPageRange) : Option CombinerState :=
  let pageRange := adjustPageRange pageCount pageRange
  let sourceFirstPageIndex := u32sub pageRange.firstPage 1
  let sourceLastPageIndex := u32sub pageRange.lastPage 1
  match copyPages sourceDocument (pageRange.lastPage - sourceFirstPageIndex)
      sourceFirstPageIndex st.document with
  | none => none
  | some document =>
    match BookmarkTreeNode.createFromDocument sourceDocument (toInt32 sourceFirstPageIndex)
        (toInt32 sourceLastPageIndex) with
    | none => none
    | some sourceBookmarks =>
      let appended :=
        if sourceBookmarks.getChildCount true ≠ 0 then
          sourceBookmarks.appendToDocument document
            (toInt32 (u32sub st.targetDocumentPageIndex sourceFirstPageIndex)) (some st.newNode)
        else some (document, some st.newNode)
      match appended with
      | some (document1, some newNode) =>
        some { document := document1, newNode := newNode,
               targetDocumentPageIndex :=
                 (st.targetDocumentPageIndex
                   + (u32sub sourceLastPageIndex sourceFirstPageIndex + 1)) % 4294967296 }
      | _ => none

/-- The loop of lines 416-450 of `main` over the page ranges of one input document. -/
def processPageRanges (sourceDocument : Document) (pageCount : Nat) :
    List sPageRange → CombinerState → Option CombinerState
  | [], st => some st
  | pageRange :: rest, st =>
    match processPageRange sourceDocument pageCount st pageRange with
    | none => none
    | some st1 => processPageRanges sourceDocument pageCount rest st1

/-- Lines 397-450 of `main`: the pages and the bookmarks of one input document
are added to the output document.  The new bookmark of the input document is
appended to the root of the output outline. -/
def copyInputDocument (pathSep : Char) (document : Document) (argument : sArgument)
    (sourceDocument : Document) : Option Document :=
  let targetDocumentPageIndex := document.getNumPages
  let pageCount := sourceDocument.getNumPages
  let pageRanges := defaultPageRanges argument.pageRanges pageCount
  let newNode := makeOutlineNode targetDocumentPageIndex
    (filenameWithoutPrecedingPath pathSep argument.fullPath)
  match document.outline with
  | none => none
  | some outlineRoot =>
    match processPageRanges sourceDocument pageCount pageRanges
        { document := document, newNode := newNode,
          targetDocumentPageIndex := targetDocumentPageIndex } with
    | none => none
    | some st => some { st.document with outline := some (outlineRoot.appendChild st.newNode) }

/-! ## Named destinations (`NamedDestinations.cpp`) -/

/-- The state of the C library's `rand()`: the sequence of the values it will
return and the number of values drawn so far. -/
structure RandState where
  draws : Nat → Nat
  pos : Nat := 0

/-- A call of `rand()`. -/
def rand (g : RandState) : Nat × RandState := (g.draws g.pos, { g with pos := g.pos + 1 })

/-- The registry of named destinations, `class NamedDestinations`. -/
structure NamedDestinations where
  m_destinations : List NamedDestination := []
  m_names : List String := []
  deriving DecidableEq, Repr

/-- The member `suffixChars` of `NamedDestinations`. -/
def suffixChars : String := "ABCDEFGHIJKLMNOPQRSTUVWXYZ0123456789abcdefghijklmnopqrstuvwxyz"

/-- The character `suffixChars[index]`; at the length of the string it is the
terminating null character. -/
def suffixCharAt (index : Nat) : Char := suffixChars.toList.getD index (Char.ofNat 0)

namespace NamedDestinations

/-- The source's `append(namedDestination)`: a destination whose name is already
known is replaced by a copy with a suffixed name, drawn with two calls of
`rand()`. -/
def append (self : NamedDestinations) (g : RandState) (namedDestination : NamedDestination) :
    NamedDestinations × RandState :=
  let name := namedDestination.name
  if self.m_names.contains name then
    let (r1, g1) := rand g
    let (r2, g2) := rand g1
    let suffix := String.mk [Char.ofNat 46, suffixCharAt (r1 % 63), suffixCharAt (r2 % 63)]
    let name := name ++ suffix
    let renamedNamedDestination : NamedDestination :=
      { name := name, target := namedDestination.target }
    ({ m_destinations := self.m_destinations ++ [renamedNamedDestination],
       m_names := self.m_names ++ [name] }, g2)
  else
    ({ m_destinations := self.m_destinations ++ [namedDestination],
       m_names := self.m_names ++ [name] }, g)

/-- The loop of `appendAll` over the named destinations of the document. -/
def appendList (self : NamedDestinations) (g : RandState) :
    List NamedDestination → NamedDestinations × RandState
  | [] => (self, g)
  | namedDestination :: rest =>
    let (self1, g1) := self.append g namedDestination
    appendList self1 g1 rest

/-- The source's `appendAll(document)`. -/
def appendAll (self : NamedDestinations) (g : RandState) (document : Document) :
    NamedDestinations × RandState :=
  self.appendList g document.namedDestinations

/-- The first loop of `appendRange`: the identifiers of the pages from `pageIndex`
on, `count` of them; `none` when the document has no page at an index. -/
def rangePageIds (document : Document) : Nat → Nat → List DOMid → Option (List DOMid)
  | 0, _, pageIds => some pageIds
  | count + 1, pageIndex, pageIds =>
    match document.getPage pageIndex with
    | none => none
    | some page => rangePageIds document count (pageIndex + 1) (pageIds ++ [page.pageId])

/-- The second loop of `appendRange`: a destination is appended when it has a
target and `indexOf` finds the target's page identifier among `pageIds`; when
it does not, `indexOf` throws and the destination is passed over. -/
def appendRangeLoop (pageIds : List DOMid) (self : NamedDestinations) (g : RandState) :
    List NamedDestination → NamedDestinations × RandState
  | [] => (self, g)
  | namedDestination :: rest =>
    match namedDestination.target with
    | some target =>
      if pageIds.contains target.pageId then
        let (self1, g1) := self.append g namedDestination
        appendRangeLoop pageIds self1 g1 rest
      else appendRangeLoop pageIds self g rest
    | none => appendRangeLoop pageIds self g rest

/-- The source's `appendRange(document, firstPage, lastPage)`.  The page loop runs
from `firstPage - 1` while `pageIndex < lastPage`. -/
def appendRange (self : NamedDestinations) (g : RandState) (document : Document)
    (firstPage lastPage : Nat) : Option (NamedDestinations × RandState) :=
  let self1 : NamedDestinations := { self with m_destinations := [] }
  match rangePageIds document (lastPage - u32sub firstPage 1) (u32sub firstPage 1) [] with
  | none => none
  | some pageIds => some (appendRangeLoop pageIds self1 g document.namedDestinations)

/-- The source's `getList()`. -/
def getList (self : NamedDestinations) : List NamedDestination := self.m_destinations

/-- A sequence of calls of `appendAll`, one for each document. -/
def appendAllDocuments (self : NamedDestinations) (g : RandState) :
    List Document → NamedDestinations × RandState
  | [] => (self, g)
  | document :: rest =>
    let (self1, g1) := self.appendAll g document
    appendAllDocuments self1 g1 rest

end NamedDestinations

/-! ## The whole of the assembly (`main` of `makocombiner.cpp`, lines 377-476) -/

/-- An input file of the list `inputFileList`: the argument and the document that
`IInput::open` reads from its path. -/
structure InputFile where
  argument : sArgument
  sourceDocument : Document

/-- The state of the loop of `main` over the input documents: the output
document, the registry of named destinations, the layers and the state of
`rand()`. -/
structure MainState where
  document : Document
  namedDestinations : NamedDestinations
  layers : Layers
  g : RandState

/-- One iteration of the loop of lines 386-459 of `main`, for one input file. -/
def processInput (pathSep : Char) (outputFileFormat : eFileFormat) (st : MainState)
    (input : InputFile) : Option MainState :=
  match copyInputDocument pathSep st.document input.argument input.sourceDocument with
  | none => none
  | some document =>
    let (namedDestinations, g) :=
      if outputFileFormat = eFileFormat.eFFPDF then
        st.namedDestinations.appendAll st.g input.sourceDocument
      else (st.namedDestinations, st.g)
    let layers :=
      if input.argument.fileFormat = eFileFormat.eFFPDF
          ∧ outputFileFormat = eFileFormat.eFFPDF then
        (st.layers.AppendDocumentLayers input.sourceDocument input.argument.basename).2
      else st.layers
    some { document := document, namedDestinations := namedDestinations, layers := layers,
           g := g }

/-- The loop of lines 386-459 of `main` over a list of input files. -/
def processInputs (pathSep : Char) (outputFileFormat : eFileFormat) :
    List InputFile → MainState → Option MainState
  | [], st => some st
  | input :: rest, st =>
    match processInput pathSep outputFileFormat st input with
    | none => none
    | some st1 => processInputs pathSep outputFileFormat rest st1

/-- The state before the first input document, lines 377-383 of `main`: an empty
document with an empty outline, an empty registry and new layers. -/
def initialState (g : RandState) : MainState :=
  { document := { pages := [], outline := some (OutlineTreeNode.mk none []) },
    namedDestinations := {}, layers := Layers.create, g := g }

/-- Lines 367-476 of `main`: the output document assembled from the input files;
`none` when `main` throws.  An empty list of input files is refused, and the
loop stops after 2048 input files. -/
def combine (pathSep : Char) (outputFileFormat : eFileFormat) (inputFileList : List InputFile)
    (g : RandState) : Option Document :=
  if inputFileList.isEmpty then none
  else
    match processInputs pathSep outputFileFormat (inputFileList.take 2048) (initialState g) with
    | none => none
    | some st =>
      let document :=
        if outputFileFormat = eFileFormat.eFFPDF then
          { st.document with namedDestinations := st.namedDestinations.getList }
        else st.document
      let document :=
        if outputFileFormat = eFileFormat.eFFPDF then
          { document with optionalContent := some st.layers.getLayers }
        else document
      some document

/-! ## Notions used in the statements about trees -/

mutual
/-- A node of an outline tree and all the nodes below it, in document order. -/
def OutlineTreeNode.nodes : OutlineTreeNode → List OutlineTreeNode
  | OutlineTreeNode.mk d cs => OutlineTreeNode.mk d cs :: OutlineTreeNode.forestNodes cs
/-- All the nodes of a list of outline trees, in document order. -/
def OutlineTreeNode.forestNodes : List OutlineTreeNode → List OutlineTreeNode
  | [] => []
  | c :: rest => OutlineTreeNode.nodes c ++ OutlineTreeNode.forestNodes rest
end

mutual
/-- A node of a bookmark tree and all the nodes below it, in document order. -/
def BookmarkTreeNode.nodes : BookmarkTreeNode → List BookmarkTreeNode
  | BookmarkTreeNode.mk d o cs => BookmarkTreeNode.mk d o cs :: BookmarkTreeNode.forestNodes cs
/-- All the nodes of a list of bookmark trees, in document order. -/
def BookmarkTreeNode.forestNodes : List BookmarkTreeNode → List BookmarkTreeNode
  | [] => []
  | c :: rest => BookmarkTreeNode.nodes c ++ BookmarkTreeNode.forestNodes rest
end

/-- The entries carried by the nodes of a list of outline trees. -/
def OutlineTreeNode.forestEntries (cs : List OutlineTreeNode) : List OutlineEntry :=
  (OutlineTreeNode.forestNodes cs).filterMap OutlineTreeNode.data

mutual
/-- A bookmark tree and an outline tree have the same shape, and the entries at
corresponding nodes are related by `R`. -/
def TreeRel (R : Option OutlineEntry → Option OutlineEntry → Prop) :
    BookmarkTreeNode → OutlineTreeNode → Prop
  | BookmarkTreeNode.mk _ o bs, OutlineTreeNode.mk d cs => R o d ∧ ForestRel R bs cs
/-- Two lists of trees have the same length and corresponding trees are related. -/
def ForestRel (R : Option OutlineEntry → Option OutlineEntry → Prop) :
    List BookmarkTreeNode → List OutlineTreeNode → Prop
  | [], [] => True
  | b :: bs, c :: cs => TreeRel R b c ∧ ForestRel R bs cs
  | [], _ :: _ => False
  | _ :: _, [] => False
end

/-- The children that `buildBookmarkTreeLoop` adds to a node of document
`document`, written without the accumulating node. -/
def buildForest (document : Document) (pageIds : List DOMid) :
    List OutlineTreeNode → List BookmarkTreeNode
  | [] => []
  | OutlineTreeNode.mk none _ :: rest => buildForest document pageIds rest
  | OutlineTreeNode.mk (some outlineEntry) children :: rest =>
    if bookmarkHasPageId outlineEntry pageIds then
      BookmarkTreeNode.mk document (some outlineEntry) (buildForest document pageIds children)
        :: buildForest document pageIds rest
    else buildForest document pageIds rest


/-! ## Notions used in the statements about the whole assembly -/

/-- The output document alone through the loop of `main`: the pages and the
bookmarks of each input file are added in turn. -/
def copyInputDocuments (pathSep : Char) : List InputFile → Document → Option Document
  | [], document => some document
  | input :: rest, document =>
    match copyInputDocument pathSep document input.argument input.sourceDocument with
    | none => none
    | some document1 => copyInputDocuments pathSep rest document1

/-- The ranges of an input file as `main` processes them: the default range when
the argument has none, and each range adjusted to the page count. -/
def InputFile.resolvedRanges (input : InputFile) : List sPageRange :=
  (defaultPageRanges input.argument.pageRanges input.sourceDocument.getNumPages).map
    (adjustPageRange input.sourceDocument.getNumPages)

/-- The number of pages that the ranges of an input file span, `lastPage -
firstPage + 1` for each as `main` processes it: the number of pages that they
select from a source with at least one page. -/
def InputFile.pageTotal (input : InputFile) : Nat :=
  (input.resolvedRanges.map (fun r => r.lastPage - r.firstPage + 1)).sum

/-- The pages that the ranges of an input file select, in the order of the
ranges. -/
def InputFile.selectedPages (input : InputFile) : List Page :=
  input.resolvedRanges.flatMap (fun r =>
    (input.sourceDocument.pages.drop (r.firstPage - 1)).take (r.lastPage - r.firstPage + 1))

/-! ## A small input, used to instantiate the theorems

A source document of three pages with the outline

    intro    -> page 1
      detail -> page 3
    annex    -> page 3

and an output document that is still empty.
-/

/-- The entry of the bookmark "intro", on the first page. -/
def exampleIntro : OutlineEntry :=
  { title := "intro", target := some (Target.pageRect { pageId := 11, zoom := 2 }) }

/-- The entry of the bookmark "detail", below "intro", on the third page. -/
def exampleDetail : OutlineEntry :=
  { title := "detail", target := some (Target.pageRect { pageId := 13, top := 40 }) }

/-- The entry of the bookmark "annex", on the third page. -/
def exampleAnnex : OutlineEntry :=
  { title := "annex", target := some (Target.pageRect { pageId := 13, top := 7 }) }

/-- The node of "intro", with "detail" below it. -/
def exampleIntroNode : OutlineTreeNode :=
  OutlineTreeNode.mk (some exampleIntro) [OutlineTreeNode.mk (some exampleDetail) []]

/-- The root of the outline of the source document. -/
def exampleOutline : OutlineTreeNode :=
  OutlineTreeNode.mk none [exampleIntroNode, OutlineTreeNode.mk (some exampleAnnex) []]

/-- The source document, with a named destination on its first page and one on
its third page. -/
def exampleSource : Document :=
  { pages := [{ pageId := 11, content := 1 }, { pageId := 12, content := 2 },
      { pageId := 13, content := 3 }],
    outline := some exampleOutline,
    namedDestinations := [{ name := "Intro", target := some { pageId := 11 } },
      { name := "End", target := some { pageId := 13 } }] }

/-- The output document before the first input: no page, an empty outline. -/
def exampleOutput : Document := { pages := [], outline := some (OutlineTreeNode.mk none []) }

/-- The state of the loop before the first range of the first input "a.pdf". -/
def exampleState : CombinerState :=
  { document := exampleOutput, newNode := makeOutlineNode 0 "a.pdf",
    targetDocumentPageIndex := 0 }

/-- The tree of bookmarks kept for the third page of the source document. -/
def exampleKept : BookmarkTreeNode :=
  BookmarkTreeNode.mk exampleSource none [BookmarkTreeNode.mk exampleSource (some exampleAnnex) []]

/-- An output document that holds the third page of the source document. -/
def exampleTarget : Document :=
  { pages := [{ pageId := 13, content := 3 }], outline := some (OutlineTreeNode.mk none []) }

/-- The argument "dir/a.pdf", given without page ranges. -/
def exampleArgument : sArgument := { fullPath := "dir/a.pdf", basename := "dir/a", ext := ".pdf" }

/-- The input file "dir/a.pdf" with the ranges "1-2": the third page of the example
document is left out. -/
def exampleInput : InputFile :=
  { argument := { exampleArgument with
      fileFormat := eFileFormat.eFFPDF,
      pageRanges := [{ firstPage := 1, lastPage := 2 }] },
    sourceDocument := exampleSource }

/-- A sequence of `rand()` that returns 0 at every call. -/
def exampleRand : RandState := { draws := fun _ => 0 }

/-- A document with the destinations "Intro.AA" and "Intro". -/
def exampleFirstNames : Document :=
  { pages := [{ pageId := 21 }],
    namedDestinations := [{ name := "Intro.AA", target := some { pageId := 21 } },
      { name := "Intro", target := some { pageId := 21 } }] }

/-- A document with the destination "Intro". -/
def exampleSecondNames : Document :=
  { pages := [{ pageId := 31 }],
    namedDestinations := [{ name := "Intro", target := some { pageId := 31 } }] }

/-! ## The scenario of two sources

Source A has three pages, a bookmark on its second page and the destination
"Intro" on its first page; source B has two pages, a bookmark on its first
page and the destination "Intro" on its first page.
-/

/-- The bookmark of source A, on its second page. -/
def scenarioBookmarkA : OutlineEntry :=
  { title := "Chapter", target := some (Target.pageRect { pageId := 102, zoom := 1 }) }

/-- The bookmark of source B, on its first page. -/
def scenarioBookmarkB : OutlineEntry :=
  { title := "Start", target := some (Target.pageRect { pageId := 201, top := 5 }) }

/-- Source A, given as "A.pdf" with the range "1-3". -/
def scenarioA : InputFile :=
  { argument :=
      { fullPath := "A.pdf", basename := "A", ext := ".pdf",
        fileFormat := eFileFormat.eFFPDF,
        pageRanges := [{ firstPage := 1, lastPage := 3 }] },
    sourceDocument :=
      { pages := [{ pageId := 101 }, { pageId := 102 }, { pageId := 103 }],
        outline := some (OutlineTreeNode.mk none [OutlineTreeNode.mk (some scenarioBookmarkA) []]),
        namedDestinations := [{ name := "Intro", target := some { pageId := 101 } }] } }

/-- Source B, given as "B.pdf" with the range "1-2". -/
def scenarioB : InputFile :=
  { argument :=
      { fullPath := "B.pdf", basename := "B", ext := ".pdf",
        fileFormat := eFileFormat.eFFPDF,
        pageRanges := [{ firstPage := 1, lastPage := 2 }] },
    sourceDocument :=
      { pages := [{ pageId := 201 }, { pageId := 202 }],
        outline := some (OutlineTreeNode.mk none [OutlineTreeNode.mk (some scenarioBookmarkB) []]),
        namedDestinations := [{ name := "Intro", target := some { pageId := 201 } }] } }

/-- An input file of one page, without outline, given without page ranges. -/
def exampleSingle : InputFile :=
  { argument := { fullPath := "s.pdf", basename := "s", ext := ".pdf" },
    sourceDocument := { pages := [{ pageId := 41 }] } }

/-- An input file without pages whose document has an outline, given without
page ranges. -/
def exampleNoPages : InputFile :=
  { argument := { fullPath := "e.pdf", basename := "e", ext := ".pdf" },
    sourceDocument := { pages := [], outline := some (OutlineTreeNode.mk none []) } }

/-- An input file without pages and without outline, given without page
ranges. -/
def exampleBlank : InputFile :=
  { argument := { fullPath := "dir/blank.pdf", basename := "dir/blank", ext := ".pdf" },
    sourceDocument := { pages := [] } }

/-- The ranges "2-3" and "1-2", which overlap on the second page. -/
def exampleRanges : List sPageRange :=
  [{ firstPage := 2, lastPage := 3 }, { firstPage := 1, lastPage := 2 }]

/-! ## Arguments (`split_argument` of `makocombiner.cpp`) -/

/-- The library's `towlower`, for the letters A to Z of the C locale. -/
def towlower (c : Char) : Char := c.toLower

/-- The lower-casing `std::transform(s.begin(), s.end(), s.begin(), towlower)`. -/
def toLowerString (s : String) : String := String.mk (s.toList.map towlower)

/-- The string's `substr(pos, n)`, for `pos` within the string. -/
def substr (s : String) (pos n : Nat) : String := String.mk ((s.toList.drop pos).take n)

/-- The string's `substr(pos)`, for `pos` within the string. -/
def substrFrom (s : String) (pos : Nat) : String := String.mk (s.toList.drop pos)

/-- The source's `formatFromExtension(ext)`. -/
def formatFromExtension (ext : String) : eFileFormat :=
  if ext = ".pdf" then eFileFormat.eFFPDF
  else if ext = ".xps" then eFileFormat.eFFXPS
  else if ext = ".pxl" then eFileFormat.eFFPCLXL
  else if ext = ".pcl" then eFileFormat.eFFPCL5
  else eFileFormat.eFFUnknown

/-- The loop `while (isSeparator(argument_ws, ';')) processRange(...)` of
`split_argument`, for at most `fuel` iterations; `none` when they do not
suffice. -/
def processRangesLoop {σ : Type} (strm : WIStreamOps σ) :
    Nat → List sPageRange → σ → Option (List sPageRange × σ)
  | 0, _, _ => none
  | fuel + 1, results, source =>
    let (sep, s1) := isSeparator strm source ';'
    if sep then
      let (results1, s2) := processRange strm results s1
      processRangesLoop strm fuel results1 s2
    else some (results, s1)

/-- The source's `split_argument(path)`; `none` when it throws.  A path without a
full stop returns the argument as constructed, whose file format the source
leaves unset and which is `eFFUnknown` here.  Each round of the loop over the
ranges consumes a character of the modifier, which bounds their number. -/
def split_argument (path : String) : Option sArgument :=
  if path.length < 5 then none
  else
    let extensionPosition := findLastOf path.toList '.'
    let modifierPosition := findLastOf path.toList '/'
    let argument : sArgument := {}
    match extensionPosition with
    | none => some argument
    | some extensionPosition =>
      let basename := substr path 0 extensionPosition
      let parts : Option (String × String × List sPageRange) :=
        match modifierPosition with
        | some modifierPosition =>
          if modifierPosition > extensionPosition then
            let extension := substr path extensionPosition (modifierPosition - extensionPosition)
            if path.length > modifierPosition then
              let modifier := toLowerString
                (substr path (modifierPosition + 1) (path.length - modifierPosition))
              if modifier.length > 1 then
                let (results, s1) :=
                  processRange WIStream.ops argument.pageRanges (WIStream.ofString modifier)
                match processRangesLoop WIStream.ops (modifier.length + 1) results s1 with
                | none => none
                | some (pageRanges, _) => some (extension, substr modifier 0 1, pageRanges)
              else some (extension, substr modifier 0 1, argument.pageRanges)
            else some (extension, argument.modifier, argument.pageRanges)
          else some ("", argument.modifier, argument.pageRanges)
        | none => some (substrFrom path extensionPosition, argument.modifier, argument.pageRanges)
      match parts with
      | none => none
      | some (extension, modifier, pageRanges) =>
        let ext := toLowerString extension
        some { fullPath := basename ++ ext, basename := basename, ext := ext,
               modifier := modifier, fileFormat := formatFromExtension ext,
               pageRanges := pageRanges }

/-! ## Notions used in the statements about the shape of trees -/

mutual
/-- The paths of an outline tree below the path `pre`: for the node and for each
node below it, in document order, the data from the top down to that node. -/
def OutlineTreeNode.paths (pre : List (Option OutlineEntry)) :
    OutlineTreeNode → List (List (Option OutlineEntry))
  | OutlineTreeNode.mk d cs => (pre ++ [d]) :: OutlineTreeNode.forestPaths (pre ++ [d]) cs
/-- The paths of a list of outline trees below the path `pre`, in document order. -/
def OutlineTreeNode.forestPaths (pre : List (Option OutlineEntry)) :
    List OutlineTreeNode → List (List (Option OutlineEntry))
  | [] => []
  | c :: rest => OutlineTreeNode.paths pre c ++ OutlineTreeNode.forestPaths pre rest
end

mutual
/-- The paths of a bookmark tree below the path `pre`: for the node and for each
node below it, in document order, the entries from the top down to that node. -/
def BookmarkTreeNode.paths (pre : List (Option OutlineEntry)) :
    BookmarkTreeNode → List (List (Option OutlineEntry))
  | BookmarkTreeNode.mk _ o cs => (pre ++ [o]) :: BookmarkTreeNode.forestPaths (pre ++ [o]) cs
/-- The paths of a list of bookmark trees below the path `pre`, in document order. -/
def BookmarkTreeNode.forestPaths (pre : List (Option OutlineEntry)) :
    List BookmarkTreeNode → List (List (Option OutlineEntry))
  | [] => []
  | c :: rest => BookmarkTreeNode.paths pre c ++ BookmarkTreeNode.forestPaths pre rest
end

/-- What `buildBookmarkTree` asks of the data of a node to keep it: an entry whose
target is on a page of the set. -/
def dataKept (pageIds : List DOMid) : Option OutlineEntry → Bool
  | some outlineEntry => bookmarkHasPageId outlineEntry pageIds
  | none => false

/-- A bookmark on a whole page, which has no page-rectangle target. -/
def examplePageBookmark : BookmarkTreeNode :=
  BookmarkTreeNode.mk exampleSource
    (some { title := "cover", target := some (Target.page 1) })
    [BookmarkTreeNode.mk exampleSource (some exampleAnnex) []]

end MakoCombiner

/-! # The imposer (`makoimposer.cpp`) -/

namespace MakoImposer

open MakoCombiner (findLastOf towlower toLowerString substr substrFrom)

/-- The file formats that the imposer names, of the library's `eFileFormat`. -/
inductive eFileFormat where
  | eFFPDF
  | eFFXPS
  | eFFPS
  | eFFPCLXL
  | eFFPCL5
  deriving DecidableEq, Repr

/-- The size of a page, `struct sPageSize`. -/
structure sPageSize where
  width : Rat
  height : Rat
  deriving DecidableEq, Repr

/-- The parameters of a run, `struct sParameters`.  The source leaves the file
names empty and sets the other fields in `parse_params`. -/
structure sParameters where
  inputFullPath : String := ""
  inputBasename : String := ""
  inputType : eFileFormat := eFileFormat.eFFPDF
  userPassword : String := ""
  outputPath : String := ""
  outputBasename : String := ""
  outputType : eFileFormat := eFileFormat.eFFPDF
  outputFullPath : String := ""
  flattenTransparency : Bool := false
  simulateOverprint : Bool := false
  sequential : Bool := false
  spreadWidth : Rat := 0
  spreadHeight : Rat := 0
  deriving DecidableEq, Repr

/-- The source's `filenameWithoutPrecedingPath(path)`; the path separator
`PATH_SEP_CHAR` is a macro of the document library and is a parameter here. -/
def filenameWithoutPrecedingPath (pathSep : Char) (path : String) : String :=
  match findLastOf path.toList pathSep with
  | some lastPathSeparator => substrFrom path (lastPathSeparator + 1)
  | none => path

/-- The source's `precedingPathWithoutFilename(path)`. -/
def precedingPathWithoutFilename (pathSep : Char) (path : String) : String :=
  match findLastOf path.toList pathSep with
  | some lastPathSeparator => substr path 0 (lastPathSeparator + 1)
  | none => ""

/-- The source's `basename(path)`. -/
def basename (pathSep : Char) (path : String) : String :=
  let filepath := filenameWithoutPrecedingPath pathSep path
  match findLastOf filepath.toList '.' with
  | some extensionPosition => substr filepath 0 extensionPosition
  | none => path

/-- The source's `getExtension(path)`; `none` when it throws: for a path of fewer
than 4 characters, and in `substr` for a path without a full stop. -/
def getExtension (path : String) : Option String :=
  if path.length < 4 then none
  else
    match findLastOf path.toList '.' with
    | some extensionPosition => some (toLowerString (substrFrom path extensionPosition))
    | none => none

/-- The source's `fileFormatFromPath(path)`; `none` when it throws. -/
def fileFormatFromPath (path : String) : Option eFileFormat :=
  match getExtension path with
  | none => none
  | some extension =>
    if extension = ".ps" ∨ extension = ".eps" then some eFileFormat.eFFPS
    else if extension = ".pdf" then some eFileFormat.eFFPDF
    else if extension = ".xps" then some eFileFormat.eFFXPS
    else if extension = ".pxl" then some eFileFormat.eFFPCLXL
    else if extension = ".pcl" then some eFileFormat.eFFPCL5
    else none

/-- The source's `extensionFromFormat(fmt)`. -/
def extensionFromFormat (fmt : eFileFormat) : String :=
  match fmt with
  | eFileFormat.eFFPDF => ".pdf"
  | eFileFormat.eFFXPS => ".xps"
  | eFileFormat.eFFPS => ".ps"
  | eFileFormat.eFFPCLXL => ".pxl"
  | eFileFormat.eFFPCL5 => ".pcl"

/-- The position of the first occurrence of a character, the string's `find`;
`none` for `npos`. -/
def find (text : String) (c : Char) : Option Nat :=
  if text.toList.indexOf c < text.length then some (text.toList.indexOf c) else none

/-- The upper-casing `transform(s.begin(), s.end(), s.begin(), towupper)`, for the
letters a to z of the C locale. -/
def toUpperString (s : String) : String := String.mk (s.toList.map Char.toUpper)

/-- The answer of `value == L"yes" || value == L"true"` after lower-casing. -/
def isYes (value : String) : Bool :=
  toLowerString value = "yes" || toLowerString value = "true"

/-- One round of the loop of `parse_params`, for one argument; `none` when it
throws. -/
def parse_param (pathSep : Char) (pageSizes : List (String × sPageSize))
    (params : sParameters) (argument : String) : Option sParameters :=
  match find argument '=' with
  | none =>
    if params.inputFullPath.length = 0 then
      match fileFormatFromPath argument with
      | none => none
      | some inputType =>
        let inputBasename := basename pathSep argument
        let outputBasename := inputBasename ++ "_booklet"
        let outputPath := precedingPathWithoutFilename pathSep argument
        some { params with
          inputFullPath := argument, inputType := inputType, inputBasename := inputBasename,
          outputBasename := outputBasename, outputPath := outputPath,
          outputType := eFileFormat.eFFPDF,
          outputFullPath := outputPath ++ outputBasename
            ++ extensionFromFormat eFileFormat.eFFPDF }
    else
      let outputPath := precedingPathWithoutFilename pathSep argument
      let outputBasename := basename pathSep argument ++ "_booklet"
      match fileFormatFromPath argument with
      | none => none
      | some outputType =>
        some { params with
          outputPath := outputPath, outputBasename := outputBasename,
          outputType := outputType,
          outputFullPath := outputPath ++ outputBasename ++ extensionFromFormat outputType }
  | some equalsPos =>
    let setting := toLowerString (substr argument 0 equalsPos)
    let value := substrFrom argument (equalsPos + 1)
    if setting = "pw" then some { params with userPassword := value }
    else if setting = "f" then
      some (if isYes value then { params with flattenTransparency := true } else params)
    else if setting = "o" then
      some (if isYes value then { params with simulateOverprint := true } else params)
    else if setting = "s" then
      some (if isYes value then { params with sequential := true } else params)
    else if setting = "p" then
      match pageSizes.lookup (toUpperString value) with
      | some pageSize =>
        some { params with spreadWidth := pageSize.width, spreadHeight := pageSize.height }
      | none => some params
    else some params

/-- The loop of `parse_params` over the arguments. -/
def parse_params_loop (pathSep : Char) (pageSizes : List (String × sPageSize)) :
    List String → sParameters → Option sParameters
  | [], params => some params
  | argument :: rest, params =>
    match parse_param pathSep pageSizes params argument with
    | none => none
    | some params1 => parse_params_loop pathSep pageSizes rest params1

/-- The source's `parse_params(arguments, pageSizes)`; `none` when it throws. -/
def parse_params (pathSep : Char) (arguments : List String)
    (pageSizes : List (String × sPageSize)) : Option sParameters :=
  parse_params_loop pathSep pageSizes arguments {}

/-- The number of spreads, lines 577-581 of `main`, in `uint32` arithmetic. -/
def numSpreads (sequential : Bool) (numPages : Nat) : Nat :=
  if sequential then ((numPages + 1) % 4294967296) / 2
  else (((numPages + 3) % 4294967296) / 4 * 2) % 4294967296

/-- A spread: the index of the source page imposed on the left and the index of
the one imposed on the right; `none` for a side left blank. -/
structure Spread where
  left : Option Nat
  right : Option Nat
  deriving DecidableEq, Repr

/-- The body of the loop of lines 584-616 and 642-646 of `main`, for the spread
`i`: page A is imposed on the left and page B on the right, after the swap of
the even spreads of a booklet. -/
def spread (sequential : Bool) (numPages numSpreads i : Nat) : Spread :=
  let pageANum := if sequential then (i * 2) % 4294967296 else i
  let pageA := if pageANum < numPages then some pageANum else none
  let pageBNum :=
    if sequential then ((i * 2) % 4294967296 + 1) % 4294967296
    else MakoCombiner.u32sub (MakoCombiner.u32sub ((numSpreads * 2) % 4294967296) i) 1
  let pageB := if pageBNum < numPages then some pageBNum else none
  if !sequential && i % 2 == 0 then { left := pageB, right := pageA }
  else { left := pageA, right := pageB }

/-- The spreads that the loop of `main` makes, in order. -/
def spreads (sequential : Bool) (numPages : Nat) : List Spread :=
  (List.range (numSpreads sequential numPages)).map
    (spread sequential numPages (numSpreads sequential numPages))

/-- The indices of the source pages on the sides of a list of spreads. -/
def placed (l : List Spread) : List Nat :=
  l.flatMap (fun s => s.left.toList ++ s.right.toList)

end MakoImposer

/-! # The watermarker (`makowatermarker.cpp`)

The functions `getExtension`, `fileFormatFromPath`, `basename` and
`precedingPathWithoutFilename` of the watermarker have the text of those of
the imposer and are taken from there.
-/

namespace MakoWatermarker

open MakoCombiner (toLowerString substr substrFrom)
open MakoImposer (eFileFormat fileFormatFromPath basename precedingPathWithoutFilename find)

/-- The parameters of a run, `struct parameters`.  The fields that the source
sets in `parse_params` before the loop have these values as defaults; the
others are unset in the source until an argument sets them. -/
structure parameters where
  inputFullPath : String := ""
  inputBasename : String := ""
  inputType : eFileFormat := eFileFormat.eFFPDF
  userPassword : String := ""
  outputPath : String := ""
  outputBasename : String := ""
  outputType : eFileFormat := eFileFormat.eFFPDF
  watermarkText : String := "My Favorite Test"
  watermarkPdf : String := ""
  angle : Int := 0
  useIncrementalOutput : Bool := true
  redValue : Int := 0
  blueValue : Int := 80
  greenValue : Int := 80
  opacityValue : Int := 40
  fontName : String := "Arial Bold"
  deriving DecidableEq, Repr

/-- The source's `zeroToOneHundred(i)`. -/
def zeroToOneHundred (i : Int) : Int :=
  let i := if i < 0 then 0 else i
  if i > 100 then 100 else i

/-- The C library's `wcstol(text, &end, 10)` for a `long` of 64 bits: white space
is skipped, then an optional sign and decimal digits are read; without digits
the value is 0, and a value out of range is replaced by the nearest bound. -/
def wcstol (text : String) : Int :=
  let rest := text.toList.dropWhile MakoCombiner.WIStream.isSpace
  let negative := rest.head? = some '-'
  let afterSign := if rest.head? = some '-' ∨ rest.head? = some '+' then rest.tail else rest
  let value : Int := MakoCombiner.WIStream.digitsValue (afterSign.takeWhile Char.isDigit)
  if negative then max (-value) (-9223372036854775808) else min value 9223372036854775807

/-- The value of `abs(std::wcstol(value.c_str(), &end, 10))` stored in an `int`:
the absolute value, truncated to 32 bits. -/
def absToInt (value : String) : Int := MakoCombiner.toInt32 (wcstol value).natAbs

/-- The C library's `wcscmp`, as far as the source reads its result: zero exactly
when the two strings are equal. -/
def wcscmp (a b : String) : Int := if a = b then 0 else 1

/-- One round of the loop of `parse_params`, for one argument; `none` when it
throws. -/
def parse_param (pathSep : Char) (params : parameters) (argument : String) :
    Option parameters :=
  match find argument '=' with
  | none =>
    if params.inputFullPath.length = 0 then
      match fileFormatFromPath argument with
      | none => none
      | some inputType =>
        let inputBasename := basename pathSep argument
        some { params with
          inputFullPath := argument, inputType := inputType, inputBasename := inputBasename,
          outputBasename := inputBasename ++ "_watermarked",
          outputPath := precedingPathWithoutFilename pathSep argument,
          outputType := eFileFormat.eFFPDF }
    else if argument ≠ params.inputFullPath then
      match fileFormatFromPath argument with
      | none => none
      | some outputType =>
        some { params with
          outputPath := precedingPathWithoutFilename pathSep argument,
          outputBasename := basename pathSep argument,
          outputType := outputType }
    else some params
  | some equalsPos =>
    let setting := toLowerString (substr argument 0 equalsPos)
    let value := substrFrom argument (equalsPos + 1)
    let params := if setting = "t" then { params with watermarkText := value } else params
    let params := if setting = "f" then { params with fontName := value } else params
    let params := if setting = "w" then { params with watermarkPdf := value } else params
    if setting = "i" then
      let value := toLowerString value
      some { params with
        useIncrementalOutput :=
          wcscmp value "yes" ≠ 0 || wcscmp value "true" ≠ 0 || wcscmp value "y" ≠ 0
            || wcscmp value "t" ≠ 0 }
    else if setting = "r" then
      some { params with redValue := zeroToOneHundred (absToInt value) }
    else if setting = "g" then
      some { params with greenValue := zeroToOneHundred (absToInt value) }
    else if setting = "b" then
      some { params with blueValue := zeroToOneHundred (absToInt value) }
    else if setting = "o" then
      some { params with opacityValue := zeroToOneHundred (absToInt value) }
    else if setting = "a" then
      let a := absToInt value
      let a := if a < -180 then -180 else a
      let a := if a > 180 then 180 else a
      some { params with angle := a }
    else some params

/-- The loop of `parse_params` over the arguments. -/
def parse_params_loop (pathSep : Char) : List String → parameters → Option parameters
  | [], params => some params
  | argument :: rest, params =>
    match parse_param pathSep params argument with
    | none => none
    | some params1 => parse_params_loop pathSep rest params1

/-- The source's `parse_params(arguments)`; `none` when it does not return.  The
loop counter is a `uint8`: with more than 255 arguments it starts again at 0
after 255 and the loop never ends. -/
def parse_params (pathSep : Char) (arguments : List String) : Option parameters :=
  if arguments.length > 255 then none
  else parse_params_loop pathSep arguments {}

end MakoWatermarker

/-! # The splitter (`makosplitter.cpp`)

The functions `getExtension`, `extensionFromFormat`, `filenameWithoutPrecedingPath`
and `basename` of the splitter have the text of those of the imposer and are
taken from there.
-/

namespace MakoSplitter

open MakoCombiner (Document Page toLowerString substr substrFrom findLastOf)
open MakoImposer (eFileFormat getExtension extensionFromFormat basename find)

/-- A job, `struct sJob`: the pages of one output file. -/
structure sJob where
  chunkSize : Nat
  sourceDocument : Document
  clonedPages : List Page
  outputType : eFileFormat
  outputFile : String
  deepCopy : Bool

/-- The parameters of a run, `struct sParameters`, with the defaults that
`parseParams` sets before its loop. -/
structure sParameters where
  inputFullPath : String := ""
  inputBasename : String := ""
  inputType : eFileFormat := eFileFormat.eFFPDF
  userPassword : String := ""
  outputPath : String := ""
  outputBasename : String := ""
  outputType : eFileFormat := eFileFormat.eFFPDF
  chunkSize : Nat := 1
  singleThread : Bool := false
  deepCopy : Bool := false
  deriving DecidableEq, Repr

/-- The source's `fileFormatFromPath(path)`; `none` when it throws. -/
def fileFormatFromPath (path : String) : Option eFileFormat :=
  match getExtension path with
  | none => none
  | some extension =>
    if extension = ".pdf" then some eFileFormat.eFFPDF
    else if extension = ".xps" then some eFileFormat.eFFXPS
    else if extension = ".ps" then some eFileFormat.eFFPS
    else if extension = ".pxl" then some eFileFormat.eFFPCLXL
    else if extension = ".pcl" then some eFileFormat.eFFPCL5
    else none

/-- The source's `precedingPathWithoutFilename(path)`.  Without a separator it
returns "." followed by the global `pathSeparator`, which nothing assigns and
which is empty. -/
def precedingPathWithoutFilename (pathSep : Char) (path : String) : String :=
  match findLastOf path.toList pathSep with
  | some lastPathSeparator => substr path 0 (lastPathSeparator + 1)
  | none => "." ++ ""

/-- The answer of `value == L"yes" || value == L"true"` after lower-casing. -/
def isYes (value : String) : Bool :=
  toLowerString value = "yes" || toLowerString value = "true"

/-- One round of the loop of `parseParams`, for one argument; `none` when it
throws.  The setting `z`, which only switches the reporting, is left out. -/
def parseParam (pathSep : Char) (params : sParameters) (argument : String) :
    Option sParameters :=
  match find argument '=' with
  | none =>
    if params.inputFullPath.length = 0 then
      match fileFormatFromPath argument with
      | none => none
      | some inputType =>
        let inputBasename := basename pathSep argument
        some { params with
          inputFullPath := argument, inputType := inputType, inputBasename := inputBasename,
          outputBasename := inputBasename,
          outputPath := precedingPathWithoutFilename pathSep argument }
    else
      match fileFormatFromPath argument with
      | none => none
      | some outputType =>
        some { params with
          outputPath := precedingPathWithoutFilename pathSep argument,
          outputBasename := basename pathSep argument,
          outputType := outputType }
  | some equalsPos =>
    let setting := toLowerString (substr argument 0 equalsPos)
    let value := substrFrom argument (equalsPos + 1)
    if setting = "pw" then some { params with userPassword := value }
    else if setting = "c" then
      some { params with chunkSize := (MakoWatermarker.wcstol value).natAbs % 4294967296 }
    else if setting = "f" then
      some (if isYes value then
        { params with
          outputPath := params.outputPath ++ String.singleton pathSep ++ params.outputBasename }
        else params)
    else if setting = "s" then some { params with singleThread := isYes value }
    else if setting = "d" then some { params with deepCopy := isYes value }
    else some params

/-- The source's `parseParams(arguments)`; `none` when it throws. -/
def parseParams (pathSep : Char) : List String → sParameters → Option sParameters
  | [], params => some params
  | argument :: rest, params =>
    match parseParam pathSep params argument with
    | none => none
    | some params1 => parseParams pathSep rest params1

/-- The source's `pageIndex(pageFrom, pageCount)`, in `uint32` arithmetic. -/
def pageIndex (pageFrom pageCount : Nat) : String :=
  if pageCount = 1 then "_p" ++ toString pageFrom
  else
    "_p" ++ toString pageFrom ++ "-"
      ++ toString (MakoCombiner.u32sub ((pageFrom + pageCount) % 4294967296) 1)

/-- The inner loops of `dumpChunks`: the clones of `count` pages from the index
`index` on are appended to the pages of the job; `none` when the document has
no page at an index. -/
def clonePages (document : Document) : Nat → Nat → List Page → Option (List Page)
  | 0, _, clonedPages => some clonedPages
  | count + 1, index, clonedPages =>
    match document.getPage index with
    | none => none
    | some page => clonePages document count (index + 1) (clonedPages ++ [page])

/-- The job that `dumpChunks` makes for the `size` pages from the index `first`
on. -/
def makeJob (document : Document) (folderPath outputFile : String) (outputType : eFileFormat)
    (deepCopy : Bool) (first size : Nat) : Option sJob :=
  match clonePages document size first [] with
  | none => none
  | some clonedPages =>
    some { chunkSize := size, sourceDocument := document, clonedPages := clonedPages,
           outputType := outputType,
           outputFile := folderPath ++ outputFile ++ pageIndex ((first + 1) % 4294967296) size
             ++ extensionFromFormat outputType,
           deepCopy := deepCopy }

/-- The statement `jobs[x].push_back(job)`; `none` when there is no `jobs[x]`. -/
def pushJob (jobs : List (List sJob)) (x : Nat) (job : sJob) : Option (List (List sJob)) :=
  match jobs[x]? with
  | none => none
  | some worker => some (jobs.set x (worker ++ [job]))

/-- The worker of the next job: `x` is set to -1 after the last worker and
incremented by the loop. -/
def nextWorker (availableWorkers x : Nat) : Nat :=
  if x = availableWorkers - 1 then 0 else x + 1

/-- The first loop of `dumpChunks`: `count` jobs of `chunkSize` pages from the
chunk `i` on, each pushed to the worker `x`. -/
def dumpChunksLoop (document : Document) (folderPath outputFile : String)
    (outputType : eFileFormat) (deepCopy : Bool) (chunkSize availableWorkers : Nat) :
    Nat → Nat → List (List sJob) → Nat → Option (List (List sJob) × Nat)
  | 0, _, jobs, x => some (jobs, x)
  | count + 1, i, jobs, x =>
    match makeJob document folderPath outputFile outputType deepCopy
        ((i * chunkSize) % 4294967296) chunkSize with
    | none => none
    | some job =>
      match pushJob jobs x job with
      | none => none
      | some jobs1 =>
        dumpChunksLoop document folderPath outputFile outputType deepCopy chunkSize
          availableWorkers count (i + 1) jobs1 (nextWorker availableWorkers x)

/-- The source's `dumpChunks`, up to the jobs that it hands to the threads: for
each worker, in the order of the workers, the jobs that its thread writes in
turn; `none` when the function does not get that far.  `hardwareConcurrency` is
the value of `thread::hardware_concurrency()`.  The function divides by the
chunk size, takes the last character of the folder, and makes no array of jobs
for zero workers; each thread reads the first of its jobs. -/
def dumpChunks (hardwareConcurrency : Nat) (pathSep : Char) (document : Document)
    (pageCount chunkSize : Nat) (folder outputFile : String) (outputType : eFileFormat)
    (runSingleThreaded deepCopy : Bool) : Option (List (List sJob)) :=
  if chunkSize = 0 then none
  else
    let chunkCount := pageCount / chunkSize
    let finalChunkSize := pageCount % chunkSize
    let availableWorkers :=
      if chunkCount = 0 ∨ runSingleThreaded = true then 1
      else if chunkCount < hardwareConcurrency then chunkCount
      else hardwareConcurrency
    if availableWorkers = 0 ∨ folder.length = 0 then none
    else
      let folderPath :=
        if substrFrom folder (folder.length - 1) ≠ String.singleton pathSep then
          folder ++ String.singleton pathSep
        else folder
      match dumpChunksLoop document folderPath outputFile outputType deepCopy chunkSize
          availableWorkers chunkCount 0 (List.replicate availableWorkers []) 0 with
      | none => none
      | some (jobs, x) =>
        let all :=
          if finalChunkSize ≠ 0 then
            match makeJob document folderPath outputFile outputType deepCopy
                ((chunkCount * chunkSize) % 4294967296) finalChunkSize with
            | none => none
            | some job => pushJob jobs x job
          else some jobs
        match all with
        | none => none
        | some jobs1 => if jobs1.any List.isEmpty then none else some jobs1

/-- Lines 542-544 of `main`: a chunk size of 0 stands for 1, and a chunk size above
the page count for the page count. -/
def adjustChunkSize (pageCount chunkSize : Nat) : Nat :=
  let chunkSize := if chunkSize = 0 then 1 else chunkSize
  if chunkSize > pageCount then pageCount else chunkSize

/-- The block `k` of `chunkSize` pages of a document: the pages at the indices
from `k * chunkSize` to `k * chunkSize + chunkSize - 1`, as far as there are
such pages. -/
def block (document : Document) (chunkSize k : Nat) : List Page :=
  (document.pages.drop (k * chunkSize)).take chunkSize

/-- A document of five pages. -/
def exampleFive : Document :=
  { pages := [{ pageId := 1 }, { pageId := 2 }, { pageId := 3 }, { pageId := 4 },
      { pageId := 5 }] }

end MakoSplitter

namespace MakoCombiner

/-! ## Page ranges: properties -/

/-- What `processRange` returns: the results so far, followed by the range read
(an inverted pair swapped) unless its first page is 0. -/
theorem processRange_fst {σ : Type} (strm : WIStreamOps σ) (results : List sPageRange)
    (source : σ) :
    (processRange strm results source).1 =
      results ++ (if (swapInverted (readPageRange strm source).1).firstPage ≠ 0
        then [swapInverted (readPageRange strm source).1] else []) := by
  unfold processRange
  by_cases h : (swapInverted (readPageRange strm source).1).firstPage = 0
  · simp [h]
  · simp [h]

/-- A range stored by `processRange` has a first page of at least 1 and, unless
its last page is 0, is not inverted. -/
theorem processRange_mem {σ : Type} (strm : WIStreamOps σ) (source : σ) (r : sPageRange)
    (hr : r ∈ (processRange strm [] source).1) :
    r = swapInverted (readPageRange strm source).1 ∧ 1 ≤ r.firstPage ∧
      (r.lastPage = 0 ∨ r.firstPage ≤ r.lastPage) := by
  rw [processRange_fst] at hr
  by_cases h : (swapInverted (readPageRange strm source).1).firstPage = 0
  · simp [h] at hr
  · simp [h] at hr
    subst hr
    refine ⟨rfl, Nat.one_le_iff_ne_zero.mpr h, ?_⟩
    unfold swapInverted
    split
    · rename_i hc
      right
      exact Nat.le_of_lt hc.2
    · rename_i hc
      by_cases h0 : (readPageRange strm source).1.lastPage = 0
      · left; exact h0
      · right
        have := not_and.mp hc h0
        omega

/-- C5. Every range that `processRange` stores satisfies, after the adjustment made
by `main` for a document of `pageCount >= 1` pages,
`1 <= firstPage <= lastPage <= pageCount`. -/
theorem resolved_range_invariant {σ : Type} (strm : WIStreamOps σ) (source : σ)
    (pageCount : Nat) (hN : 1 ≤ pageCount) (r : sPageRange)
    (hr : r ∈ (processRange strm [] source).1) :
    1 ≤ (adjustPageRange pageCount r).firstPage ∧
      (adjustPageRange pageCount r).firstPage ≤ (adjustPageRange pageCount r).lastPage ∧
      (adjustPageRange pageCount r).lastPage ≤ pageCount := by
  obtain ⟨-, h1, h2⟩ := processRange_mem strm source r hr
  unfold adjustPageRange
  simp only
  split_ifs <;> omega

/-- The invariant of C5 at the argument text `9-4` for a document of 6 pages. -/
theorem resolved_range_invariant_witness :
    1 ≤ (adjustPageRange 6 ⟨4, 9⟩).firstPage ∧
      (adjustPageRange 6 ⟨4, 9⟩).firstPage ≤ (adjustPageRange 6 ⟨4, 9⟩).lastPage ∧
      (adjustPageRange 6 ⟨4, 9⟩).lastPage ≤ 6 :=
  resolved_range_invariant WIStream.ops (WIStream.ofString "9-4") 6 (by decide) ⟨4, 9⟩
    (by decide)

/-- C6. When the range read has a last page of 0 or beyond the page count, the
range stored by `processRange` is adjusted by `main` to end at the last page of
the document. -/
theorem open_or_long_range_ends_at_page_count {σ : Type} (strm : WIStreamOps σ) (source : σ)
    (pageCount : Nat)
    (hlast : (readPageRange strm source).1.lastPage = 0 ∨
      pageCount < (readPageRange strm source).1.lastPage)
    (r : sPageRange) (hr : r ∈ (processRange strm [] source).1) :
    (adjustPageRange pageCount r).lastPage = pageCount := by
  obtain ⟨hrw, -, -⟩ := processRange_mem strm source r hr
  subst hrw
  unfold adjustPageRange swapInverted
  simp only
  split_ifs <;> simp_all <;> omega

/-- The argument text `7-` is read as the range with last page 0, stored as
such, and adjusted to end at page 5 of a document of 5 pages. -/
theorem open_or_long_range_ends_at_page_count_witness :
    (readPageRange WIStream.ops (WIStream.ofString "7-")).1 = ⟨7, 0⟩ ∧
      (adjustPageRange 5 ⟨7, 0⟩).lastPage = 5 :=
  ⟨by decide,
   open_or_long_range_ends_at_page_count WIStream.ops (WIStream.ofString "7-") 5
     (by decide) ⟨7, 0⟩ (by decide)⟩

/-- C7, as stated, fails: the argument text `10-2` for a document of 5 pages has a
first page beyond the page count, and its resolved first page is 2, not 5. -/
theorem first_page_clamp_counterexample :
    ¬ (∀ (source : WIStream) (pageCount : Nat), 1 ≤ pageCount →
        pageCount < (readPageRange WIStream.ops source).1.firstPage →
        ∀ r ∈ (processRange WIStream.ops [] source).1,
          (adjustPageRange pageCount r).firstPage = pageCount) := by
  intro h
  have h1 := h (WIStream.ofString "10-2") 5 (by decide) (by decide) ⟨2, 10⟩ (by decide)
  revert h1
  decide

/-- C7, amended. When the range read has a first page beyond the page count,
`processRange` stores exactly one range, and `main` adjusts it to start at the
last page of the document exactly when the last page read is 0 or not below
the page count; when the last page read lies between 1 and the page count
minus 1, the range is inverted, `processRange` swaps it before `main` clamps
it, and the adjusted range starts at the last page read. -/
theorem first_page_clamp {σ : Type} (strm : WIStreamOps σ) (source : σ)
    (pageCount : Nat)
    (hfirst : pageCount < (readPageRange strm source).1.firstPage) :
    ∃ r, (processRange strm [] source).1 = [r] ∧
      ((adjustPageRange pageCount r).firstPage = pageCount ↔
        ((readPageRange strm source).1.lastPage = 0 ∨
          pageCount ≤ (readPageRange strm source).1.lastPage)) ∧
      (0 < (readPageRange strm source).1.lastPage →
        (readPageRange strm source).1.lastPage < pageCount →
        (adjustPageRange pageCount r).firstPage = (readPageRange strm source).1.lastPage) := by
  have hstored : (swapInverted (readPageRange strm source).1).firstPage ≠ 0 := by
    unfold swapInverted
    split_ifs <;> simp_all <;> omega
  refine ⟨swapInverted (readPageRange strm source).1, ?_, ?_, ?_⟩
  · rw [processRange_fst, if_pos hstored, List.nil_append]
  · unfold adjustPageRange swapInverted
    simp only
    constructor
    · intro h
      split_ifs at h <;> simp_all <;> omega
    · intro h
      split_ifs <;> simp_all <;> omega
  · intro h0 hlt
    unfold adjustPageRange swapInverted
    simp only
    split_ifs <;> simp_all <;> omega

/-- The amended C7 at the argument text `10-7` for a document of 5 pages: the
range read is inverted, its last page 7 is not below the page count, and the
range stored, 7-10, is adjusted to start at page 5. -/
theorem first_page_clamp_witness :
    (readPageRange WIStream.ops (WIStream.ofString "10-7")).1 = ⟨10, 7⟩ ∧
    ∃ r, (processRange WIStream.ops [] (WIStream.ofString "10-7")).1 = [r] ∧
      ((adjustPageRange 5 r).firstPage = 5 ↔
        ((readPageRange WIStream.ops (WIStream.ofString "10-7")).1.lastPage = 0 ∨
          5 ≤ (readPageRange WIStream.ops (WIStream.ofString "10-7")).1.lastPage)) ∧
      (0 < (readPageRange WIStream.ops (WIStream.ofString "10-7")).1.lastPage →
        (readPageRange WIStream.ops (WIStream.ofString "10-7")).1.lastPage < 5 →
        (adjustPageRange 5 r).firstPage
          = (readPageRange WIStream.ops (WIStream.ofString "10-7")).1.lastPage) :=
  ⟨by decide, first_page_clamp WIStream.ops (WIStream.ofString "10-7") 5 (by decide)⟩

/-- C8. A range read as `a-b` with `a > b >= 1` and `a <= pageCount` is resolved to
the swapped pair `(b, a)`, which is also what the range read as `b-a` is
resolved to. -/
theorem inverted_range_swapped {σ τ : Type} (strm : WIStreamOps σ) (source : σ)
    (strm2 : WIStreamOps τ) (source2 : τ) (a b pageCount : Nat)
    (hb : 1 ≤ b) (hab : b < a) (haN : a ≤ pageCount)
    (hraw : (readPageRange strm source).1 = ⟨a, b⟩)
    (hraw2 : (readPageRange strm2 source2).1 = ⟨b, a⟩) :
    (processRange strm [] source).1.map (adjustPageRange pageCount) = [⟨b, a⟩] ∧
      (processRange strm2 [] source2).1.map (adjustPageRange pageCount) = [⟨b, a⟩] := by
  rw [processRange_fst, processRange_fst, hraw, hraw2]
  have h1 : swapInverted ⟨a, b⟩ = ⟨b, a⟩ := by
    unfold swapInverted
    rw [if_pos ⟨by simpa using Nat.ne_of_gt hb, hab⟩]
  have h2 : swapInverted ⟨b, a⟩ = ⟨b, a⟩ := by
    unfold swapInverted
    rw [if_neg (by simp; omega)]
  have h3 : adjustPageRange pageCount ⟨b, a⟩ = ⟨b, a⟩ := by
    unfold adjustPageRange
    simp only
    rw [if_neg (by omega), if_neg (by omega)]
  have hb0 : b ≠ 0 := by omega
  simp [h1, h2, h3, hb0]

/-- C8 at the argument texts `5-3` and `3-5` for a document of 8 pages. -/
theorem inverted_range_swapped_witness :
    (processRange WIStream.ops [] (WIStream.ofString "5-3")).1.map (adjustPageRange 8)
        = [⟨3, 5⟩] ∧
      (processRange WIStream.ops [] (WIStream.ofString "3-5")).1.map (adjustPageRange 8)
        = [⟨3, 5⟩] :=
  inverted_range_swapped WIStream.ops (WIStream.ofString "5-3") WIStream.ops
    (WIStream.ofString "3-5") 5 3 8 (by decide) (by decide) (by decide) (by decide) (by decide)

/-! ## Named destinations: properties -/

/-- A name followed by the three characters of a suffix differs from the name. -/
theorem append_suffix_ne (name : String) (a b c : Char) : name ++ String.mk [a, b, c] ≠ name := by
  intro h
  have h1 := congrArg String.length h
  rw [String.length_append] at h1
  have h2 : (String.mk [a, b, c]).length = 3 := rfl
  omega

/-- C10. Two destinations of the same name appended in sequence to an empty
registry, for any draws of `rand()`: the list holds exactly the first
destination, unmodified, and a copy of the second (same target) under a
name that differs from the first. -/
theorem two_colliding_appends (g : RandState) (d1 d2 : NamedDestination)
    (hname : d1.name = d2.name) :
    ∃ d2r : NamedDestination,
      (((({} : NamedDestinations).append g d1).1.append
          (({} : NamedDestinations).append g d1).2 d2).1).getList = [d1, d2r] ∧
      d2r.name ≠ d1.name ∧ d2r.target = d2.target ∧
      d2r.name = d2.name ++ String.mk [Char.ofNat 46,
        suffixCharAt (g.draws g.pos % 63), suffixCharAt (g.draws (g.pos + 1) % 63)] := by
  refine ⟨{ name := d2.name ++ String.mk [Char.ofNat 46,
            suffixCharAt (g.draws g.pos % 63), suffixCharAt (g.draws (g.pos + 1) % 63)],
            target := d2.target }, ?_, ?_, rfl, rfl⟩
  · simp [NamedDestinations.append, NamedDestinations.getList, rand, hname]
  · rw [hname]
    exact append_suffix_ne _ _ _ _

/-- C10 for two destinations named `X` with different targets. -/
theorem two_colliding_appends_witness :
    ∃ d2r : NamedDestination,
      (((({} : NamedDestinations).append ⟨fun n => 7 * n + 3, 0⟩ ⟨"X", some { pageId := 1 }⟩).1.append
          (({} : NamedDestinations).append ⟨fun n => 7 * n + 3, 0⟩
            ⟨"X", some { pageId := 1 }⟩).2 ⟨"X", some { pageId := 2 }⟩).1).getList
        = [⟨"X", some { pageId := 1 }⟩, d2r] ∧
      d2r.name ≠ "X" ∧ d2r.target = some { pageId := 2 } ∧
      d2r.name = "X" ++ String.mk [Char.ofNat 46, suffixCharAt (3 % 63), suffixCharAt (10 % 63)] :=
  two_colliding_appends ⟨fun n => 7 * n + 3, 0⟩ ⟨"X", some { pageId := 1 }⟩
    ⟨"X", some { pageId := 2 }⟩ rfl


/-! ## The bookmark tree: building -/

theorem OutlineTreeNode.forestNodes_append (xs ys : List OutlineTreeNode) :
    OutlineTreeNode.forestNodes (xs ++ ys)
      = OutlineTreeNode.forestNodes xs ++ OutlineTreeNode.forestNodes ys := by
  induction xs with
  | nil => simp [OutlineTreeNode.forestNodes]
  | cons x xs ih => simp [OutlineTreeNode.forestNodes, ih]

theorem BookmarkTreeNode.updateLastChild_addChild (f : BookmarkTreeNode → BookmarkTreeNode)
    (d : Document) (o : Option OutlineEntry) (cs : List BookmarkTreeNode) (e : OutlineEntry) :
    ((BookmarkTreeNode.mk d o cs).addChild e).updateLastChild f
      = BookmarkTreeNode.mk d o (cs ++ [f (BookmarkTreeNode.mk d (some e) [])]) := by
  simp [BookmarkTreeNode.addChild, BookmarkTreeNode.updateLastChild]

mutual
/-- The tree built by `buildBookmarkTree` is its root with the forest
`buildForest` added after the children the root already has. -/
theorem buildBookmarkTree_eq (pageIds : List DOMid) :
    ∀ (t : OutlineTreeNode) (d : Document) (o : Option OutlineEntry) (cs : List BookmarkTreeNode),
      buildBookmarkTree (BookmarkTreeNode.mk d o cs) pageIds t
        = BookmarkTreeNode.mk d o (cs ++ buildForest d pageIds t.children)
  | OutlineTreeNode.mk _ children, d, o, cs => by
    rw [buildBookmarkTree]
    exact buildBookmarkTreeLoop_eq pageIds children d o cs
theorem buildBookmarkTreeLoop_eq (pageIds : List DOMid) :
    ∀ (ts : List OutlineTreeNode) (d : Document) (o : Option OutlineEntry)
      (cs : List BookmarkTreeNode),
      buildBookmarkTreeLoop (BookmarkTreeNode.mk d o cs) pageIds ts
        = BookmarkTreeNode.mk d o (cs ++ buildForest d pageIds ts)
  | [], d, o, cs => by simp [buildBookmarkTreeLoop, buildForest]
  | OutlineTreeNode.mk none children :: rest, d, o, cs => by
    rw [buildBookmarkTreeLoop]
    simp only [OutlineTreeNode.data, buildForest]
    exact buildBookmarkTreeLoop_eq pageIds rest d o cs
  | OutlineTreeNode.mk (some e) children :: rest, d, o, cs => by
    rw [buildBookmarkTreeLoop]
    simp only [OutlineTreeNode.data, buildForest]
    by_cases hq : bookmarkHasPageId e pageIds = true
    · rw [if_pos hq, if_pos hq, BookmarkTreeNode.updateLastChild_addChild,
        buildBookmarkTree_eq pageIds (OutlineTreeNode.mk (some e) children) d (some e) [],
        buildBookmarkTreeLoop_eq pageIds rest d o _]
      simp [OutlineTreeNode.children]
    · rw [if_neg hq, if_neg hq]
      exact buildBookmarkTreeLoop_eq pageIds rest d o cs
end


theorem OutlineTreeNode.mem_nodes_self : ∀ (t : OutlineTreeNode), t ∈ t.nodes
  | OutlineTreeNode.mk d cs => by simp [OutlineTreeNode.nodes]

/-- The nodes below a node of a forest are nodes of the forest. -/
theorem OutlineTreeNode.nodes_subset_forestNodes :
    ∀ (ts : List OutlineTreeNode) (a : OutlineTreeNode),
      a ∈ OutlineTreeNode.forestNodes ts → ∀ b ∈ a.nodes, b ∈ OutlineTreeNode.forestNodes ts
  | [], a, ha, b, _ => by simp [OutlineTreeNode.forestNodes] at ha
  | OutlineTreeNode.mk d cs :: rest, a, ha, b, hb => by
    simp only [OutlineTreeNode.forestNodes, OutlineTreeNode.nodes, List.mem_append,
      List.mem_cons] at ha ⊢
    rcases ha with (rfl | ha) | ha
    · simp only [OutlineTreeNode.nodes, List.mem_cons] at hb
      exact Or.inl hb
    · exact Or.inl (Or.inr (OutlineTreeNode.nodes_subset_forestNodes cs a ha b hb))
    · exact Or.inr (OutlineTreeNode.nodes_subset_forestNodes rest a ha b hb)

theorem OutlineTreeNode.forestEntries_cons (d : Option OutlineEntry)
    (cs rest : List OutlineTreeNode) :
    OutlineTreeNode.forestEntries (OutlineTreeNode.mk d cs :: rest)
      = d.toList ++ (OutlineTreeNode.forestEntries cs ++ OutlineTreeNode.forestEntries rest) := by
  cases d <;>
    simp [OutlineTreeNode.forestEntries, OutlineTreeNode.forestNodes, OutlineTreeNode.nodes,
      OutlineTreeNode.data, List.filterMap_append, List.filterMap_cons]

theorem OutlineTreeNode.mem_forestEntries (ts : List OutlineTreeNode) (b : OutlineTreeNode)
    (e : OutlineEntry) (hb : b ∈ OutlineTreeNode.forestNodes ts) (he : b.data = some e) :
    e ∈ OutlineTreeNode.forestEntries ts := by
  unfold OutlineTreeNode.forestEntries
  exact List.mem_filterMap.mpr ⟨b, hb, he⟩

/-- Every node of the built forest carries an entry of the source forest, and
that entry has a target in the page-identifier set. -/
theorem buildForest_node (document : Document) (pageIds : List DOMid) :
    ∀ (ts : List OutlineTreeNode) (n : BookmarkTreeNode),
      n ∈ BookmarkTreeNode.forestNodes (buildForest document pageIds ts) →
      ∃ e, n.m_outline = some e ∧ bookmarkHasPageId e pageIds = true ∧
        e ∈ OutlineTreeNode.forestEntries ts
  | [], n, hn => by simp [buildForest, BookmarkTreeNode.forestNodes] at hn
  | OutlineTreeNode.mk none cs :: rest, n, hn => by
    rw [buildForest] at hn
    obtain ⟨e, h1, h2, h3⟩ := buildForest_node document pageIds rest n hn
    exact ⟨e, h1, h2, by rw [OutlineTreeNode.forestEntries_cons]; simp [h3]⟩
  | OutlineTreeNode.mk (some et) cs :: rest, n, hn => by
    rw [buildForest] at hn
    rw [OutlineTreeNode.forestEntries_cons]
    by_cases hq : bookmarkHasPageId et pageIds = true
    · rw [if_pos hq] at hn
      simp only [BookmarkTreeNode.forestNodes, BookmarkTreeNode.nodes, List.mem_append,
        List.mem_cons] at hn
      rcases hn with (rfl | hn) | hn
      · exact ⟨et, rfl, hq, by simp⟩
      · obtain ⟨e, h1, h2, h3⟩ := buildForest_node document pageIds cs n hn
        exact ⟨e, h1, h2, by simp [h3]⟩
      · obtain ⟨e, h1, h2, h3⟩ := buildForest_node document pageIds rest n hn
        exact ⟨e, h1, h2, by simp [h3]⟩
    · rw [if_neg hq] at hn
      obtain ⟨e, h1, h2, h3⟩ := buildForest_node document pageIds rest n hn
      exact ⟨e, h1, h2, by simp [h3]⟩

/-- In a forest whose entries are pairwise distinct, no entry at or below a node
without a target in the page-identifier set is carried by the built forest. -/
theorem buildForest_pruned (document : Document) (pageIds : List DOMid) (a : OutlineTreeNode)
    (hq : ∀ e, a.data = some e → bookmarkHasPageId e pageIds = false) (e : OutlineEntry) :
    ∀ (ts : List OutlineTreeNode), a ∈ OutlineTreeNode.forestNodes ts →
      (OutlineTreeNode.forestEntries ts).Nodup →
      (∃ b ∈ a.nodes, b.data = some e) →
      ∀ n ∈ BookmarkTreeNode.forestNodes (buildForest document pageIds ts), n.m_outline ≠ some e
  | [], ha, _, _, n, _ => by simp [OutlineTreeNode.forestNodes] at ha
  | OutlineTreeNode.mk d cs :: rest, ha, hnd, hb, n, hn => by
    obtain ⟨b, hba, hbe⟩ := hb
    rw [OutlineTreeNode.forestEntries_cons] at hnd
    have hnd2 := List.nodup_append.mp hnd
    have hnd3 := List.nodup_append.mp hnd2.2.1
    have hdisj : ∀ x, x ∈ OutlineTreeNode.forestEntries cs →
        x ∈ OutlineTreeNode.forestEntries rest → False := fun x h1 h2 => hnd3.2.2 h1 h2
    have hhead : ∀ x, d = some x →
        x ∉ OutlineTreeNode.forestEntries cs ∧ x ∉ OutlineTreeNode.forestEntries rest := by
      intro x hx
      subst hx
      have hx1 : x ∈ (some x).toList := by simp
      have hx2 := hnd2.2.2 hx1
      simpa [not_or] using hx2
    simp only [OutlineTreeNode.forestNodes, OutlineTreeNode.nodes, List.mem_append,
      List.mem_cons] at ha
    -- where the entry `e` lies
    have hloc : (a = OutlineTreeNode.mk d cs) ∨
        (a ∈ OutlineTreeNode.forestNodes cs ∧ e ∈ OutlineTreeNode.forestEntries cs) ∨
        (a ∈ OutlineTreeNode.forestNodes rest ∧ e ∈ OutlineTreeNode.forestEntries rest) := by
      rcases ha with (h | h) | h
      · exact Or.inl h
      · exact Or.inr (Or.inl ⟨h, OutlineTreeNode.mem_forestEntries cs b e
          (OutlineTreeNode.nodes_subset_forestNodes cs a h b hba) hbe⟩)
      · exact Or.inr (Or.inr ⟨h, OutlineTreeNode.mem_forestEntries rest b e
          (OutlineTreeNode.nodes_subset_forestNodes rest a h b hba) hbe⟩)
    -- the entries of the nodes built from `rest` are entries of `rest`
    have hrest : ∀ m ∈ BookmarkTreeNode.forestNodes (buildForest document pageIds rest),
        m.m_outline = some e → e ∈ OutlineTreeNode.forestEntries rest := by
      intro m hm hme
      obtain ⟨x, h1, -, h3⟩ := buildForest_node document pageIds rest m hm
      rw [hme] at h1
      cases h1
      exact h3
    have hcs : ∀ m ∈ BookmarkTreeNode.forestNodes (buildForest document pageIds cs),
        m.m_outline = some e → e ∈ OutlineTreeNode.forestEntries cs := by
      intro m hm hme
      obtain ⟨x, h1, -, h3⟩ := buildForest_node document pageIds cs m hm
      rw [hme] at h1
      cases h1
      exact h3
    -- the entry `e` when it is at or below the head node itself
    have hself : a = OutlineTreeNode.mk d cs →
        (d = some e ∨ e ∈ OutlineTreeNode.forestEntries cs) := by
      intro h
      subst h
      simp only [OutlineTreeNode.nodes, List.mem_cons] at hba
      rcases hba with rfl | hba
      · exact Or.inl hbe
      · exact Or.inr (OutlineTreeNode.mem_forestEntries cs b e hba hbe)
    intro hne
    cases d with
    | none =>
      rw [buildForest] at hn
      rcases hloc with h | ⟨_, h⟩ | ⟨h1, h2⟩
      · rcases hself h with h' | h'
        · cases h'
        · exact hdisj e h' (hrest n hn hne)
      · exact hdisj e h (hrest n hn hne)
      · exact buildForest_pruned document pageIds a hq e rest h1 hnd3.2.1 ⟨b, hba, hbe⟩ n hn hne
    | some et =>
      rw [buildForest] at hn
      by_cases hqt : bookmarkHasPageId et pageIds = true
      · rw [if_pos hqt] at hn
        simp only [BookmarkTreeNode.forestNodes, BookmarkTreeNode.nodes, List.mem_append,
          List.mem_cons] at hn
        rcases hloc with h | ⟨h1, h2⟩ | ⟨h1, h2⟩
        · subst h
          have := hq et rfl
          rw [hqt] at this
          cases this
        · rcases hn with (rfl | hn) | hn
          · simp only [BookmarkTreeNode.m_outline] at hne
            cases hne
            exact (hhead _ rfl).1 h2
          · exact buildForest_pruned document pageIds a hq e cs h1 hnd3.1 ⟨b, hba, hbe⟩ n hn hne
          · exact hdisj e h2 (hrest n hn hne)
        · rcases hn with (rfl | hn) | hn
          · simp only [BookmarkTreeNode.m_outline] at hne
            cases hne
            exact (hhead _ rfl).2 h2
          · exact hdisj e (hcs n hn hne) h2
          · exact buildForest_pruned document pageIds a hq e rest h1 hnd3.2.1 ⟨b, hba, hbe⟩ n hn
              hne
      · rw [if_neg hqt] at hn
        rcases hloc with h | ⟨_, h⟩ | ⟨h1, h2⟩
        · rcases hself h with h' | h'
          · cases h'
            obtain ⟨x, hx1, hx2, hx3⟩ := buildForest_node document pageIds rest n hn
            rw [hne] at hx1
            cases hx1
            exact hqt hx2
          · exact hdisj e h' (hrest n hn hne)
        · exact hdisj e h (hrest n hn hne)
        · exact buildForest_pruned document pageIds a hq e rest h1 hnd3.2.1 ⟨b, hba, hbe⟩ n hn
            hne

/-- C2. Pruning is gated by ancestors. In a source outline whose entries are
pairwise distinct, let `a` be a node below the root whose entry is missing or
has no target in the page-identifier set.  Then the tree built by
`buildBookmarkTree` from an empty root carries neither the entry of `a` nor the
entry of any node below `a`, whatever the targets of those entries. -/
theorem pruning_gated_by_ancestors (document : Document) (pageIds : List DOMid)
    (outlineRoot a : OutlineTreeNode)
    (ha : a ∈ OutlineTreeNode.forestNodes outlineRoot.children)
    (hq : ∀ e, a.data = some e → bookmarkHasPageId e pageIds = false)
    (hnd : (OutlineTreeNode.forestEntries outlineRoot.children).Nodup)
    (b : OutlineTreeNode) (hb : b ∈ a.nodes) (e : OutlineEntry) (he : b.data = some e) :
    ∀ n ∈ BookmarkTreeNode.forestNodes
        (buildBookmarkTree (BookmarkTreeNode.mk document none []) pageIds outlineRoot).m_children,
      n.m_outline ≠ some e := by
  rw [buildBookmarkTree_eq]
  simp only [BookmarkTreeNode.m_children, List.nil_append]
  exact buildForest_pruned document pageIds a hq e outlineRoot.children ha hnd ⟨b, hb, he⟩


/-! ## Machine integers: properties -/

theorem toInt32_of_lt (n : Nat) (h : n < 2147483648) : toInt32 n = (n : Int) := by
  unfold toInt32
  have hmod : n % 4294967296 = n := Nat.mod_eq_of_lt (by omega)
  rw [hmod, if_pos h]

theorem u32sub_one (f : Nat) (h1 : 1 ≤ f) (h2 : f < 4294967296) : u32sub f 1 = f - 1 := by
  unfold u32sub
  omega

theorem toUInt32_natCast (n : Nat) (h : n < 4294967296) : toUInt32 (n : Int) = n := by
  unfold toUInt32
  omega

theorem toUInt32_toInt32 (n : Nat) : toUInt32 (toInt32 n) = n % 4294967296 := by
  unfold toUInt32 toInt32
  split_ifs <;> omega

theorem toUInt32_addInt32 (a b : Int) : toUInt32 (addInt32 a b) = toUInt32 (a + b) := by
  unfold addInt32
  rw [toUInt32_toInt32]
  unfold toUInt32
  omega

/-- The index that `copyNodeTree` computes from the map entry of source index `i`
and the delta `targetDocumentPageIndex - sourceFirstPageIndex` of `main`, also
when the `uint32` subtraction wraps. -/
theorem retarget_index (offset f i : Nat) (hf : f ≤ i) (hi : i < 2147483648)
    (ho : offset + (i - f) < 4294967296) :
    toUInt32 (addInt32 (toInt32 i) (toInt32 (u32sub offset f))) = offset + (i - f) := by
  rw [toUInt32_addInt32, toInt32_of_lt i hi]
  unfold toUInt32 toInt32 u32sub
  split_ifs <;> omega

/-- With operands in the range of the stated bounds, an index below `2^31`
computed by `copyNodeTree` is the exact sum. -/
theorem exact_index (i : Nat) (D : Int) (hi : i < 2147483648)
    (hD1 : -2147483648 ≤ D) (hD2 : D < 2147483648)
    (hk : toUInt32 (addInt32 (toInt32 i) D) < 2147483648) :
    0 ≤ (i : Int) + D ∧ ((i : Int) + D).toNat = toUInt32 (addInt32 (toInt32 i) D) := by
  rw [toUInt32_addInt32, toInt32_of_lt i hi] at hk ⊢
  unfold toUInt32 at hk ⊢
  omega

/-! ## Pages and page identifiers: properties -/

theorem Document.getNumPages_eq (d : Document) (h : d.pages.length < 4294967296) :
    d.getNumPages = d.pages.length := by
  unfold Document.getNumPages
  exact Nat.mod_eq_of_lt h

/-- The page loop appends the pages `pageIndex .. pageIndex + count - 1` of the
source document, in order. -/
theorem copyPages_eq (sourceDocument : Document) :
    ∀ (count pageIndex : Nat) (document : Document),
      pageIndex + count ≤ sourceDocument.pages.length →
      copyPages sourceDocument count pageIndex document
        = some { document with
            pages := document.pages ++ (sourceDocument.pages.drop pageIndex).take count }
  | 0, pageIndex, document, _ => by simp [copyPages]
  | count + 1, pageIndex, document, h => by
    have hlt : pageIndex < sourceDocument.pages.length := by omega
    rw [copyPages]
    simp only [Document.getPage, List.getElem?_eq_getElem hlt]
    rw [copyPages_eq sourceDocument count (pageIndex + 1) _ (by omega)]
    simp only [Document.appendPage, List.append_assoc]
    congr 2
    rw [List.drop_eq_getElem_cons hlt, List.take_succ_cons]
    simp

/-- Two positions of a document whose page identifiers are pairwise distinct
hold pages of the same identifier only when they are the same position. -/
theorem pageId_index_unique (d : Document) (hnd : (d.pages.map Page.pageId).Nodup)
    (j k : Nat) (p q : Page) (hj : d.pages[j]? = some p) (hk : d.pages[k]? = some q)
    (hpq : p.pageId = q.pageId) : j = k := by
  have hj1 : (d.pages.map Page.pageId)[j]? = some p.pageId := by simp [hj]
  have hk1 : (d.pages.map Page.pageId)[k]? = some p.pageId := by simp [hk, hpq]
  have hjl : j < (d.pages.map Page.pageId).length := by
    by_contra hc
    rw [List.getElem?_eq_none (by omega)] at hj1
    cases hj1
  have hkl : k < (d.pages.map Page.pageId).length := by
    by_contra hc
    rw [List.getElem?_eq_none (by omega)] at hk1
    cases hk1
  have h := List.nodup_iff_getElem?_ne_getElem?.mp hnd
  rcases Nat.lt_trichotomy j k with hlt | heq | hgt
  · exact absurd (hj1.trans hk1.symm) (h j k hlt hkl)
  · exact heq
  · exact absurd (hk1.trans hj1.symm) (h k j hgt hjl)

/-- The loop of `createFromDocument` collects the identifiers of the pages
`start .. start + count - 1`. -/
theorem collectPageIds_spec (document : Document) :
    ∀ (count start : Nat) (acc : List DOMid),
      start + count ≤ document.pages.length → document.pages.length ≤ 4294967296 →
      ∃ pageIds, collectPageIds document count (start : Int) acc = some pageIds ∧
        ∀ x, x ∈ pageIds ↔
          x ∈ acc ∨ ∃ j p, start ≤ j ∧ j < start + count ∧ document.pages[j]? = some p ∧
            p.pageId = x
  | 0, start, acc, _, _ => by
    refine ⟨acc, by simp [collectPageIds], ?_⟩
    intro x
    constructor
    · intro h; exact Or.inl h
    · rintro (h | ⟨j, p, h1, h2, -, -⟩)
      · exact h
      · omega
  | count + 1, start, acc, h, hmax => by
    have hlt : start < document.pages.length := by omega
    rw [collectPageIds]
    simp only [Document.getPage, toUInt32_natCast start (by omega),
      List.getElem?_eq_getElem hlt]
    obtain ⟨pageIds, hrun, hmem⟩ := collectPageIds_spec document count (start + 1)
      (acc.insert document.pages[start].pageId) (by omega) hmax
    have hcast : ((start : Int) + 1) = ((start + 1 : Nat) : Int) := by push_cast; rfl
    rw [hcast]
    refine ⟨pageIds, hrun, ?_⟩
    intro x
    rw [hmem x]
    constructor
    · rintro (h1 | ⟨j, p, h1, h2, h3, h4⟩)
      · rcases List.mem_insert_iff.mp h1 with h1 | h1
        · exact Or.inr ⟨start, document.pages[start], le_refl _, by omega,
            List.getElem?_eq_getElem hlt, h1.symm⟩
        · exact Or.inl h1
      · exact Or.inr ⟨j, p, by omega, by omega, h3, h4⟩
    · rintro (h1 | ⟨j, p, h1, h2, h3, h4⟩)
      · exact Or.inl (List.mem_insert_iff.mpr (Or.inr h1))
      · by_cases hj : j = start
        · subst hj
          rw [List.getElem?_eq_getElem hlt] at h3
          cases h3
          exact Or.inl (List.mem_insert_iff.mpr (Or.inl h4.symm))
        · exact Or.inr ⟨j, p, by omega, by omega, h3, h4⟩

theorem PageIdToIndexMap.find_assign (m : PageIdToIndexMap) (k : DOMid) (v : Int) (x : DOMid) :
    (m.assign k v).find x = if x = k then some v else m.find x := by
  unfold PageIdToIndexMap.assign PageIdToIndexMap.find
  by_cases h : x = k
  · subst h
    simp [List.lookup_cons]
  · have hb : (x == k) = false := by simpa using h
    simp [List.lookup_cons, hb, h]

/-- The loop of `buildPageIdToPageIndexMap` over the pages `i .. i + count - 1`:
it returns a map; every entry of the map is an entry of the map it started
from or the index of a page with the key as identifier; a key that is the
identifier of none of these pages is left as it was; and when the page
identifiers are pairwise distinct each of these pages is mapped to its index. -/
theorem buildPageIdToPageIndexMapLoop_spec (document : Document) :
    ∀ (count i : Nat) (acc : PageIdToIndexMap), i + count ≤ document.pages.length →
      ∃ map, buildPageIdToPageIndexMapLoop document count i acc = some map ∧
        (∀ x v, map.find x = some v → acc.find x = some v ∨
          ∃ j p, i ≤ j ∧ j < i + count ∧ document.pages[j]? = some p ∧ p.pageId = x ∧
            v = toInt32 j) ∧
        (∀ x, (∀ j p, i ≤ j → j < i + count → document.pages[j]? = some p → p.pageId ≠ x) →
          map.find x = acc.find x) ∧
        ((document.pages.map Page.pageId).Nodup →
          ∀ j p, i ≤ j → j < i + count → document.pages[j]? = some p →
            map.find p.pageId = some (toInt32 j))
  | 0, i, acc, _ => by
    refine ⟨acc, by simp [buildPageIdToPageIndexMapLoop], ?_, ?_, ?_⟩
    · intro x v h; exact Or.inl h
    · intro x _; rfl
    · intro _ j p h1 h2; omega
  | count + 1, i, acc, h => by
    have hlt : i < document.pages.length := by omega
    rw [buildPageIdToPageIndexMapLoop]
    simp only [Document.getPage, List.getElem?_eq_getElem hlt]
    obtain ⟨map, hrun, hsound, hframe, hfound⟩ := buildPageIdToPageIndexMapLoop_spec document
      count (i + 1) (acc.assign document.pages[i].pageId (toInt32 i)) (by omega)
    refine ⟨map, hrun, ?_, ?_, ?_⟩
    · intro x v hx
      rcases hsound x v hx with h1 | ⟨j, p, h1, h2, h3, h4, h5⟩
      · rw [PageIdToIndexMap.find_assign] at h1
        by_cases hxk : x = document.pages[i].pageId
        · rw [if_pos hxk] at h1
          cases h1
          exact Or.inr ⟨i, document.pages[i], le_refl _, by omega,
            List.getElem?_eq_getElem hlt, hxk.symm, rfl⟩
        · rw [if_neg hxk] at h1
          exact Or.inl h1
      · exact Or.inr ⟨j, p, by omega, by omega, h3, h4, h5⟩
    · intro x hx
      rw [hframe x (fun j p h1 h2 h3 => hx j p (by omega) (by omega) h3),
        PageIdToIndexMap.find_assign]
      have hne : x ≠ document.pages[i].pageId := fun hc =>
        hx i document.pages[i] (le_refl _) (by omega) (List.getElem?_eq_getElem hlt) hc.symm
      rw [if_neg hne]
    · intro hnd j p h1 h2 h3
      by_cases hj : j = i
      · subst hj
        rw [List.getElem?_eq_getElem hlt] at h3
        cases h3
        rw [hframe, PageIdToIndexMap.find_assign, if_pos rfl]
        intro k q hk1 hk2 hk3 hkq
        have := pageId_index_unique document hnd k j q document.pages[j] hk3
          (List.getElem?_eq_getElem hlt) hkq
        omega
      · exact hfound hnd j p (by omega) (by omega) h3


/-! ## The bookmark tree: counting and re-emitting -/

theorem OutlineTreeNode.eta : ∀ (t : OutlineTreeNode), OutlineTreeNode.mk t.data t.children = t
  | OutlineTreeNode.mk _ _ => rfl

theorem OutlineTreeNode.appendChild_eq (t node : OutlineTreeNode) :
    t.appendChild node = OutlineTreeNode.mk t.data (t.children ++ [node]) := by
  cases t
  rfl

theorem BookmarkTreeNode.nodes_length :
    ∀ (n : BookmarkTreeNode),
      n.nodes.length = 1 + (BookmarkTreeNode.forestNodes n.m_children).length
  | BookmarkTreeNode.mk _ _ cs => by
    simp [BookmarkTreeNode.nodes, BookmarkTreeNode.m_children, Nat.add_comm]

mutual
/-- The recursive count of a node is the number of nodes below it, modulo `2^32`. -/
theorem BookmarkTreeNode.countRecursive_eq :
    ∀ (n : BookmarkTreeNode),
      n.countRecursive = (BookmarkTreeNode.forestNodes n.m_children).length % 4294967296
  | BookmarkTreeNode.mk _ _ cs => by
    rw [BookmarkTreeNode.countRecursive, BookmarkTreeNode.countChildren_eq cs 0 (by omega)]
    simp [BookmarkTreeNode.m_children]
theorem BookmarkTreeNode.countChildren_eq :
    ∀ (cs : List BookmarkTreeNode) (count : Nat), count < 4294967296 →
      BookmarkTreeNode.countChildren count cs
        = (count + (BookmarkTreeNode.forestNodes cs).length) % 4294967296
  | [], count, h => by
    simp only [BookmarkTreeNode.countChildren, BookmarkTreeNode.forestNodes, List.length_nil]
    omega
  | c :: rest, count, h => by
    rw [BookmarkTreeNode.countChildren, BookmarkTreeNode.countRecursive_eq c,
      BookmarkTreeNode.countChildren_eq rest _ (Nat.mod_lt _ (by omega))]
    simp only [BookmarkTreeNode.forestNodes, List.length_append,
      BookmarkTreeNode.nodes_length]
    omega
end

/-- A tree with fewer than `2^32` nodes has a recursive count of zero exactly
when it has no children. -/
theorem BookmarkTreeNode.getChildCount_true_eq_zero (n : BookmarkTreeNode)
    (h : (BookmarkTreeNode.forestNodes n.m_children).length < 4294967296) :
    n.getChildCount true = 0 ↔ n.m_children = [] := by
  simp only [BookmarkTreeNode.getChildCount, Bool.not_true, Bool.false_eq_true, if_false]
  rw [BookmarkTreeNode.countRecursive_eq, Nat.mod_eq_of_lt h]
  cases hcs : n.m_children with
  | nil => simp [BookmarkTreeNode.forestNodes]
  | cons c rest =>
    simp only [BookmarkTreeNode.forestNodes, List.length_append, BookmarkTreeNode.nodes_length]
    constructor
    · intro h0; omega
    · intro h0; cases h0

/-- The built forest has no more nodes than the source forest. -/
theorem buildForest_length_le (document : Document) (pageIds : List DOMid) :
    ∀ (ts : List OutlineTreeNode),
      (BookmarkTreeNode.forestNodes (buildForest document pageIds ts)).length
        ≤ (OutlineTreeNode.forestNodes ts).length
  | [] => by simp [buildForest, BookmarkTreeNode.forestNodes]
  | OutlineTreeNode.mk none cs :: rest => by
    rw [buildForest]
    have := buildForest_length_le document pageIds rest
    simp only [OutlineTreeNode.forestNodes, OutlineTreeNode.nodes, List.length_append,
      List.length_cons]
    omega
  | OutlineTreeNode.mk (some e) cs :: rest => by
    rw [buildForest]
    have h1 := buildForest_length_le document pageIds rest
    have h2 := buildForest_length_le document pageIds cs
    simp only [OutlineTreeNode.forestNodes, OutlineTreeNode.nodes, List.length_append,
      List.length_cons]
    split_ifs
    · simp only [BookmarkTreeNode.forestNodes, BookmarkTreeNode.nodes, List.length_append,
        List.length_cons]
      omega
    · omega

/-- The relation between two forests is monotone in the relation between the
data of corresponding nodes. -/
theorem ForestRel.mono {R : Option OutlineEntry → Option OutlineEntry → Prop}
    (Q : Option OutlineEntry → Option OutlineEntry → Prop)
    (h : ∀ o d, R o d → Q o d) :
    ∀ (bs : List BookmarkTreeNode) (cs : List OutlineTreeNode),
      ForestRel R bs cs → ForestRel Q bs cs
  | [], [], _ => by simp [ForestRel]
  | [], _ :: _, hr => by simp [ForestRel] at hr
  | _ :: _, [], hr => by simp [ForestRel] at hr
  | BookmarkTreeNode.mk _ o bs1 :: bs, OutlineTreeNode.mk d cs1 :: cs, hr => by
    simp only [ForestRel, TreeRel] at hr ⊢
    exact ⟨⟨h o d hr.1.1, ForestRel.mono Q h bs1 cs1 hr.1.2⟩, ForestRel.mono Q h bs cs hr.2⟩

/-- Re-emitting succeeds on a forest all of whose nodes carry an entry with the
property `P`, when `P` makes the two lookups of `copyNodeTree` succeed: the
attachment node gets, after its children, a forest of the same shape whose
entries are the retargeted copies. -/
theorem copyNodeTreeLoop_ok (targetDocument : Document) (delta : Int) (map : PageIdToIndexMap)
    (P : OutlineEntry → Prop)
    (hP : ∀ e, P e → ∃ target mapEntry page, getOutlineRectTarget e = some target ∧
      map.find target.pageId = some mapEntry ∧
      targetDocument.getPage (toUInt32 (addInt32 mapEntry delta)) = some page) :
    ∀ (children : List BookmarkTreeNode) (root : OutlineTreeNode),
      (∀ n ∈ BookmarkTreeNode.forestNodes children, ∃ e, n.m_outline = some e ∧ P e) →
      ∃ added, copyNodeTreeLoop children targetDocument delta map root
          = some (OutlineTreeNode.mk root.data (root.children ++ added)) ∧
        ForestRel (fun o d => ∃ e target mapEntry page, o = some e ∧ P e ∧
            getOutlineRectTarget e = some target ∧ map.find target.pageId = some mapEntry ∧
            targetDocument.getPage (toUInt32 (addInt32 mapEntry delta)) = some page ∧
            d = some { e with
              target := some (Target.pageRect { target with pageId := page.pageId }) })
          children added
  | [], root, _ => by
    refine ⟨[], ?_, by simp [ForestRel]⟩
    rw [copyNodeTreeLoop, List.append_nil, OutlineTreeNode.eta]
  | BookmarkTreeNode.mk sd o cs :: rest, root, hall => by
    obtain ⟨e, he, hPe⟩ := hall (BookmarkTreeNode.mk sd o cs)
      (by simp [BookmarkTreeNode.forestNodes, BookmarkTreeNode.nodes])
    simp only [BookmarkTreeNode.m_outline] at he
    subst he
    obtain ⟨target, mapEntry, page, ht, hm, hp⟩ := hP e hPe
    have hpid : getOutlinePageId e = some target.pageId := by
      simp [getOutlinePageId, ht]
    obtain ⟨added1, hrun1, hrel1⟩ := copyNodeTreeLoop_ok targetDocument delta map P hP cs
      (OutlineTreeNode.mk (some { e with
        target := some (Target.pageRect { target with pageId := page.pageId }) }) [])
      (fun n hn => hall n (by
        simp only [BookmarkTreeNode.forestNodes, BookmarkTreeNode.nodes, List.mem_append,
          List.mem_cons]
        exact Or.inl (Or.inr hn)))
    obtain ⟨added2, hrun2, hrel2⟩ := copyNodeTreeLoop_ok targetDocument delta map P hP rest
      (root.appendChild (OutlineTreeNode.mk (some { e with
        target := some (Target.pageRect { target with pageId := page.pageId }) }) added1))
      (fun n hn => hall n (by
        simp only [BookmarkTreeNode.forestNodes, List.mem_append]
        exact Or.inr hn))
    refine ⟨OutlineTreeNode.mk (some { e with
        target := some (Target.pageRect { target with pageId := page.pageId }) }) added1
        :: added2, ?_, ?_⟩
    · rw [copyNodeTreeLoop]
      simp only [BookmarkTreeNode.m_outline, hpid, hm, ht, hp, copyNodeTree]
      simp only [OutlineTreeNode.data, OutlineTreeNode.children, List.nil_append] at hrun1
      rw [hrun1]
      simp only []
      rw [hrun2, OutlineTreeNode.appendChild_eq]
      simp [OutlineTreeNode.data, OutlineTreeNode.children]
    · simp only [ForestRel, TreeRel]
      exact ⟨⟨⟨e, target, mapEntry, page, rfl, hPe, ht, hm, hp, rfl⟩, hrel1⟩, hrel2⟩

/-- Whatever `copyNodeTree` returns is the attachment node with new trees after
its children, and every node of the new trees carries the retargeted copy of
the entry of a bookmark node: the target of the copy keeps the view parameters
and points at the page that the target document holds at the index computed
from the map entry and the delta. -/
theorem copyNodeTreeLoop_sound (targetDocument : Document) (delta : Int)
    (map : PageIdToIndexMap) :
    ∀ (children : List BookmarkTreeNode) (root newRoot : OutlineTreeNode),
      copyNodeTreeLoop children targetDocument delta map root = some newRoot →
      ∃ added, newRoot = OutlineTreeNode.mk root.data (root.children ++ added) ∧
        ∀ node ∈ OutlineTreeNode.forestNodes added,
          ∃ n ∈ BookmarkTreeNode.forestNodes children, ∃ e target mapEntry page,
            n.m_outline = some e ∧ getOutlineRectTarget e = some target ∧
            map.find target.pageId = some mapEntry ∧
            targetDocument.getPage (toUInt32 (addInt32 mapEntry delta)) = some page ∧
            node.data = some { e with
              target := some (Target.pageRect { target with pageId := page.pageId }) }
  | [], root, newRoot, h => by
    rw [copyNodeTreeLoop] at h
    cases h
    exact ⟨[], by rw [List.append_nil, OutlineTreeNode.eta],
      by simp [OutlineTreeNode.forestNodes]⟩
  | BookmarkTreeNode.mk sd o cs :: rest, root, newRoot, h => by
    have hsub : ∀ n, n ∈ BookmarkTreeNode.forestNodes rest →
        n ∈ BookmarkTreeNode.forestNodes (BookmarkTreeNode.mk sd o cs :: rest) := by
      intro n hn
      simp only [BookmarkTreeNode.forestNodes, List.mem_append]
      exact Or.inr hn
    have hskip : copyNodeTreeLoop rest targetDocument delta map root = some newRoot →
        ∃ added, newRoot = OutlineTreeNode.mk root.data (root.children ++ added) ∧
        ∀ node ∈ OutlineTreeNode.forestNodes added,
          ∃ n ∈ BookmarkTreeNode.forestNodes (BookmarkTreeNode.mk sd o cs :: rest),
            ∃ e target mapEntry page,
            n.m_outline = some e ∧ getOutlineRectTarget e = some target ∧
            map.find target.pageId = some mapEntry ∧
            targetDocument.getPage (toUInt32 (addInt32 mapEntry delta)) = some page ∧
            node.data = some { e with
              target := some (Target.pageRect { target with pageId := page.pageId }) } := by
      intro h1
      obtain ⟨added, ha1, ha2⟩ := copyNodeTreeLoop_sound targetDocument delta map rest root
        newRoot h1
      refine ⟨added, ha1, fun node hnode => ?_⟩
      obtain ⟨n, hn, rest1⟩ := ha2 node hnode
      exact ⟨n, hsub n hn, rest1⟩
    rw [copyNodeTreeLoop] at h
    simp only [BookmarkTreeNode.m_outline] at h
    cases o with
    | none => simp at h
    | some e =>
      simp only [] at h
      cases hpid : getOutlinePageId e with
      | none =>
        rw [hpid] at h
        exact hskip h
      | some pageId =>
        rw [hpid] at h
        simp only [] at h
        cases hm : map.find pageId with
        | none =>
          rw [hm] at h
          exact hskip h
        | some mapEntry =>
          rw [hm] at h
          simp only [] at h
          cases ht : getOutlineRectTarget e with
          | none =>
            rw [ht] at h
            simp at h
          | some target =>
            have hpt : pageId = target.pageId := by
              simp [getOutlinePageId, ht] at hpid
              exact hpid.symm
            cases hp : targetDocument.getPage (toUInt32 (addInt32 mapEntry delta)) with
            | none =>
              rw [ht, hp] at h
              simp at h
            | some page =>
              rw [ht, hp] at h
              simp only [copyNodeTree] at h
              cases hc : copyNodeTreeLoop cs targetDocument delta map
                  (OutlineTreeNode.mk (some { e with
                    target := some (Target.pageRect { target with pageId := page.pageId }) })
                    []) with
              | none =>
                rw [hc] at h
                simp at h
              | some node1 =>
                rw [hc] at h
                simp only [] at h
                obtain ⟨added1, ha1, hall1⟩ := copyNodeTreeLoop_sound targetDocument delta map
                  cs _ node1 hc
                obtain ⟨added2, ha2, hall2⟩ := copyNodeTreeLoop_sound targetDocument delta map
                  rest _ newRoot h
                simp only [OutlineTreeNode.data, OutlineTreeNode.children, List.nil_append]
                  at ha1
                refine ⟨node1 :: added2, ?_, ?_⟩
                · rw [ha2, OutlineTreeNode.appendChild_eq]
                  simp [OutlineTreeNode.data, OutlineTreeNode.children]
                · intro node hnode
                  rw [ha1] at hnode
                  simp only [OutlineTreeNode.forestNodes, OutlineTreeNode.nodes,
                    List.mem_append, List.mem_cons] at hnode
                  rcases hnode with (rfl | hnode) | hnode
                  · refine ⟨BookmarkTreeNode.mk sd (some e) cs, ?_, e, target, mapEntry, page,
                      rfl, ht, hpt ▸ hm, hp, rfl⟩
                    simp [BookmarkTreeNode.forestNodes, BookmarkTreeNode.nodes]
                  · obtain ⟨n, hn, rest1⟩ := hall1 node hnode
                    refine ⟨n, ?_, rest1⟩
                    simp only [BookmarkTreeNode.forestNodes, BookmarkTreeNode.nodes,
                      List.mem_append, List.mem_cons]
                    exact Or.inl (Or.inr hn)
                  · obtain ⟨n, hn, rest1⟩ := hall2 node hnode
                    exact ⟨n, hsub n hn, rest1⟩


/-! ## The assembly loop: one page range -/

theorem adjustPageRange_resolved (pageCount : Nat) (r : sPageRange) (h1 : 1 ≤ r.firstPage)
    (h2 : r.firstPage ≤ r.lastPage) (h3 : r.lastPage ≤ pageCount) :
    adjustPageRange pageCount r = r := by
  unfold adjustPageRange
  simp only
  rw [if_neg (by omega), if_neg (by omega)]

/-- The page of the output at position `offset + (j - f)`, after the pages
`f .. f + c - 1` of the source were appended to `offset` pages. -/
theorem appended_page (old src : List Page) (f c j : Nat) (hf : f ≤ j) (hj : j < f + c) :
    (old ++ (src.drop f).take c)[old.length + (j - f)]? = src[j]? := by
  rw [List.getElem?_append_right (by omega)]
  have h1 : old.length + (j - f) - old.length = j - f := by omega
  rw [h1, List.getElem?_take_of_lt (by omega), List.getElem?_drop]
  congr 1
  omega

/-- What `bookmarkHasPageId` says of an entry, for the identifiers collected from
the pages `f .. l - 1`. -/
theorem kept_entry_target (document : Document) (pageIds : List DOMid) (f l : Nat)
    (hmem : ∀ x, x ∈ pageIds ↔ x ∈ ([] : List DOMid) ∨
      ∃ j p, f ≤ j ∧ j < l ∧ document.pages[j]? = some p ∧ p.pageId = x)
    (e : OutlineEntry) (he : bookmarkHasPageId e pageIds = true) :
    ∃ target j p, getOutlineRectTarget e = some target ∧ f ≤ j ∧ j < l ∧
      document.pages[j]? = some p ∧ p.pageId = target.pageId := by
  unfold bookmarkHasPageId getOutlinePageId at he
  cases ht : getOutlineRectTarget e with
  | none => simp [ht] at he
  | some target =>
    simp [ht] at he
    rcases (hmem target.pageId).mp he with h | ⟨j, p, h1, h2, h3, h4⟩
    · cases h
    · exact ⟨target, j, p, rfl, h1, h2, h3, h4⟩

/-- One iteration of the loop over the page ranges, for a resolved range of a
document with pairwise distinct page identifiers: the tree of kept bookmarks is
built, the pages of the range are appended to the output, the running offset
advances by their number, and the bookmark of the input document gets, after
its children, a forest of the shape of the kept bookmarks in which the entry
kept for source page `i` targets the output page at position
`offset + (i - (firstPage - 1))`, which is that source page. -/
theorem processPageRange_spec (sourceDocument : Document) (st : CombinerState) (r : sPageRange)
    (hnd : (sourceDocument.pages.map Page.pageId).Nodup)
    (hN : sourceDocument.pages.length < 2147483648)
    (hsize : ∀ root, sourceDocument.outline = some root →
      (OutlineTreeNode.forestNodes root.children).length < 4294967296)
    (h1 : 1 ≤ r.firstPage) (h2 : r.firstPage ≤ r.lastPage)
    (h3 : r.lastPage ≤ sourceDocument.pages.length)
    (hoff : st.targetDocumentPageIndex = st.document.pages.length)
    (hout : st.document.pages.length + (r.lastPage - r.firstPage + 1) < 4294967296) :
    ∃ kept added,
      BookmarkTreeNode.createFromDocument sourceDocument (toInt32 (u32sub r.firstPage 1))
        (toInt32 (u32sub r.lastPage 1)) = some kept ∧
      processPageRange sourceDocument sourceDocument.getNumPages st r
        = some { document := { st.document with
                   pages := st.document.pages
                     ++ (sourceDocument.pages.drop (r.firstPage - 1)).take
                          (r.lastPage - r.firstPage + 1) },
                 newNode := OutlineTreeNode.mk st.newNode.data (st.newNode.children ++ added),
                 targetDocumentPageIndex :=
                   st.targetDocumentPageIndex + (r.lastPage - r.firstPage + 1) } ∧
      ForestRel (fun o d => ∃ e target i page, o = some e ∧
          getOutlineRectTarget e = some target ∧
          r.firstPage - 1 ≤ i ∧ i ≤ r.lastPage - 1 ∧
          sourceDocument.pages[i]? = some page ∧ page.pageId = target.pageId ∧
          (st.document.pages ++ (sourceDocument.pages.drop (r.firstPage - 1)).take
            (r.lastPage - r.firstPage + 1))[st.targetDocumentPageIndex
              + (i - (r.firstPage - 1))]? = some page ∧
          d = some { e with
            target := some (Target.pageRect { target with pageId := page.pageId }) })
        kept.m_children added := by
  have hnum : sourceDocument.getNumPages = sourceDocument.pages.length :=
    Document.getNumPages_eq _ (by omega)
  have hf : u32sub r.firstPage 1 = r.firstPage - 1 := u32sub_one _ h1 (by omega)
  have hl : u32sub r.lastPage 1 = r.lastPage - 1 := u32sub_one _ (by omega) (by omega)
  have hfi : toInt32 (r.firstPage - 1) = ((r.firstPage - 1 : Nat) : Int) :=
    toInt32_of_lt _ (by omega)
  have hli : toInt32 (r.lastPage - 1) = ((r.lastPage - 1 : Nat) : Int) :=
    toInt32_of_lt _ (by omega)
  have hcount : r.lastPage - (r.firstPage - 1) = r.lastPage - r.firstPage + 1 := by omega
  have hcopy := copyPages_eq sourceDocument (r.lastPage - r.firstPage + 1) (r.firstPage - 1)
    st.document (by omega)
  have htd : (st.targetDocumentPageIndex + (u32sub (r.lastPage - 1) (r.firstPage - 1) + 1))
      % 4294967296 = st.targetDocumentPageIndex + (r.lastPage - r.firstPage + 1) := by
    unfold u32sub
    omega
  -- the tree of kept bookmarks and the property of its entries
  have hkept : ∃ forest,
      BookmarkTreeNode.createFromDocument sourceDocument (toInt32 (u32sub r.firstPage 1))
        (toInt32 (u32sub r.lastPage 1)) = some (BookmarkTreeNode.mk sourceDocument none forest) ∧
      (BookmarkTreeNode.forestNodes forest).length < 4294967296 ∧
      ∀ n ∈ BookmarkTreeNode.forestNodes forest, ∃ e, n.m_outline = some e ∧
        ∃ target j p, getOutlineRectTarget e = some target ∧ r.firstPage - 1 ≤ j ∧
          j < r.lastPage ∧ sourceDocument.pages[j]? = some p ∧ p.pageId = target.pageId := by
    rw [hf, hl, hfi, hli]
    unfold BookmarkTreeNode.createFromDocument
    cases ho : sourceDocument.outline with
    | none =>
      exact ⟨[], rfl, by simp [BookmarkTreeNode.forestNodes],
        by simp [BookmarkTreeNode.forestNodes]⟩
    | some root =>
      have hc : (((r.lastPage - 1 : Nat) : Int) + 1 - ((r.firstPage - 1 : Nat) : Int)).toNat
          = r.lastPage - r.firstPage + 1 := by omega
      obtain ⟨pageIds, hrun, hmem⟩ := collectPageIds_spec sourceDocument
        (r.lastPage - r.firstPage + 1) (r.firstPage - 1) [] (by omega) (by omega)
      simp only [hc, hrun, buildBookmarkTree_eq, List.nil_append]
      refine ⟨_, rfl, ?_, ?_⟩
      · exact Nat.lt_of_le_of_lt (buildForest_length_le _ _ _) (hsize root ho)
      · intro n hn
        obtain ⟨e, he1, he2, -⟩ := buildForest_node sourceDocument pageIds root.children n hn
        refine ⟨e, he1, ?_⟩
        have hmem2 : ∀ x, x ∈ pageIds ↔ x ∈ ([] : List DOMid) ∨
            ∃ j p, r.firstPage - 1 ≤ j ∧ j < r.lastPage ∧
              sourceDocument.pages[j]? = some p ∧ p.pageId = x := by
          intro x
          rw [hmem x]
          have hb : r.firstPage - 1 + (r.lastPage - r.firstPage + 1) = r.lastPage := by omega
          rw [hb]
        exact kept_entry_target sourceDocument pageIds _ _ hmem2 e he2
  obtain ⟨forest, hcreate, hlen, hall⟩ := hkept
  -- the map from page identifier to page index
  obtain ⟨map, hmap, -, -, hfound⟩ := buildPageIdToPageIndexMapLoop_spec sourceDocument
    sourceDocument.pages.length 0 [] (by omega)
  have hmap2 : buildPageIdToPageIndexMap sourceDocument = some map := by
    unfold buildPageIdToPageIndexMap
    rw [hnum]
    exact hmap
  -- the two lookups of `copyNodeTree` succeed on the kept entries
  have hlook : ∀ e, (∃ target j p, getOutlineRectTarget e = some target ∧ r.firstPage - 1 ≤ j ∧
        j < r.lastPage ∧ sourceDocument.pages[j]? = some p ∧ p.pageId = target.pageId) →
      ∃ target mapEntry page, getOutlineRectTarget e = some target ∧
        map.find target.pageId = some mapEntry ∧
        Document.getPage { st.document with
            pages := st.document.pages ++ (sourceDocument.pages.drop (r.firstPage - 1)).take
              (r.lastPage - r.firstPage + 1) }
          (toUInt32 (addInt32 mapEntry
            (toInt32 (u32sub st.targetDocumentPageIndex (r.firstPage - 1))))) = some page := by
    rintro e ⟨target, j, p, ht, hj1, hj2, hj3, hj4⟩
    have hjN : j < sourceDocument.pages.length := by omega
    refine ⟨target, toInt32 j, p, ht, ?_, ?_⟩
    · rw [← hj4]
      exact hfound hnd j p (by omega) (by omega) hj3
    · rw [retarget_index _ _ _ hj1 (by omega) (by omega), hoff]
      simp only [Document.getPage]
      rw [appended_page _ _ _ _ _ hj1 (by omega)]
      exact hj3
  obtain ⟨added, hemit, hrel⟩ := copyNodeTreeLoop_ok
    { st.document with
      pages := st.document.pages ++ (sourceDocument.pages.drop (r.firstPage - 1)).take
        (r.lastPage - r.firstPage + 1) }
    (toInt32 (u32sub st.targetDocumentPageIndex (r.firstPage - 1))) map _ hlook forest
    st.newNode hall
  -- the relation between the kept and the emitted forest, in terms of positions
  have hrel2 := ForestRel.mono
    (fun o d => ∃ e target i page, o = some e ∧
          getOutlineRectTarget e = some target ∧
          r.firstPage - 1 ≤ i ∧ i ≤ r.lastPage - 1 ∧
          sourceDocument.pages[i]? = some page ∧ page.pageId = target.pageId ∧
          (st.document.pages ++ (sourceDocument.pages.drop (r.firstPage - 1)).take
            (r.lastPage - r.firstPage + 1))[st.targetDocumentPageIndex
              + (i - (r.firstPage - 1))]? = some page ∧
          d = some { e with
            target := some (Target.pageRect { target with pageId := page.pageId }) })
    (by
      rintro o d ⟨e, target, mapEntry, page, ho, ⟨target2, j, p, ht2, hj1, hj2, hj3, hj4⟩, ht,
        hm, hp, hd⟩
      have htt : target2 = target := Option.some.inj (ht2.symm.trans ht)
      rw [htt] at hj4
      have hjN : j < sourceDocument.pages.length := by omega
      have hm2 := hfound hnd j p (by omega) (by omega) hj3
      rw [hj4, hm] at hm2
      have hme : mapEntry = toInt32 j := Option.some.inj hm2
      rw [hme, retarget_index _ _ _ hj1 (by omega) (by omega), hoff] at hp
      simp only [Document.getPage] at hp
      have hp2 := hp
      rw [appended_page _ _ _ _ _ hj1 (by omega), hj3] at hp2
      have hpp : p = page := Option.some.inj hp2
      rw [hpp] at hj3 hj4
      exact ⟨e, target, j, page, ho, ht, hj1, by omega, hj3, hj4, by rw [hoff]; exact hp, hd⟩)
    forest added hrel
  have hcreate2 := hcreate
  rw [hf, hl] at hcreate2
  by_cases hgate : forest = []
  · -- nothing kept: `getChildCount(true)` is 0 and nothing is attached
    subst hgate
    refine ⟨_, [], hcreate, ?_, by simp [ForestRel, BookmarkTreeNode.m_children]⟩
    unfold processPageRange
    simp only [hnum, adjustPageRange_resolved _ r h1 h2 h3, hf, hl, hcount, hcopy, hcreate2]
    have hz : (BookmarkTreeNode.mk sourceDocument none []).getChildCount true = 0 :=
      (BookmarkTreeNode.getChildCount_true_eq_zero (BookmarkTreeNode.mk sourceDocument none [])
        hlen).mpr rfl
    simp only [hz, ne_eq, not_true_eq_false, if_false, htd, List.append_nil,
      OutlineTreeNode.eta]
  · refine ⟨_, added, hcreate, ?_, hrel2⟩
    unfold processPageRange
    simp only [hnum, adjustPageRange_resolved _ r h1 h2 h3, hf, hl, hcount, hcopy, hcreate2]
    have hz : (BookmarkTreeNode.mk sourceDocument none forest).getChildCount true ≠ 0 :=
      fun hc => hgate ((BookmarkTreeNode.getChildCount_true_eq_zero
        (BookmarkTreeNode.mk sourceDocument none forest) hlen).mp hc)
    simp only [hz, ne_eq, not_false_eq_true, if_true, BookmarkTreeNode.appendToDocument,
      BookmarkTreeNode.m_sourceDocument, hmap2, copyNodeTree, hemit, htd]


/-! ## The assembly loop: the ranges of a document -/

/-- The pages of a resolved range. -/
theorem processPageRanges_append (sourceDocument : Document) (pageCount : Nat) :
    ∀ (pre post : List sPageRange) (st : CombinerState),
      processPageRanges sourceDocument pageCount (pre ++ post) st
        = (processPageRanges sourceDocument pageCount pre st).bind
            (processPageRanges sourceDocument pageCount post)
  | [], post, st => by simp [processPageRanges]
  | r :: pre, post, st => by
    simp only [List.cons_append, processPageRanges]
    cases processPageRange sourceDocument pageCount st r with
    | none => simp
    | some st1 => exact processPageRanges_append sourceDocument pageCount pre post st1

/-- The loop over resolved ranges runs to its end: the output gains the pages of
the ranges, in the order of the ranges, the running offset advances by their
number, the other parts of the output document are left as they were and the
bookmark of the input document keeps its entry and its earlier children. -/
theorem processPageRanges_spec (sourceDocument : Document)
    (hnd : (sourceDocument.pages.map Page.pageId).Nodup)
    (hN : sourceDocument.pages.length < 2147483648)
    (hsize : ∀ root, sourceDocument.outline = some root →
      (OutlineTreeNode.forestNodes root.children).length < 4294967296) :
    ∀ (ranges : List sPageRange) (st : CombinerState),
      (∀ r ∈ ranges, 1 ≤ r.firstPage ∧ r.firstPage ≤ r.lastPage ∧
        r.lastPage ≤ sourceDocument.pages.length) →
      st.targetDocumentPageIndex = st.document.pages.length →
      st.document.pages.length
        + (ranges.map (fun r => r.lastPage - r.firstPage + 1)).sum < 4294967296 →
      ∃ added, processPageRanges sourceDocument sourceDocument.getNumPages ranges st
        = some { document := { st.document with
                   pages := st.document.pages ++ ranges.flatMap (fun r =>
                     (sourceDocument.pages.drop (r.firstPage - 1)).take
                       (r.lastPage - r.firstPage + 1)) },
                 newNode := OutlineTreeNode.mk st.newNode.data (st.newNode.children ++ added),
                 targetDocumentPageIndex := st.targetDocumentPageIndex
                   + (ranges.map (fun r => r.lastPage - r.firstPage + 1)).sum }
  | [], st, _, _, _ => by
    refine ⟨[], ?_⟩
    simp [processPageRanges, OutlineTreeNode.eta]
  | r :: rest, st, hr, hoff, hout => by
    obtain ⟨h1, h2, h3⟩ := hr r (by simp)
    simp only [List.map_cons, List.sum_cons] at hout
    obtain ⟨kept, added1, -, hstep, -⟩ := processPageRange_spec sourceDocument st r hnd hN hsize
      h1 h2 h3 hoff (by omega)
    have hlen : ((sourceDocument.pages.drop (r.firstPage - 1)).take
        (r.lastPage - r.firstPage + 1)).length = r.lastPage - r.firstPage + 1 := by
      rw [List.length_take, List.length_drop]
      omega
    obtain ⟨added2, hrest⟩ := processPageRanges_spec sourceDocument hnd hN hsize rest
      { document := { st.document with
          pages := st.document.pages
            ++ (sourceDocument.pages.drop (r.firstPage - 1)).take
                 (r.lastPage - r.firstPage + 1) },
        newNode := OutlineTreeNode.mk st.newNode.data (st.newNode.children ++ added1),
        targetDocumentPageIndex :=
          st.targetDocumentPageIndex + (r.lastPage - r.firstPage + 1) }
      (fun q hq => hr q (by simp [hq]))
      (by simp only [List.length_append, hlen, hoff])
      (by simp only [List.length_append, hlen]; omega)
    refine ⟨added1 ++ added2, ?_⟩
    dsimp only at hrest
    rw [processPageRanges, hstep]
    dsimp only
    rw [hrest]
    simp only [OutlineTreeNode.data, OutlineTreeNode.children, List.flatMap_cons,
      List.append_assoc, List.map_cons, List.sum_cons, Nat.add_assoc]

/-- The iteration for one resolved range, in terms of the state it returns. -/
theorem processPageRange_run (sourceDocument : Document) (st : CombinerState) (r : sPageRange)
    (hnd : (sourceDocument.pages.map Page.pageId).Nodup)
    (hN : sourceDocument.pages.length < 2147483648)
    (hsize : ∀ root, sourceDocument.outline = some root →
      (OutlineTreeNode.forestNodes root.children).length < 4294967296)
    (h1 : 1 ≤ r.firstPage) (h2 : r.firstPage ≤ r.lastPage)
    (h3 : r.lastPage ≤ sourceDocument.pages.length)
    (hoff : st.targetDocumentPageIndex = st.document.pages.length)
    (hout : st.document.pages.length + (r.lastPage - r.firstPage + 1) < 4294967296) :
    ∃ st1, processPageRange sourceDocument sourceDocument.getNumPages st r = some st1 ∧
      st1.document.pages = st.document.pages
        ++ (sourceDocument.pages.drop (r.firstPage - 1)).take (r.lastPage - r.firstPage + 1) ∧
      st1.targetDocumentPageIndex
        = st.targetDocumentPageIndex + (r.lastPage - r.firstPage + 1) := by
  obtain ⟨kept, added, -, hrun, -⟩ := processPageRange_spec sourceDocument st r hnd hN hsize
    h1 h2 h3 hoff hout
  exact ⟨_, hrun, rfl, rfl⟩

/-- The loop over resolved ranges, in terms of the state it returns. -/
theorem processPageRanges_run (sourceDocument : Document)
    (hnd : (sourceDocument.pages.map Page.pageId).Nodup)
    (hN : sourceDocument.pages.length < 2147483648)
    (hsize : ∀ root, sourceDocument.outline = some root →
      (OutlineTreeNode.forestNodes root.children).length < 4294967296)
    (ranges : List sPageRange) (st : CombinerState)
    (hr : ∀ r ∈ ranges, 1 ≤ r.firstPage ∧ r.firstPage ≤ r.lastPage ∧
      r.lastPage ≤ sourceDocument.pages.length)
    (hoff : st.targetDocumentPageIndex = st.document.pages.length)
    (hout : st.document.pages.length
      + (ranges.map (fun r => r.lastPage - r.firstPage + 1)).sum < 4294967296) :
    ∃ stEnd, processPageRanges sourceDocument sourceDocument.getNumPages ranges st = some stEnd ∧
      stEnd.document.pages = st.document.pages ++ ranges.flatMap (fun r =>
        (sourceDocument.pages.drop (r.firstPage - 1)).take (r.lastPage - r.firstPage + 1)) ∧
      stEnd.targetDocumentPageIndex = st.targetDocumentPageIndex
        + (ranges.map (fun r => r.lastPage - r.firstPage + 1)).sum := by
  obtain ⟨added, hrun⟩ := processPageRanges_spec sourceDocument hnd hN hsize ranges st hr hoff
    hout
  exact ⟨_, hrun, rfl, rfl⟩

/-- The number of pages of a list of resolved ranges. -/
theorem flatMap_ranges_length (sourceDocument : Document) :
    ∀ (l : List sPageRange),
      (∀ q ∈ l, 1 ≤ q.firstPage ∧ q.firstPage ≤ q.lastPage ∧
        q.lastPage ≤ sourceDocument.pages.length) →
      (l.flatMap (fun r => (sourceDocument.pages.drop (r.firstPage - 1)).take
        (r.lastPage - r.firstPage + 1))).length
        = (l.map (fun r => r.lastPage - r.firstPage + 1)).sum
  | [], _ => by simp
  | q :: l, hl => by
    obtain ⟨q1, q2, q3⟩ := hl q (by simp)
    simp only [List.flatMap_cons, List.length_append, List.map_cons, List.sum_cons]
    rw [flatMap_ranges_length sourceDocument l (fun x hx => hl x (by simp [hx])),
      List.length_take, List.length_drop]
    omega

/-- C4. Offset correctness, without merging of ranges. For a source document with
pairwise distinct page identifiers and a list of resolved ranges, the loop over
the ranges runs to its end; the pages it appends to the output are the
concatenation, in list order, of the pages `firstPage .. lastPage` of each
range; the running offset ends equal to the output page count; and for every
range of the list, with `st0` the state before it and `st1` the state after it:
the offset has advanced by `lastPage - firstPage + 1`, it equals the output
page count, and the `k`-th page of the range sits, in the final output, at
index `offsetBefore + (k - 1)`. -/
theorem offset_correctness (sourceDocument : Document) (ranges : List sPageRange)
    (st : CombinerState)
    (hnd : (sourceDocument.pages.map Page.pageId).Nodup)
    (hN : sourceDocument.pages.length < 2147483648)
    (hsize : ∀ root, sourceDocument.outline = some root →
      (OutlineTreeNode.forestNodes root.children).length < 4294967296)
    (hr : ∀ r ∈ ranges, 1 ≤ r.firstPage ∧ r.firstPage ≤ r.lastPage ∧
      r.lastPage ≤ sourceDocument.pages.length)
    (hoff : st.targetDocumentPageIndex = st.document.pages.length)
    (hout : st.document.pages.length
      + (ranges.map (fun r => r.lastPage - r.firstPage + 1)).sum < 4294967296) :
    ∃ stEnd, processPageRanges sourceDocument sourceDocument.getNumPages ranges st = some stEnd ∧
      stEnd.document.pages = st.document.pages ++ ranges.flatMap (fun r =>
        (sourceDocument.pages.drop (r.firstPage - 1)).take (r.lastPage - r.firstPage + 1)) ∧
      stEnd.targetDocumentPageIndex = stEnd.document.pages.length ∧
      ∀ pre r post, ranges = pre ++ r :: post →
        ∃ st0 st1,
          processPageRanges sourceDocument sourceDocument.getNumPages pre st = some st0 ∧
          processPageRange sourceDocument sourceDocument.getNumPages st0 r = some st1 ∧
          processPageRanges sourceDocument sourceDocument.getNumPages post st1 = some stEnd ∧
          st1.targetDocumentPageIndex
            = st0.targetDocumentPageIndex + (r.lastPage - r.firstPage + 1) ∧
          st0.targetDocumentPageIndex = st0.document.pages.length ∧
          st1.targetDocumentPageIndex = st1.document.pages.length ∧
          ∀ k, 1 ≤ k → k ≤ r.lastPage - r.firstPage + 1 →
            stEnd.document.pages[st0.targetDocumentPageIndex + (k - 1)]?
              = sourceDocument.pages[r.firstPage - 1 + (k - 1)]? ∧
            (sourceDocument.pages[r.firstPage - 1 + (k - 1)]?).isSome := by
  obtain ⟨stEnd, hrun, hpages, htd⟩ := processPageRanges_run sourceDocument hnd hN hsize ranges
    st hr hoff hout
  refine ⟨stEnd, hrun, hpages, ?_, ?_⟩
  · rw [htd, hpages, List.length_append, flatMap_ranges_length sourceDocument ranges hr, hoff]
  · intro pre r post hsplit
    subst hsplit
    simp only [List.map_append, List.map_cons, List.sum_append, List.sum_cons] at hout
    obtain ⟨r1, r2, r3⟩ := hr r (by simp)
    have hpre : ∀ q ∈ pre, 1 ≤ q.firstPage ∧ q.firstPage ≤ q.lastPage ∧
        q.lastPage ≤ sourceDocument.pages.length := fun q hq => hr q (by simp [hq])
    have hpost : ∀ q ∈ post, 1 ≤ q.firstPage ∧ q.firstPage ≤ q.lastPage ∧
        q.lastPage ≤ sourceDocument.pages.length := fun q hq => hr q (by simp [hq])
    have hlenr : ((sourceDocument.pages.drop (r.firstPage - 1)).take
        (r.lastPage - r.firstPage + 1)).length = r.lastPage - r.firstPage + 1 := by
      rw [List.length_take, List.length_drop]
      omega
    obtain ⟨st0, hrun0, hpages0, htd0⟩ := processPageRanges_run sourceDocument hnd hN hsize pre
      st hpre hoff (by omega)
    have hoff0 : st0.targetDocumentPageIndex = st0.document.pages.length := by
      rw [htd0, hpages0, List.length_append, flatMap_ranges_length sourceDocument pre hpre, hoff]
    have hlen0 : st0.document.pages.length = st.document.pages.length
        + (pre.map (fun r => r.lastPage - r.firstPage + 1)).sum := by
      rw [hpages0, List.length_append, flatMap_ranges_length sourceDocument pre hpre]
    obtain ⟨st1, hrun1, hpages1, htd1⟩ := processPageRange_run sourceDocument st0 r hnd hN hsize
      r1 r2 r3 hoff0 (by omega)
    have hoff1 : st1.targetDocumentPageIndex = st1.document.pages.length := by
      rw [htd1, hpages1, List.length_append, hlenr, hoff0]
    obtain ⟨st2, hrun2, hpages2, -⟩ := processPageRanges_run sourceDocument hnd hN hsize post
      st1 hpost hoff1 (by rw [hpages1, List.length_append, hlenr]; omega)
    have hwhole : processPageRanges sourceDocument sourceDocument.getNumPages
        (pre ++ r :: post) st = some st2 := by
      rw [processPageRanges_append, hrun0]
      show processPageRanges sourceDocument sourceDocument.getNumPages (r :: post) st0 = some st2
      rw [processPageRanges, hrun1]
      exact hrun2
    have hst : st2 = stEnd := Option.some.inj (hwhole.symm.trans hrun)
    subst hst
    refine ⟨st0, st1, hrun0, hrun1, hrun2, htd1, hoff0, hoff1, ?_⟩
    intro k hk1 hk2
    have hidx : r.firstPage - 1 + (k - 1) < sourceDocument.pages.length := by omega
    refine ⟨?_, by rw [List.getElem?_eq_getElem hidx]; rfl⟩
    rw [hpages2, hpages1, List.getElem?_append_left (by
      rw [List.length_append, hlenr, hoff0]; omega), hoff0]
    have hpos : st0.document.pages.length + (k - 1)
        = st0.document.pages.length + ((r.firstPage - 1 + (k - 1)) - (r.firstPage - 1)) := by
      omega
    rw [hpos]
    exact appended_page _ _ _ _ _ (by omega) (by omega)


/-! ## The bookmark tree: the remap of `appendToDocument` -/

/-- C3. Bookmark remap round-trip. Let `appendToDocument` return, for a tree whose
source document has at most `2^31` pages, a target document of at most `2^31`
pages and any delta of type `int`.  Then the map from page identifier to page
index of the source document was built, the attachment node (the given target
node, or else the root of the target document's outline) has kept its entry
and its children and has new trees after them, and every node of the new trees
carries a copy of the entry of a bookmark node such that: the target page id
of that entry is mapped to an index `i` (the index of a source page with that
identifier), `i + delta` is a valid index of the target document, and the copy
has the same view parameters and the page id of the target document's page at
index `i + delta`. -/
theorem bookmark_remap_round_trip (self : BookmarkTreeNode) (targetDocument : Document)
    (delta : Int) (targetOutline : Option OutlineTreeNode) (newDocument : Document)
    (newOutline : Option OutlineTreeNode)
    (hsrc : self.m_sourceDocument.pages.length ≤ 2147483648)
    (htgt : targetDocument.pages.length ≤ 2147483648)
    (hd1 : -2147483648 ≤ delta) (hd2 : delta < 2147483648)
    (hrun : self.appendToDocument targetDocument delta targetOutline
      = some (newDocument, newOutline)) :
    ∃ map added,
      buildPageIdToPageIndexMap self.m_sourceDocument = some map ∧
      (∀ t, targetOutline = some t →
        newOutline = some (OutlineTreeNode.mk t.data (t.children ++ added)) ∧
        newDocument = targetDocument) ∧
      (targetOutline = none →
        newOutline = none ∧
        newDocument = { targetDocument with
          outline := some (OutlineTreeNode.mk
            (targetDocument.outline.getD (OutlineTreeNode.mk none [])).data
            ((targetDocument.outline.getD (OutlineTreeNode.mk none [])).children ++ added)) }) ∧
      ∀ node ∈ OutlineTreeNode.forestNodes added,
        ∃ n ∈ BookmarkTreeNode.forestNodes self.m_children,
          ∃ (outline : OutlineEntry) (target : PageRectTarget) (i : Nat) (page sourcePage : Page),
            n.m_outline = some outline ∧ getOutlineRectTarget outline = some target ∧
            map.find target.pageId = some (i : Int) ∧
            self.m_sourceDocument.pages[i]? = some sourcePage ∧
            sourcePage.pageId = target.pageId ∧
            0 ≤ (i : Int) + delta ∧
            targetDocument.pages[((i : Int) + delta).toNat]? = some page ∧
            node.data = some { outline with
              target := some (Target.pageRect { target with pageId := page.pageId }) } := by
  have hcount : 0 + self.m_sourceDocument.getNumPages ≤ self.m_sourceDocument.pages.length := by
    unfold Document.getNumPages
    have := Nat.mod_le self.m_sourceDocument.pages.length 4294967296
    omega
  obtain ⟨map, hmap, hsound, -, -⟩ := buildPageIdToPageIndexMapLoop_spec self.m_sourceDocument
    self.m_sourceDocument.getNumPages 0 [] hcount
  have hmap2 : buildPageIdToPageIndexMap self.m_sourceDocument = some map := hmap
  -- what the soundness of the loop gives for each emitted node
  have hnodes : ∀ (root newRoot : OutlineTreeNode),
      copyNodeTree self targetDocument delta map root = some newRoot →
      ∃ added, newRoot = OutlineTreeNode.mk root.data (root.children ++ added) ∧
        ∀ node ∈ OutlineTreeNode.forestNodes added,
          ∃ n ∈ BookmarkTreeNode.forestNodes self.m_children,
            ∃ (outline : OutlineEntry) (target : PageRectTarget) (i : Nat)
              (page sourcePage : Page),
              n.m_outline = some outline ∧ getOutlineRectTarget outline = some target ∧
              map.find target.pageId = some (i : Int) ∧
              self.m_sourceDocument.pages[i]? = some sourcePage ∧
              sourcePage.pageId = target.pageId ∧
              0 ≤ (i : Int) + delta ∧
              targetDocument.pages[((i : Int) + delta).toNat]? = some page ∧
              node.data = some { outline with
                target := some (Target.pageRect { target with pageId := page.pageId }) } := by
    intro root newRoot hcopy
    have hcopy2 : copyNodeTreeLoop self.m_children targetDocument delta map root
        = some newRoot := by
      cases self
      rw [copyNodeTree] at hcopy
      exact hcopy
    obtain ⟨added, hnew, hall⟩ := copyNodeTreeLoop_sound targetDocument delta map
      self.m_children root newRoot hcopy2
    refine ⟨added, hnew, fun node hnode => ?_⟩
    obtain ⟨n, hn, e, target, mapEntry, page, h1, h2, h3, h4, h5⟩ := hall node hnode
    rcases hsound target.pageId mapEntry h3 with hc | ⟨j, p, -, hj2, hj3, hj4, hj5⟩
    · simp [PageIdToIndexMap.find] at hc
    · have hjlt : j < self.m_sourceDocument.pages.length := by omega
      have hj31 : j < 2147483648 := by omega
      have hk : toUInt32 (addInt32 (toInt32 j) delta) < 2147483648 := by
        rw [← hj5]
        by_contra hc
        have hnone : targetDocument.getPage (toUInt32 (addInt32 mapEntry delta)) = none := by
          unfold Document.getPage
          exact List.getElem?_eq_none (by omega)
        rw [hnone] at h4
        cases h4
      obtain ⟨hnn, hidx⟩ := exact_index j delta hj31 hd1 hd2 hk
      have hme : mapEntry = (j : Int) := by rw [hj5, toInt32_of_lt j hj31]
      refine ⟨n, hn, e, target, j, page, p, h1, h2, by rw [← hme]; exact h3, hj3, hj4, hnn, ?_,
        h5⟩
      rw [hidx, ← hj5]
      exact h4
  unfold BookmarkTreeNode.appendToDocument at hrun
  rw [hmap2] at hrun
  cases targetOutline with
  | none =>
    simp only [] at hrun
    cases hcopy : copyNodeTree self targetDocument delta map
        (targetDocument.outline.getD (OutlineTreeNode.mk none [])) with
    | none =>
      rw [hcopy] at hrun
      cases hrun
    | some newRoot =>
      rw [hcopy] at hrun
      obtain ⟨added, hnew, hall⟩ := hnodes _ newRoot hcopy
      refine ⟨map, added, hmap2, ?_, ?_, hall⟩
      · intro t ht
        cases ht
      · intro _
        simp only [Option.some.injEq, Prod.mk.injEq] at hrun
        exact ⟨hrun.2.symm, by rw [← hrun.1, hnew]⟩
  | some t =>
    simp only [] at hrun
    cases hcopy : copyNodeTree self targetDocument delta map t with
    | none =>
      rw [hcopy] at hrun
      cases hrun
    | some newRoot =>
      rw [hcopy] at hrun
      obtain ⟨added, hnew, hall⟩ := hnodes t newRoot hcopy
      refine ⟨map, added, hmap2, ?_, ?_, hall⟩
      · intro t2 ht
        cases ht
        simp only [Option.some.injEq, Prod.mk.injEq] at hrun
        exact ⟨by rw [← hrun.2, hnew], hrun.1.symm⟩
      · intro hc
        cases hc

/-! ## The assembly loop: the default range -/

/-- C9. Default range. For an input document given without page ranges, the list
of ranges that `main` processes is the single range from page 1 to the page
count `N`; the page loop for that range, after the adjustment of `main`,
appends exactly the `N` pages of the document, in order; and for a document of
at least one page with pairwise distinct page identifiers the whole pass over
the input document succeeds and leaves the output with its earlier pages
followed by the `N` pages of the document, each once and in order. -/
theorem default_range_copies_all_pages (pathSep : Char) (document : Document)
    (argument : sArgument) (sourceDocument : Document)
    (hranges : argument.pageRanges = [])
    (hN : sourceDocument.pages.length < 2147483648) :
    defaultPageRanges argument.pageRanges sourceDocument.getNumPages
        = [{ firstPage := 1, lastPage := sourceDocument.pages.length }] ∧
      copyPages sourceDocument
          ((adjustPageRange sourceDocument.getNumPages
              { firstPage := 1, lastPage := sourceDocument.pages.length }).lastPage
            - u32sub (adjustPageRange sourceDocument.getNumPages
              { firstPage := 1, lastPage := sourceDocument.pages.length }).firstPage 1)
          (u32sub (adjustPageRange sourceDocument.getNumPages
              { firstPage := 1, lastPage := sourceDocument.pages.length }).firstPage 1)
          document
        = some { document with pages := document.pages ++ sourceDocument.pages } ∧
      (1 ≤ sourceDocument.pages.length →
        (sourceDocument.pages.map Page.pageId).Nodup →
        (∀ root, sourceDocument.outline = some root →
          (OutlineTreeNode.forestNodes root.children).length < 4294967296) →
        document.outline.isSome →
        document.pages.length + sourceDocument.pages.length < 4294967296 →
        ∃ out, copyInputDocument pathSep document argument sourceDocument = some out ∧
          out.pages = document.pages ++ sourceDocument.pages) := by
  have hnum : sourceDocument.getNumPages = sourceDocument.pages.length :=
    Document.getNumPages_eq _ (by omega)
  have hdef : defaultPageRanges argument.pageRanges sourceDocument.getNumPages
      = [{ firstPage := 1, lastPage := sourceDocument.pages.length }] := by
    rw [hranges, hnum]
    rfl
  refine ⟨hdef, ?_, ?_⟩
  · rw [hnum]
    by_cases h0 : sourceDocument.pages.length = 0
    · have hnil : sourceDocument.pages = [] := List.length_eq_zero.mp h0
      have hadj : adjustPageRange sourceDocument.pages.length
          { firstPage := 1, lastPage := sourceDocument.pages.length }
          = { firstPage := 0, lastPage := 0 } := by
        rw [h0]
        rfl
      rw [hadj]
      have hsub : (0 : Nat) - u32sub 0 1 = 0 := Nat.zero_sub _
      simp only [hsub, copyPages, hnil, List.append_nil]
    · have hadj : adjustPageRange sourceDocument.pages.length
          { firstPage := 1, lastPage := sourceDocument.pages.length }
          = { firstPage := 1, lastPage := sourceDocument.pages.length } :=
        adjustPageRange_resolved _ _ (le_refl _) (by simp only; omega) (le_refl _)
      rw [hadj]
      have hu : u32sub 1 1 = 0 := by
        unfold u32sub
        omega
      simp only [hu, Nat.sub_zero]
      rw [copyPages_eq sourceDocument _ 0 document (by omega)]
      simp
  · intro h1 hnd hsize hroot hout
    obtain ⟨root, hroot2⟩ := Option.isSome_iff_exists.mp hroot
    have hdnum : document.getNumPages = document.pages.length :=
      Document.getNumPages_eq _ (by omega)
    obtain ⟨stEnd, hrun, hpages, -⟩ := processPageRanges_run sourceDocument hnd hN hsize
      [{ firstPage := 1, lastPage := sourceDocument.pages.length }]
      { document := document,
        newNode := makeOutlineNode document.getNumPages
          (filenameWithoutPrecedingPath pathSep argument.fullPath),
        targetDocumentPageIndex := document.getNumPages }
      (by
        intro r hr
        simp only [List.mem_singleton] at hr
        subst hr
        exact ⟨le_refl _, h1, le_refl _⟩)
      hdnum
      (by
        simp only [List.map_cons, List.map_nil, List.sum_cons, List.sum_nil]
        omega)
    refine ⟨{ stEnd.document with outline := some (root.appendChild stEnd.newNode) }, ?_, ?_⟩
    · unfold copyInputDocument
      simp only [hdef, hroot2, hrun]
    · simp only [hpages, List.flatMap_cons, List.flatMap_nil, List.append_nil,
        List.drop_zero, Nat.sub_self]
      rw [List.take_of_length_le (by omega)]


/-- The hypotheses of C2 hold for the example outline, with the third page as the
only page of the range: "intro" targets the first page and is pruned, and with
it "detail", although "detail" targets the third page. -/
theorem pruning_gated_by_ancestors_witness :
    bookmarkHasPageId exampleIntro [13] = false ∧
    bookmarkHasPageId exampleDetail [13] = true ∧
    (OutlineTreeNode.forestEntries exampleOutline.children).Nodup ∧
    ∀ n ∈ BookmarkTreeNode.forestNodes
        (buildBookmarkTree (BookmarkTreeNode.mk exampleSource none []) [13]
          exampleOutline).m_children,
      n.m_outline ≠ some exampleDetail :=
  have hnd : (OutlineTreeNode.forestEntries exampleOutline.children).Nodup := by decide
  ⟨by decide, by decide, hnd,
    pruning_gated_by_ancestors exampleSource [13] exampleOutline exampleIntroNode
      (by simp [exampleOutline, exampleIntroNode, OutlineTreeNode.children,
        OutlineTreeNode.forestNodes, OutlineTreeNode.nodes])
      (by
        intro e he
        cases he
        decide)
      hnd
      (OutlineTreeNode.mk (some exampleDetail) [])
      (by simp [exampleIntroNode, OutlineTreeNode.forestNodes, OutlineTreeNode.nodes])
      exampleDetail rfl⟩


/-- The hypotheses of C4 hold for the overlapping ranges "2-3" and "1-2" of the
example document, copied into the empty output: the second page is copied
twice and nothing is merged. -/
theorem offset_correctness_witness :
    (exampleSource.pages.map Page.pageId).Nodup ∧
    (∀ r ∈ exampleRanges, 1 ≤ r.firstPage ∧ r.firstPage ≤ r.lastPage ∧
      r.lastPage ≤ exampleSource.pages.length) ∧
    exampleState.targetDocumentPageIndex = exampleState.document.pages.length ∧
    ∃ stEnd,
      processPageRanges exampleSource exampleSource.getNumPages exampleRanges exampleState
        = some stEnd ∧
      stEnd.document.pages = exampleState.document.pages ++ exampleRanges.flatMap (fun r =>
        (exampleSource.pages.drop (r.firstPage - 1)).take (r.lastPage - r.firstPage + 1)) ∧
      stEnd.targetDocumentPageIndex = stEnd.document.pages.length ∧
      ∀ pre r post, exampleRanges = pre ++ r :: post →
        ∃ st0 st1,
          processPageRanges exampleSource exampleSource.getNumPages pre exampleState
            = some st0 ∧
          processPageRange exampleSource exampleSource.getNumPages st0 r = some st1 ∧
          processPageRanges exampleSource exampleSource.getNumPages post st1 = some stEnd ∧
          st1.targetDocumentPageIndex
            = st0.targetDocumentPageIndex + (r.lastPage - r.firstPage + 1) ∧
          st0.targetDocumentPageIndex = st0.document.pages.length ∧
          st1.targetDocumentPageIndex = st1.document.pages.length ∧
          ∀ k, 1 ≤ k → k ≤ r.lastPage - r.firstPage + 1 →
            stEnd.document.pages[st0.targetDocumentPageIndex + (k - 1)]?
              = exampleSource.pages[r.firstPage - 1 + (k - 1)]? ∧
            (exampleSource.pages[r.firstPage - 1 + (k - 1)]?).isSome :=
  have hr : ∀ r ∈ exampleRanges, 1 ≤ r.firstPage ∧ r.firstPage ≤ r.lastPage ∧
      r.lastPage ≤ exampleSource.pages.length := by decide
  ⟨by decide, hr, rfl,
    offset_correctness exampleSource exampleRanges exampleState (by decide) (by decide)
      (by
        intro root h
        cases h
        decide)
      hr rfl (by decide)⟩

/-- The hypotheses of C3 hold for the bookmark "annex" of the example document,
kept for its third page and appended, with the delta -2, to an output that
holds that page at index 0. -/
theorem bookmark_remap_round_trip_witness :
    exampleKept.appendToDocument exampleTarget (-2) (some (makeOutlineNode 0 "a.pdf"))
      = some (exampleTarget, some (OutlineTreeNode.mk (makeOutlineNode 0 "a.pdf").data
          [OutlineTreeNode.mk (some exampleAnnex) []])) ∧
    ∃ map added,
      buildPageIdToPageIndexMap exampleKept.m_sourceDocument = some map ∧
      (∀ t, some (makeOutlineNode 0 "a.pdf") = some t →
        some (OutlineTreeNode.mk (makeOutlineNode 0 "a.pdf").data
          [OutlineTreeNode.mk (some exampleAnnex) []])
          = some (OutlineTreeNode.mk t.data (t.children ++ added)) ∧
        exampleTarget = exampleTarget) ∧
      (some (makeOutlineNode 0 "a.pdf") = none →
        some (OutlineTreeNode.mk (makeOutlineNode 0 "a.pdf").data
          [OutlineTreeNode.mk (some exampleAnnex) []]) = none ∧
        exampleTarget = { exampleTarget with
          outline := some (OutlineTreeNode.mk
            (exampleTarget.outline.getD (OutlineTreeNode.mk none [])).data
            ((exampleTarget.outline.getD (OutlineTreeNode.mk none [])).children ++ added)) }) ∧
      ∀ node ∈ OutlineTreeNode.forestNodes added,
        ∃ n ∈ BookmarkTreeNode.forestNodes exampleKept.m_children,
          ∃ (outline : OutlineEntry) (target : PageRectTarget) (i : Nat) (page sourcePage : Page),
            n.m_outline = some outline ∧ getOutlineRectTarget outline = some target ∧
            map.find target.pageId = some (i : Int) ∧
            exampleKept.m_sourceDocument.pages[i]? = some sourcePage ∧
            sourcePage.pageId = target.pageId ∧
            0 ≤ (i : Int) + (-2) ∧
            exampleTarget.pages[((i : Int) + (-2)).toNat]? = some page ∧
            node.data = some { outline with
              target := some (Target.pageRect { target with pageId := page.pageId }) } :=
  have hrun : exampleKept.appendToDocument exampleTarget (-2) (some (makeOutlineNode 0 "a.pdf"))
      = some (exampleTarget, some (OutlineTreeNode.mk (makeOutlineNode 0 "a.pdf").data
          [OutlineTreeNode.mk (some exampleAnnex) []])) := by rfl
  ⟨hrun,
    bookmark_remap_round_trip exampleKept exampleTarget (-2) (some (makeOutlineNode 0 "a.pdf"))
      exampleTarget _ (by decide) (by decide) (by decide) (by decide) hrun⟩

/-- The hypotheses of C9 hold for the example document given as "dir/a.pdf" without
page ranges: its three pages are appended to the empty output. -/
theorem default_range_copies_all_pages_witness :
    exampleArgument.pageRanges = [] ∧
    1 ≤ exampleSource.pages.length ∧
    (exampleSource.pages.map Page.pageId).Nodup ∧
    exampleOutput.outline.isSome ∧
    defaultPageRanges exampleArgument.pageRanges exampleSource.getNumPages
        = [{ firstPage := 1, lastPage := exampleSource.pages.length }] ∧
    copyPages exampleSource
        ((adjustPageRange exampleSource.getNumPages
            { firstPage := 1, lastPage := exampleSource.pages.length }).lastPage
          - u32sub (adjustPageRange exampleSource.getNumPages
            { firstPage := 1, lastPage := exampleSource.pages.length }).firstPage 1)
        (u32sub (adjustPageRange exampleSource.getNumPages
            { firstPage := 1, lastPage := exampleSource.pages.length }).firstPage 1)
        exampleOutput
      = some { exampleOutput with pages := exampleOutput.pages ++ exampleSource.pages } ∧
    ∃ out, copyInputDocument '/' exampleOutput exampleArgument exampleSource = some out ∧
      out.pages = exampleOutput.pages ++ exampleSource.pages :=
  have h := default_range_copies_all_pages '/' exampleOutput exampleArgument exampleSource rfl
    (by decide)
  have hnd : (exampleSource.pages.map Page.pageId).Nodup := by decide
  ⟨rfl, by decide, hnd, rfl, h.1, h.2.1,
    h.2.2 (by decide) hnd
      (by
        intro root h
        cases h
        decide)
      rfl (by decide)⟩

/-! ## Named destinations: renaming -/

/-- C12. Collision renaming. When `append` receives a destination whose name is
already among the known names, exactly one destination and one name are
added: the destination carries the original target and the name made of the
original name, a full stop and the two characters drawn with `rand()`, three
characters longer than the original; that name is the one recorded. -/
theorem collision_renaming (self : NamedDestinations) (g : RandState)
    (namedDestination : NamedDestination)
    (hknown : namedDestination.name ∈ self.m_names) :
    ∃ c1 c2 : Char,
      c1 = suffixCharAt (g.draws g.pos % 63) ∧
      c2 = suffixCharAt (g.draws (g.pos + 1) % 63) ∧
      (self.append g namedDestination).1.m_destinations
        = self.m_destinations ++ [{ name := namedDestination.name ++ String.mk [Char.ofNat 46, c1, c2],
                                    target := namedDestination.target }] ∧
      (self.append g namedDestination).1.m_names
        = self.m_names ++ [namedDestination.name ++ String.mk [Char.ofNat 46, c1, c2]] ∧
      (namedDestination.name ++ String.mk [Char.ofNat 46, c1, c2]).length
        = namedDestination.name.length + 3 ∧
      (self.append g namedDestination).2.pos = g.pos + 2 := by
  refine ⟨_, _, rfl, rfl, ?_, ?_, ?_, ?_⟩
  · simp [NamedDestinations.append, rand, hknown]
  · simp [NamedDestinations.append, rand, hknown]
  · rw [String.length_append]
    rfl
  · simp [NamedDestinations.append, rand, hknown]

/-- The hypothesis of C12 holds for a second destination named "Intro". -/
theorem collision_renaming_witness :
    "Intro" ∈ ({ m_destinations := [⟨"Intro", some { pageId := 1 }⟩], m_names := ["Intro"] }
      : NamedDestinations).m_names ∧
    ∃ c1 c2 : Char,
      c1 = suffixCharAt ((fun n => 5 * n + 62) 0 % 63) ∧
      c2 = suffixCharAt ((fun n => 5 * n + 62) (0 + 1) % 63) ∧
      (({ m_destinations := [⟨"Intro", some { pageId := 1 }⟩], m_names := ["Intro"] }
          : NamedDestinations).append ⟨fun n => 5 * n + 62, 0⟩
          ⟨"Intro", some { pageId := 4 }⟩).1.m_destinations
        = [⟨"Intro", some { pageId := 1 }⟩]
          ++ [{ name := "Intro" ++ String.mk [Char.ofNat 46, c1, c2],
                target := some { pageId := 4 } }] ∧
      (({ m_destinations := [⟨"Intro", some { pageId := 1 }⟩], m_names := ["Intro"] }
          : NamedDestinations).append ⟨fun n => 5 * n + 62, 0⟩
          ⟨"Intro", some { pageId := 4 }⟩).1.m_names
        = ["Intro"] ++ ["Intro" ++ String.mk [Char.ofNat 46, c1, c2]] ∧
      ("Intro" ++ String.mk [Char.ofNat 46, c1, c2]).length = "Intro".length + 3 ∧
      (({ m_destinations := [⟨"Intro", some { pageId := 1 }⟩], m_names := ["Intro"] }
          : NamedDestinations).append ⟨fun n => 5 * n + 62, 0⟩
          ⟨"Intro", some { pageId := 4 }⟩).2.pos = 0 + 2 :=
  ⟨by decide,
    collision_renaming
      { m_destinations := [⟨"Intro", some { pageId := 1 }⟩], m_names := ["Intro"] }
      ⟨fun n => 5 * n + 62, 0⟩ ⟨"Intro", some { pageId := 4 }⟩ (by decide)⟩

/-- Appending destinations whose names are new and pairwise distinct adds them
as they are, records their names and draws nothing. -/
theorem NamedDestinations.appendList_fresh :
    ∀ (l : List NamedDestination) (self : NamedDestinations) (g : RandState),
      (self.m_names ++ l.map NamedDestination.name).Nodup →
      self.appendList g l
        = ({ m_destinations := self.m_destinations ++ l,
             m_names := self.m_names ++ l.map NamedDestination.name }, g)
  | [], self, g, _ => by simp [NamedDestinations.appendList]
  | d :: l, self, g, h => by
    have hd : d.name ∉ self.m_names := by
      intro hmem
      rw [List.nodup_append] at h
      exact h.2.2 hmem (by simp)
    have hstep : self.append g d
        = ({ m_destinations := self.m_destinations ++ [d],
             m_names := self.m_names ++ [d.name] }, g) := by
      simp [NamedDestinations.append, hd]
    rw [NamedDestinations.appendList, hstep]
    simp only []
    rw [NamedDestinations.appendList_fresh l _ g (by simpa using h)]
    simp

/-- C13. No renaming without collision. The destinations of a document whose
names are pairwise distinct, appended with `appendAll` to a new registry: the
list returned by `getList` is the list of those destinations, unmodified and
in order, every name is recorded, and `rand()` has not been called. -/
theorem no_renaming_without_collision (document : Document) (g : RandState)
    (hnd : (document.namedDestinations.map NamedDestination.name).Nodup) :
    (({} : NamedDestinations).appendAll g document).1.getList = document.namedDestinations ∧
    (({} : NamedDestinations).appendAll g document).1.m_names
      = document.namedDestinations.map NamedDestination.name ∧
    (({} : NamedDestinations).appendAll g document).2 = g := by
  rw [NamedDestinations.appendAll,
    NamedDestinations.appendList_fresh document.namedDestinations {} g (by simpa using hnd)]
  simp [NamedDestinations.getList]

/-- The hypothesis of C13 holds for a document with the destinations "Intro" and
"End". -/
theorem no_renaming_without_collision_witness :
    (({ namedDestinations := [⟨"Intro", some { pageId := 1 }⟩, ⟨"End", none⟩] }
      : Document).namedDestinations.map NamedDestination.name).Nodup ∧
    (({} : NamedDestinations).appendAll ⟨fun n => n, 0⟩
        { namedDestinations := [⟨"Intro", some { pageId := 1 }⟩, ⟨"End", none⟩] }).1.getList
      = [⟨"Intro", some { pageId := 1 }⟩, ⟨"End", none⟩] :=
  ⟨by decide,
    (no_renaming_without_collision
      { namedDestinations := [⟨"Intro", some { pageId := 1 }⟩, ⟨"End", none⟩] }
      ⟨fun n => n, 0⟩ (by decide)).1⟩

/-! ## The bookmark tree: the count of nodes -/

/-- C20. The source's `getChildCount`, for a node with fewer than `2^32` nodes
below it (the counts are `uint32` values): without recursion it is the number
of the node's children, with recursion the number of all nodes strictly below
the node; and the second is zero exactly when the first is. -/
theorem getChildCount_counts (node : BookmarkTreeNode)
    (hsize : (BookmarkTreeNode.forestNodes node.m_children).length < 4294967296) :
    node.getChildCount false = node.m_children.length ∧
    node.getChildCount true = (BookmarkTreeNode.forestNodes node.m_children).length ∧
    (node.getChildCount true = 0 ↔ node.getChildCount false = 0) := by
  have hlen : node.m_children.length ≤ (BookmarkTreeNode.forestNodes node.m_children).length := by
    generalize node.m_children = cs
    induction cs with
    | nil => simp
    | cons c rest ih =>
      simp only [BookmarkTreeNode.forestNodes, List.length_append, List.length_cons,
        BookmarkTreeNode.nodes_length]
      omega
  have hfalse : node.getChildCount false = node.m_children.length := by
    simp only [BookmarkTreeNode.getChildCount, Bool.not_false, if_true]
    exact Nat.mod_eq_of_lt (by omega)
  have htrue : node.getChildCount true
      = (BookmarkTreeNode.forestNodes node.m_children).length := by
    simp only [BookmarkTreeNode.getChildCount, Bool.not_true, Bool.false_eq_true, if_false]
    rw [BookmarkTreeNode.countRecursive_eq, Nat.mod_eq_of_lt hsize]
  refine ⟨hfalse, htrue, ?_⟩
  rw [BookmarkTreeNode.getChildCount_true_eq_zero node hsize, hfalse]
  exact List.length_eq_zero.symm

/-- The hypothesis of C20 holds for the tree kept for the third page of the example
document: one child, one node below the root. -/
theorem getChildCount_counts_witness :
    (BookmarkTreeNode.forestNodes exampleKept.m_children).length < 4294967296 ∧
    exampleKept.getChildCount false = exampleKept.m_children.length ∧
    exampleKept.getChildCount true
      = (BookmarkTreeNode.forestNodes exampleKept.m_children).length ∧
    (exampleKept.getChildCount true = 0 ↔ exampleKept.getChildCount false = 0) :=
  ⟨by decide, getChildCount_counts exampleKept (by decide)⟩

/-! ## Named destinations: `appendRange` -/

/-- The first loop of `appendRange` collects the identifiers of the pages
`pageIndex .. pageIndex + count - 1`, in order. -/
theorem NamedDestinations.rangePageIds_eq (document : Document) :
    ∀ (count pageIndex : Nat) (pageIds : List DOMid),
      pageIndex + count ≤ document.pages.length →
      NamedDestinations.rangePageIds document count pageIndex pageIds
        = some (pageIds ++ ((document.pages.drop pageIndex).take count).map Page.pageId)
  | 0, pageIndex, pageIds, _ => by simp [NamedDestinations.rangePageIds]
  | count + 1, pageIndex, pageIds, h => by
    have hlt : pageIndex < document.pages.length := by omega
    rw [NamedDestinations.rangePageIds]
    simp only [Document.getPage, List.getElem?_eq_getElem hlt]
    rw [NamedDestinations.rangePageIds_eq document count (pageIndex + 1) _ (by omega)]
    rw [List.drop_eq_getElem_cons hlt, List.take_succ_cons]
    simp

/-- The second loop of `appendRange` appends, in order, the destinations that have
a target on one of the pages whose identifiers it was given. -/
theorem NamedDestinations.appendRangeLoop_eq (pageIds : List DOMid) :
    ∀ (l : List NamedDestination) (self : NamedDestinations) (g : RandState),
      NamedDestinations.appendRangeLoop pageIds self g l
        = self.appendList g (l.filter (fun namedDestination =>
            match namedDestination.target with
            | some target => pageIds.contains target.pageId
            | none => false))
  | [], self, g => by simp [NamedDestinations.appendRangeLoop, NamedDestinations.appendList]
  | d :: l, self, g => by
    rw [NamedDestinations.appendRangeLoop]
    cases ht : d.target with
    | none =>
      simp only [List.filter_cons, ht]
      exact NamedDestinations.appendRangeLoop_eq pageIds l self g
    | some target =>
      by_cases hc : pageIds.contains target.pageId = true
      · simp only [List.filter_cons, ht, hc, if_true, NamedDestinations.appendList]
        exact NamedDestinations.appendRangeLoop_eq pageIds l _ _
      · simp only [List.filter_cons, ht, hc, if_false, Bool.false_eq_true]
        exact NamedDestinations.appendRangeLoop_eq pageIds l self g

/-- C15. The source's `appendRange` filters by page. For a range
`1 <= firstPage <= lastPage <= N` of a document of `N` pages, the call
succeeds, and it passes to `append`, in document order, exactly the
destinations of the document that have a target whose page identifier is the
identifier of one of the pages `firstPage .. lastPage`; destinations without
a target, or with a target on another page, are passed over. -/
theorem appendRange_filters_by_page (self : NamedDestinations) (g : RandState)
    (document : Document) (firstPage lastPage : Nat)
    (h1 : 1 ≤ firstPage) (h2 : firstPage ≤ lastPage)
    (h3 : lastPage ≤ document.pages.length)
    (hN : document.pages.length < 4294967296) :
    self.appendRange g document firstPage lastPage
      = some (NamedDestinations.appendList { self with m_destinations := [] } g
          (document.namedDestinations.filter (fun namedDestination =>
            match namedDestination.target with
            | some target =>
              (((document.pages.drop (firstPage - 1)).take (lastPage - firstPage + 1)).map
                Page.pageId).contains target.pageId
            | none => false))) := by
  have hsub : u32sub firstPage 1 = firstPage - 1 := u32sub_one firstPage h1 (by omega)
  have hcount : lastPage - (firstPage - 1) = lastPage - firstPage + 1 := by omega
  unfold NamedDestinations.appendRange
  rw [hsub, hcount, NamedDestinations.rangePageIds_eq document _ _ [] (by omega)]
  simp only [List.nil_append]
  rw [NamedDestinations.appendRangeLoop_eq]

/-- The hypotheses of C15 hold for the range "2-3" of a document of three pages
with one destination on each of the first two pages and one without a target:
the destination on the second page alone is appended. -/
theorem appendRange_filters_by_page_witness :
    (({} : NamedDestinations).appendRange ⟨fun n => n, 0⟩
        { pages := [{ pageId := 11 }, { pageId := 12 }, { pageId := 13 }],
          namedDestinations := [⟨"Intro", some { pageId := 11 }⟩, ⟨"Body", some { pageId := 12 }⟩,
            ⟨"Nowhere", none⟩] } 2 3).map (fun r => r.1.getList)
      = some [⟨"Body", some { pageId := 12 }⟩] :=
  (congrArg (Option.map (fun r => r.1.getList))
    (appendRange_filters_by_page {} ⟨fun n => n, 0⟩
      { pages := [{ pageId := 11 }, { pageId := 12 }, { pageId := 13 }],
        namedDestinations := [⟨"Intro", some { pageId := 11 }⟩, ⟨"Body", some { pageId := 12 }⟩,
          ⟨"Nowhere", none⟩] } 2 3 (by decide) (by decide) (by decide) (by decide))).trans
    (by rfl)

/-! ## Layers: the order of the merged configuration -/

/-- The calls of `AppendDocumentLayers` all return true, and each document with
optional content adds one entry after the entries already there; the order of
the configuration stays equal to the vector of entries. -/
theorem Layers.appendDocuments_spec :
    ∀ (calls : List (Document × String)) (self : Layers),
      self.m_newOptionalContent.defaultConfiguration.order = self.m_newOrderEntryVect →
      (self.appendDocuments calls).1 = calls.map (fun _ => true) ∧
      (self.appendDocuments calls).2.m_newOrderEntryVect
        = self.m_newOrderEntryVect ++ calls.filterMap (fun call =>
            call.1.optionalContent.map (fun optionalContent =>
              COrderEntry.mk false none call.2 optionalContent.defaultConfiguration.order)) ∧
      (self.appendDocuments calls).2.m_newOptionalContent.defaultConfiguration.order
        = (self.appendDocuments calls).2.m_newOrderEntryVect
  | [], self, h => by simp [Layers.appendDocuments, h]
  | (d, name) :: calls, self, h => by
    cases hoc : d.optionalContent with
    | none =>
      have hstep : self.AppendDocumentLayers d name = (true, self) := by
        simp [Layers.AppendDocumentLayers, hoc]
      obtain ⟨r1, r2, r3⟩ := Layers.appendDocuments_spec calls self h
      simp only [Layers.appendDocuments, hstep, List.map_cons, List.filterMap_cons, hoc,
        Option.map_none']
      exact ⟨by rw [r1], r2, r3⟩
    | some oc =>
      obtain ⟨r1, r2, r3⟩ := Layers.appendDocuments_spec calls
        (self.AppendDocumentLayers d name).2 (by simp [Layers.AppendDocumentLayers, hoc])
      have hfst : (self.AppendDocumentLayers d name).1 = true := by
        simp [Layers.AppendDocumentLayers, hoc]
      have hvect : (self.AppendDocumentLayers d name).2.m_newOrderEntryVect
          = self.m_newOrderEntryVect
            ++ [COrderEntry.mk false none name oc.defaultConfiguration.order] := by
        simp [Layers.AppendDocumentLayers, hoc, COrderEntry.create, COrderEntry.groupRef]
      simp only [Layers.appendDocuments, List.map_cons, List.filterMap_cons, hoc,
        Option.map_some']
      refine ⟨by rw [r1, hfst], ?_, r3⟩
      rw [r2, hvect, List.append_assoc]
      rfl

/-- C17. Layer order preservation. For every sequence of calls of
`AppendDocumentLayers` on a newly constructed `Layers` object, every call
returns true, and the order of the merged default configuration holds, in
call order, one entry for each document that has optional content: not a
group, named as the call names it, with the order of the document's default
configuration as its children.  A call for a document without optional
content returns true and leaves the object as it was. -/
theorem layer_order_preservation (calls : List (Document × String)) :
    (Layers.create.appendDocuments calls).1 = calls.map (fun _ => true) ∧
    (Layers.create.appendDocuments calls).2.getLayers.defaultConfiguration.order
      = calls.filterMap (fun call =>
          call.1.optionalContent.map (fun optionalContent =>
            COrderEntry.mk false none call.2 optionalContent.defaultConfiguration.order)) ∧
    ∀ (self : Layers) (sourceDocument : Document) (name : String),
      sourceDocument.optionalContent = none →
      self.AppendDocumentLayers sourceDocument name = (true, self) := by
  obtain ⟨r1, r2, r3⟩ := Layers.appendDocuments_spec calls Layers.create rfl
  refine ⟨r1, ?_, ?_⟩
  · rw [Layers.getLayers, r3, r2]
    rfl
  · intro self sourceDocument name hnone
    simp [Layers.AppendDocumentLayers, hnone]

/-! ## Named destinations: where the registry departs from its description -/

/-- C11, at a failing input. Two documents are appended with `appendAll`: the first
holds the destinations "Intro.AA" and "Intro", the second the destination
"Intro"; `rand()` returns 0 twice, so the second "Intro" is renamed
"Intro.AA", a name that the list already holds. -/
theorem renamed_name_collides :
    ((NamedDestinations.appendAllDocuments {} exampleRand
        [exampleFirstNames, exampleSecondNames]).1.getList.map NamedDestination.name)
      = ["Intro.AA", "Intro", "Intro.AA"] ∧
    ¬ ((NamedDestinations.appendAllDocuments {} exampleRand
        [exampleFirstNames, exampleSecondNames]).1.getList.map NamedDestination.name).Nodup := by
  have h : ((NamedDestinations.appendAllDocuments {} exampleRand
        [exampleFirstNames, exampleSecondNames]).1.getList.map NamedDestination.name)
      = ["Intro.AA", "Intro", "Intro.AA"] := by decide
  refine ⟨h, ?_⟩
  rw [h]
  decide

/-- C14, at a failing input. After `appendAll` of the example document the registry
knows the name "Intro"; `appendRange` for the first page of the same document
then empties the list but keeps the names, and stores the destination of
that page under the name "Intro.AA".  On a new registry the same call stores
it as "Intro". -/
theorem appendRange_keeps_known_names :
    (((({} : NamedDestinations).appendAll exampleRand exampleSource).1.appendRange exampleRand
        exampleSource 1 1).map (fun r => r.1.getList.map NamedDestination.name))
      = some ["Intro.AA"] ∧
    ((({} : NamedDestinations).appendRange exampleRand exampleSource 1 1).map
        (fun r => r.1.getList.map NamedDestination.name))
      = some ["Intro"] := by
  constructor <;> decide

/-- C16, at a failing input. The example document is merged with the range "1-2",
which leaves its third page out: the output holds the first two pages, and
its named destinations still hold "End", whose target is the third page. -/
theorem excluded_page_destination_kept :
    ∃ out, combine '/' eFileFormat.eFFPDF [exampleInput] exampleRand = some out ∧
      out.pages.map Page.pageId = [11, 12] ∧
      out.namedDestinations
        = [{ name := "Intro", target := some { pageId := 11 } },
           { name := "End", target := some { pageId := 13 } }] :=
  ⟨_, rfl, rfl, rfl⟩

/-! ## The whole of the assembly -/

/-- The loop of `main` for a PDF output, part by part: the output document is
assembled from the input files alone; the registry has received `appendAll`
for each source document, in order; the layers have received
`AppendDocumentLayers` for each PDF input, in order. -/
theorem processInputs_pdf (pathSep : Char) :
    ∀ (inputs : List InputFile) (st : MainState),
      processInputs pathSep eFileFormat.eFFPDF inputs st
        = (copyInputDocuments pathSep inputs st.document).map (fun document =>
            { document := document,
              namedDestinations := (st.namedDestinations.appendAllDocuments st.g
                (inputs.map InputFile.sourceDocument)).1,
              layers := (st.layers.appendDocuments
                ((inputs.filter (fun input => input.argument.fileFormat = eFileFormat.eFFPDF)).map
                  (fun input => (input.sourceDocument, input.argument.basename)))).2,
              g := (st.namedDestinations.appendAllDocuments st.g
                (inputs.map InputFile.sourceDocument)).2 })
  | [], st => by
    simp [processInputs, copyInputDocuments, NamedDestinations.appendAllDocuments,
      Layers.appendDocuments]
  | input :: rest, st => by
    rw [processInputs, copyInputDocuments, processInput]
    cases hcopy : copyInputDocument pathSep st.document input.argument input.sourceDocument with
    | none => simp
    | some document1 =>
      simp only [if_true, true_and]
      rw [processInputs_pdf pathSep rest]
      by_cases hpdf : input.argument.fileFormat = eFileFormat.eFFPDF
      · simp [hpdf, NamedDestinations.appendAllDocuments, Layers.appendDocuments]
      · simp [hpdf, NamedDestinations.appendAllDocuments]

/-- The whole of `main` for a PDF output and between 1 and 2048 input files: the
output document assembled from the input files, with the list of the
registry as its named destinations and the merged layers as its optional
content. -/
theorem combine_pdf (pathSep : Char) (inputs : List InputFile) (g : RandState)
    (hne : inputs ≠ []) (hlen : inputs.length ≤ 2048) :
    combine pathSep eFileFormat.eFFPDF inputs g
      = (copyInputDocuments pathSep inputs
          { pages := [], outline := some (OutlineTreeNode.mk none []) }).map (fun document =>
            { document with
              namedDestinations := ((({} : NamedDestinations).appendAllDocuments g
                (inputs.map InputFile.sourceDocument)).1).getList,
              optionalContent := some ((Layers.create.appendDocuments
                ((inputs.filter (fun input =>
                    input.argument.fileFormat = eFileFormat.eFFPDF)).map
                  (fun input => (input.sourceDocument, input.argument.basename)))).2).getLayers }) := by
  have hempty : inputs.isEmpty = false := by
    cases inputs with
    | nil => exact absurd rfl hne
    | cons a l => rfl
  rw [combine, List.take_of_length_le hlen, processInputs_pdf, hempty]
  have hdoc : (initialState g).document
      = { pages := [], outline := some (OutlineTreeNode.mk none []) } := rfl
  have hnd : (initialState g).namedDestinations = {} := rfl
  have hg : (initialState g).g = g := rfl
  have hl : (initialState g).layers = Layers.create := rfl
  rw [hdoc, hnd, hg, hl]
  cases copyInputDocuments pathSep inputs
      { pages := [], outline := some (OutlineTreeNode.mk none []) } with
  | none => simp
  | some document => simp

/-- C19. The scenario of two sources, for any draws of `rand()`: source A (three
pages, a bookmark on page 2, the destination "Intro" on page 1) and source B
(two pages, a bookmark on page 1, the destination "Intro" on page 1) are merged
with the ranges 1-3 and 1-2 into a PDF output.  The output has the five pages,
those of A before those of B; the root of its outline has two children, the
node of "A.pdf" on page 1 and the node of "B.pdf" on page 4, each with one
child and no more: under A a bookmark whose target is the output page at
index 1, under B a bookmark whose target is the output page at index 3; and
its named destinations are "Intro", as in A, and the destination of B under
a name that starts with "Intro" and is three characters longer. -/
theorem end_to_end_scenario (g : RandState) :
    ∃ out, combine '/' eFileFormat.eFFPDF [scenarioA, scenarioB] g = some out ∧
      out.pages.length = 5 ∧
      out.pages = scenarioA.sourceDocument.pages ++ scenarioB.sourceDocument.pages ∧
      (∃ (entryA entryB bookmarkA bookmarkB : OutlineEntry) (targetA targetB : PageRectTarget),
        out.outline = some (OutlineTreeNode.mk none
          [OutlineTreeNode.mk (some entryA) [OutlineTreeNode.mk (some bookmarkA) []],
           OutlineTreeNode.mk (some entryB) [OutlineTreeNode.mk (some bookmarkB) []]]) ∧
        entryA.title = "A.pdf" ∧ entryA.target = some (Target.page 1) ∧
        entryB.title = "B.pdf" ∧ entryB.target = some (Target.page 4) ∧
        bookmarkA.title = scenarioBookmarkA.title ∧
        getOutlineRectTarget bookmarkA = some targetA ∧
        (out.pages[1]?).map Page.pageId = some targetA.pageId ∧
        bookmarkB.title = scenarioBookmarkB.title ∧
        getOutlineRectTarget bookmarkB = some targetB ∧
        (out.pages[3]?).map Page.pageId = some targetB.pageId) ∧
      ∃ renamed : String,
        out.namedDestinations
          = [{ name := "Intro", target := some { pageId := 101 } },
             { name := renamed, target := some { pageId := 201 } }] ∧
        renamed = "Intro" ++ String.mk [Char.ofNat 46, suffixCharAt (g.draws g.pos % 63),
          suffixCharAt (g.draws (g.pos + 1) % 63)] ∧
        "Intro".data <+: renamed.data ∧ renamed.length = "Intro".length + 3 := by
  obtain ⟨document, hcopy, hpages, houtline⟩ :
      ∃ document, copyInputDocuments '/' [scenarioA, scenarioB]
          { pages := [], outline := some (OutlineTreeNode.mk none []) } = some document ∧
        document.pages = scenarioA.sourceDocument.pages ++ scenarioB.sourceDocument.pages ∧
        document.outline = some (OutlineTreeNode.mk none
          [OutlineTreeNode.mk (makeOutlineNode 0 "A.pdf").data
            [OutlineTreeNode.mk (some scenarioBookmarkA) []],
           OutlineTreeNode.mk (makeOutlineNode 3 "B.pdf").data
            [OutlineTreeNode.mk (some scenarioBookmarkB) []]]) :=
    ⟨_, rfl, rfl, rfl⟩
  have hnames : ((({} : NamedDestinations).appendAllDocuments g
      ([scenarioA, scenarioB].map InputFile.sourceDocument)).1).getList
      = [{ name := "Intro", target := some { pageId := 101 } },
         { name := "Intro" ++ String.mk [Char.ofNat 46, suffixCharAt (g.draws g.pos % 63),
             suffixCharAt (g.draws (g.pos + 1) % 63)],
           target := some { pageId := 201 } }] := by
    simp [NamedDestinations.appendAllDocuments, NamedDestinations.appendAll,
      NamedDestinations.appendList, NamedDestinations.append, NamedDestinations.getList,
      scenarioA, scenarioB, rand]
  have hcomb : ∃ out, combine '/' eFileFormat.eFFPDF [scenarioA, scenarioB] g = some out ∧
      out.pages = document.pages ∧ out.outline = document.outline ∧
      out.namedDestinations = ((({} : NamedDestinations).appendAllDocuments g
        ([scenarioA, scenarioB].map InputFile.sourceDocument)).1).getList := by
    rw [combine_pdf '/' [scenarioA, scenarioB] g (by simp) (by decide), hcopy]
    exact ⟨_, rfl, rfl, rfl, rfl⟩
  obtain ⟨out, hout, hp, ho, hn⟩ := hcomb
  rw [hpages] at hp
  rw [houtline] at ho
  rw [hnames] at hn
  refine ⟨out, hout, ?_, hp, ?_, ?_⟩
  · rw [hp]
    rfl
  · refine ⟨_, _, _, _, _, _, ho, rfl, rfl, rfl, rfl, rfl, rfl, ?_, rfl, rfl, ?_⟩
    · rw [hp]
      rfl
    · rw [hp]
      rfl
  · refine ⟨_, hn, rfl, ⟨_, rfl⟩, ?_⟩
    rw [String.length_append]
    rfl

/-! ## The assembly loop: one input document -/

/-- Adjusting a range twice to the same page count is adjusting it once. -/
theorem adjustPageRange_idem (pageCount : Nat) (r : sPageRange) :
    adjustPageRange pageCount (adjustPageRange pageCount r) = adjustPageRange pageCount r := by
  unfold adjustPageRange
  simp only
  congr 1
  · split_ifs <;> rfl
  · split_ifs <;> rfl

/-- A range stored by `processRange`, adjusted to a page count of at least 1, is a
resolved range. -/
theorem adjustPageRange_stored (pageCount : Nat) (r : sPageRange) (hN : 1 ≤ pageCount)
    (h1 : 1 ≤ r.firstPage) (h2 : r.lastPage = 0 ∨ r.firstPage ≤ r.lastPage) :
    1 ≤ (adjustPageRange pageCount r).firstPage ∧
    (adjustPageRange pageCount r).firstPage ≤ (adjustPageRange pageCount r).lastPage ∧
    (adjustPageRange pageCount r).lastPage ≤ pageCount := by
  unfold adjustPageRange
  simp only
  split_ifs <;> omega

/-- The iteration for a range starts by adjusting it. -/
theorem processPageRange_adjust (sourceDocument : Document) (pageCount : Nat)
    (st : CombinerState) (r : sPageRange) :
    processPageRange sourceDocument pageCount st (adjustPageRange pageCount r)
      = processPageRange sourceDocument pageCount st r := by
  simp only [processPageRange, adjustPageRange_idem]

/-- The loop over the ranges may be run on the adjusted ranges. -/
theorem processPageRanges_adjust (sourceDocument : Document) (pageCount : Nat) :
    ∀ (ranges : List sPageRange) (st : CombinerState),
      processPageRanges sourceDocument pageCount (ranges.map (adjustPageRange pageCount)) st
        = processPageRanges sourceDocument pageCount ranges st
  | [], st => rfl
  | r :: rest, st => by
    simp only [List.map_cons, processPageRanges, processPageRange_adjust]
    cases processPageRange sourceDocument pageCount st r with
    | none => rfl
    | some st1 => exact processPageRanges_adjust sourceDocument pageCount rest st1

/-- The ranges that `main` processes for a well-formed input are resolved. -/
theorem InputFile.resolvedRanges_resolved (input : InputFile)
    (h1 : 1 ≤ input.sourceDocument.pages.length)
    (hN : input.sourceDocument.pages.length < 2147483648)
    (hr : ∀ r ∈ input.argument.pageRanges,
      1 ≤ r.firstPage ∧ (r.lastPage = 0 ∨ r.firstPage ≤ r.lastPage)) :
    ∀ r ∈ input.resolvedRanges, 1 ≤ r.firstPage ∧ r.firstPage ≤ r.lastPage ∧
      r.lastPage ≤ input.sourceDocument.pages.length := by
  have hnum : input.sourceDocument.getNumPages = input.sourceDocument.pages.length :=
    Document.getNumPages_eq _ (by omega)
  intro r hmem
  rw [InputFile.resolvedRanges, hnum] at hmem
  obtain ⟨q, hq, rfl⟩ := List.mem_map.mp hmem
  have hq2 : 1 ≤ q.firstPage ∧ (q.lastPage = 0 ∨ q.firstPage ≤ q.lastPage) := by
    unfold defaultPageRanges at hq
    split_ifs at hq with hlen
    · have hnil : input.argument.pageRanges = [] := List.length_eq_zero.mp hlen
      rw [hnil] at hq
      simp only [List.nil_append, List.mem_singleton] at hq
      subst hq
      exact ⟨le_refl _, Or.inr h1⟩
    · exact hr q hq
  exact adjustPageRange_stored _ q h1 hq2.1 hq2.2

/-- The pass of `main` over one well-formed input document, when the output has an
outline: the loop over the ranges runs to its end from the new bookmark of the
document, which keeps its entry; the pass succeeds, the output gains the
selected pages, and the root of its outline gains that bookmark as its last
child. -/
theorem copyInputDocument_spec (pathSep : Char) (document : Document) (input : InputFile)
    (root : OutlineTreeNode) (hroot : document.outline = some root)
    (h1 : 1 ≤ input.sourceDocument.pages.length)
    (hN : input.sourceDocument.pages.length < 2147483648)
    (hnd : (input.sourceDocument.pages.map Page.pageId).Nodup)
    (hsize : ∀ r, input.sourceDocument.outline = some r →
      (OutlineTreeNode.forestNodes r.children).length < 4294967296)
    (hr : ∀ r ∈ input.argument.pageRanges,
      1 ≤ r.firstPage ∧ (r.lastPage = 0 ∨ r.firstPage ≤ r.lastPage))
    (hout : document.pages.length + input.pageTotal < 4294967296) :
    ∃ stR, processPageRanges input.sourceDocument input.sourceDocument.getNumPages
        (defaultPageRanges input.argument.pageRanges input.sourceDocument.getNumPages)
        { document := document,
          newNode := makeOutlineNode document.pages.length
            (filenameWithoutPrecedingPath pathSep input.argument.fullPath),
          targetDocumentPageIndex := document.pages.length } = some stR ∧
      stR.newNode.data = (makeOutlineNode document.pages.length
        (filenameWithoutPrecedingPath pathSep input.argument.fullPath)).data ∧
      stR.document.pages.length = document.pages.length + input.pageTotal ∧
      copyInputDocument pathSep document input.argument input.sourceDocument
        = some { stR.document with outline := some (root.appendChild stR.newNode) } := by
  have hdnum : document.getNumPages = document.pages.length :=
    Document.getNumPages_eq _ (by omega)
  have hres := InputFile.resolvedRanges_resolved input h1 hN hr
  obtain ⟨added, hrun⟩ := processPageRanges_spec input.sourceDocument hnd hN hsize
    input.resolvedRanges
    { document := document,
      newNode := makeOutlineNode document.pages.length
        (filenameWithoutPrecedingPath pathSep input.argument.fullPath),
      targetDocumentPageIndex := document.pages.length }
    hres rfl hout
  have hadj : ∀ st, processPageRanges input.sourceDocument input.sourceDocument.getNumPages
      input.resolvedRanges st
      = processPageRanges input.sourceDocument input.sourceDocument.getNumPages
        (defaultPageRanges input.argument.pageRanges input.sourceDocument.getNumPages) st :=
    fun st => processPageRanges_adjust _ _ _ st
  have hflat := flatMap_ranges_length input.sourceDocument input.resolvedRanges hres
  rw [hadj] at hrun
  refine ⟨_, hrun, rfl, ?_, ?_⟩
  · show (document.pages ++ input.resolvedRanges.flatMap (fun r =>
        (input.sourceDocument.pages.drop (r.firstPage - 1)).take
          (r.lastPage - r.firstPage + 1))).length = _
    rw [List.length_append, hflat]
    rfl
  · unfold copyInputDocument
    simp only [hroot, hdnum, hrun]

/-! ## The assembly loop: the input documents in turn -/

/-- One iteration of the loop of `main`, part by part. -/
theorem processInput_eq (pathSep : Char) (outputFileFormat : eFileFormat) (st : MainState)
    (input : InputFile) :
    processInput pathSep outputFileFormat st input
      = (copyInputDocument pathSep st.document input.argument input.sourceDocument).map
          (fun document =>
            { document := document,
              namedDestinations :=
                (if outputFileFormat = eFileFormat.eFFPDF then
                  st.namedDestinations.appendAll st.g input.sourceDocument
                else (st.namedDestinations, st.g)).1,
              layers :=
                if input.argument.fileFormat = eFileFormat.eFFPDF
                    ∧ outputFileFormat = eFileFormat.eFFPDF then
                  (st.layers.AppendDocumentLayers input.sourceDocument input.argument.basename).2
                else st.layers,
              g :=
                (if outputFileFormat = eFileFormat.eFFPDF then
                  st.namedDestinations.appendAll st.g input.sourceDocument
                else (st.namedDestinations, st.g)).2 }) := by
  unfold processInput
  cases copyInputDocument pathSep st.document input.argument input.sourceDocument with
  | none => rfl
  | some document => rfl

/-- The output document of the loop of `main` is assembled from the input files
alone, whatever the output format. -/
theorem processInputs_document (pathSep : Char) (outputFileFormat : eFileFormat) :
    ∀ (inputs : List InputFile) (st : MainState),
      (processInputs pathSep outputFileFormat inputs st).map MainState.document
        = copyInputDocuments pathSep inputs st.document
  | [], st => rfl
  | input :: rest, st => by
    rw [processInputs, copyInputDocuments, processInput_eq]
    cases copyInputDocument pathSep st.document input.argument input.sourceDocument with
    | none => rfl
    | some document =>
      simp only [Option.map_some']
      exact processInputs_document pathSep outputFileFormat rest _

/-- The passes of `main` over a list of well-formed input documents, from an
output whose outline root has the children `cs`: they succeed; the root gains
one child for each input document, in order; and the child of an input
document is the bookmark that the loop over its ranges returns, started from
the new bookmark made for the number of output pages before the document. -/
theorem copyInputDocuments_spec (pathSep : Char) :
    ∀ (inputs : List InputFile) (document : Document) (cs : List OutlineTreeNode),
      document.outline = some (OutlineTreeNode.mk none cs) →
      (∀ input ∈ inputs,
        1 ≤ input.sourceDocument.pages.length ∧
        input.sourceDocument.pages.length < 2147483648 ∧
        (input.sourceDocument.pages.map Page.pageId).Nodup ∧
        (∀ r, input.sourceDocument.outline = some r →
          (OutlineTreeNode.forestNodes r.children).length < 4294967296) ∧
        ∀ r ∈ input.argument.pageRanges,
          1 ≤ r.firstPage ∧ (r.lastPage = 0 ∨ r.firstPage ≤ r.lastPage)) →
      document.pages.length + (inputs.map InputFile.pageTotal).sum < 4294967296 →
      ∃ out newChildren,
        copyInputDocuments pathSep inputs document = some out ∧
        out.outline = some (OutlineTreeNode.mk none (cs ++ newChildren)) ∧
        newChildren.length = inputs.length ∧
        out.pages.length = document.pages.length + (inputs.map InputFile.pageTotal).sum ∧
        ∀ pre input post, inputs = pre ++ input :: post →
          ∃ before stR,
            copyInputDocuments pathSep pre document = some before ∧
            before.pages.length = document.pages.length + (pre.map InputFile.pageTotal).sum ∧
            processPageRanges input.sourceDocument input.sourceDocument.getNumPages
              (defaultPageRanges input.argument.pageRanges input.sourceDocument.getNumPages)
              { document := before,
                newNode := makeOutlineNode before.pages.length
                  (filenameWithoutPrecedingPath pathSep input.argument.fullPath),
                targetDocumentPageIndex := before.pages.length } = some stR ∧
            newChildren[pre.length]? = some stR.newNode ∧
            stR.newNode.data = (makeOutlineNode before.pages.length
              (filenameWithoutPrecedingPath pathSep input.argument.fullPath)).data
  | [], document, cs, hroot, _, _ => by
    refine ⟨document, [], rfl, by simpa using hroot, rfl, by simp, ?_⟩
    intro pre input post hsplit
    simp at hsplit
  | first :: rest, document, cs, hroot, hwf, hout => by
    simp only [List.map_cons, List.sum_cons] at hout
    obtain ⟨w1, w2, w3, w4, w5⟩ := hwf first (by simp)
    obtain ⟨stR, hrun, hdata, hlen, hstep⟩ := copyInputDocument_spec pathSep document first
      (OutlineTreeNode.mk none cs) hroot w1 w2 w3 w4 w5 (by omega)
    obtain ⟨out, newChildren, hcopy, hout2, hlen2, hpages2, hsplit2⟩ :=
      copyInputDocuments_spec pathSep rest
        { stR.document with
          outline := some ((OutlineTreeNode.mk none cs).appendChild stR.newNode) }
        (cs ++ [stR.newNode]) rfl (fun input hin => hwf input (by simp [hin]))
        (by
          show stR.document.pages.length + _ < _
          omega)
    refine ⟨out, stR.newNode :: newChildren, ?_, ?_, ?_, ?_, ?_⟩
    · rw [copyInputDocuments, hstep]
      exact hcopy
    · rw [hout2, List.append_assoc]
      rfl
    · simp [hlen2]
    · rw [hpages2]
      show stR.document.pages.length + _ = _
      simp only [List.map_cons, List.sum_cons]
      omega
    · intro pre input post hsplit
      cases pre with
      | nil =>
        simp only [List.nil_append, List.cons.injEq] at hsplit
        obtain ⟨rfl, -⟩ := hsplit
        exact ⟨document, stR, rfl, by simp, hrun, by simp, hdata⟩
      | cons p pre2 =>
        simp only [List.cons_append, List.cons.injEq] at hsplit
        obtain ⟨rfl, hrest⟩ := hsplit
        obtain ⟨before, stR2, hb, hbl, hrun2, hidx, hdata2⟩ := hsplit2 pre2 input post hrest
        refine ⟨before, stR2, ?_, ?_, hrun2, ?_, hdata2⟩
        · rw [copyInputDocuments, hstep]
          exact hb
        · rw [hbl]
          show stR.document.pages.length + _ = _
          simp only [List.map_cons, List.sum_cons]
          omega
        · simpa using hidx

/-- The ranges of a well-formed input select at least one page. -/
theorem InputFile.pageTotal_pos (input : InputFile)
    (h1 : 1 ≤ input.sourceDocument.pages.length)
    (hN : input.sourceDocument.pages.length < 2147483648)
    (hr : ∀ r ∈ input.argument.pageRanges,
      1 ≤ r.firstPage ∧ (r.lastPage = 0 ∨ r.firstPage ≤ r.lastPage)) :
    1 ≤ input.pageTotal := by
  have hres := InputFile.resolvedRanges_resolved input h1 hN hr
  have hne : input.resolvedRanges ≠ [] := by
    unfold InputFile.resolvedRanges defaultPageRanges
    split_ifs with hlen
    · simp
    · intro hc
      rw [List.map_eq_nil_iff] at hc
      exact hlen (by rw [hc]; rfl)
  unfold InputFile.pageTotal
  cases hrr : input.resolvedRanges with
  | nil => exact absurd hrr hne
  | cons r rest =>
    simp only [List.map_cons, List.sum_cons]
    omega

/-- The whole of `main` on well-formed input files, of which it takes the first
2048: it succeeds; the root of the output outline has one child for each of
them, in order; the child of an input file is the bookmark that the loop over
its ranges returns, started from a new entry labelled with the file name
without its path, on the page after the output pages copied before. -/
theorem combine_outline (pathSep : Char) (outputFileFormat : eFileFormat)
    (inputs : List InputFile) (g : RandState) (hne : inputs ≠ [])
    (hwf : ∀ input ∈ inputs.take 2048,
      1 ≤ input.sourceDocument.pages.length ∧
      input.sourceDocument.pages.length < 2147483648 ∧
      (input.sourceDocument.pages.map Page.pageId).Nodup ∧
      (∀ r, input.sourceDocument.outline = some r →
        (OutlineTreeNode.forestNodes r.children).length < 4294967296) ∧
      ∀ r ∈ input.argument.pageRanges,
        1 ≤ r.firstPage ∧ (r.lastPage = 0 ∨ r.firstPage ≤ r.lastPage))
    (hout : ((inputs.take 2048).map InputFile.pageTotal).sum < 4294967296) :
    ∃ out children,
      combine pathSep outputFileFormat inputs g = some out ∧
      out.outline = some (OutlineTreeNode.mk none children) ∧
      children.length = (inputs.take 2048).length ∧
      ∀ pre input post, inputs.take 2048 = pre ++ input :: post →
        ∃ st0 stR,
          processInputs pathSep outputFileFormat pre (initialState g) = some st0 ∧
          st0.document.pages.length = (pre.map InputFile.pageTotal).sum ∧
          processPageRanges input.sourceDocument input.sourceDocument.getNumPages
            (defaultPageRanges input.argument.pageRanges input.sourceDocument.getNumPages)
            { document := st0.document,
              newNode := makeOutlineNode st0.document.pages.length
                (filenameWithoutPrecedingPath pathSep input.argument.fullPath),
              targetDocumentPageIndex := st0.document.pages.length } = some stR ∧
          children[pre.length]? = some stR.newNode ∧
          stR.newNode.data = some
            { title := filenameWithoutPrecedingPath pathSep input.argument.fullPath,
              isOpen := true,
              target := some (Target.page (st0.document.pages.length + 1)),
              color := some blueColor, textStyle := eTextStyleBold } := by
  have hdoc : (initialState g).document
      = { pages := [], outline := some (OutlineTreeNode.mk none []) } := rfl
  obtain ⟨out0, children, hcopy, houtline, hlen, -, hsplit⟩ :=
    copyInputDocuments_spec pathSep (inputs.take 2048) (initialState g).document [] rfl hwf
      (by
        rw [hdoc]
        simpa using hout)
  have hrun := processInputs_document pathSep outputFileFormat (inputs.take 2048)
    (initialState g)
  rw [hcopy] at hrun
  obtain ⟨st, hst, hstdoc⟩ := Option.map_eq_some'.mp hrun
  have hempty : inputs.isEmpty = false := by
    cases inputs with
    | nil => exact absurd rfl hne
    | cons a l => rfl
  simp only [List.nil_append] at houtline
  have hcomb : ∃ out, combine pathSep outputFileFormat inputs g = some out ∧
      out.outline = st.document.outline := by
    rw [combine, hempty, hst]
    simp only [Bool.false_eq_true, if_false]
    by_cases hpdf : outputFileFormat = eFileFormat.eFFPDF
    · simp only [hpdf, if_true]
      exact ⟨_, rfl, rfl⟩
    · simp only [hpdf, if_false]
      exact ⟨_, rfl, rfl⟩
  obtain ⟨out, hcombine, hout3⟩ := hcomb
  refine ⟨out, children, hcombine, by rw [hout3, hstdoc, houtline], hlen, ?_⟩
  · intro pre input post hpre
    obtain ⟨before, stR, hb, hbl, hrunR, hidx, hdata⟩ := hsplit pre input post hpre
    have hrun0 := processInputs_document pathSep outputFileFormat pre (initialState g)
    rw [hb] at hrun0
    obtain ⟨st0, hst0, hst0doc⟩ := Option.map_eq_some'.mp hrun0
    rw [hdoc] at hbl
    simp only [List.length_nil, Nat.zero_add] at hbl
    obtain ⟨w1, w2, -, -, w5⟩ := hwf input (by rw [hpre]; simp)
    have hpos := InputFile.pageTotal_pos input w1 w2 w5
    have hsum : (pre.map InputFile.pageTotal).sum + input.pageTotal
        ≤ ((inputs.take 2048).map InputFile.pageTotal).sum := by
      rw [hpre]
      simp only [List.map_append, List.map_cons, List.sum_append, List.sum_cons]
      omega
    refine ⟨st0, stR, hst0, by rw [hst0doc, hbl], by rw [hst0doc]; exact hrunR, hidx, ?_⟩
    rw [hdata, hst0doc, makeOutlineNode, OutlineTreeNode.data,
      Nat.mod_eq_of_lt (by omega)]

/-- A range adjusted to a page count of 0 is the range 0-0. -/
theorem adjustPageRange_zero (r : sPageRange) :
    adjustPageRange 0 r = { firstPage := 0, lastPage := 0 } := by
  unfold adjustPageRange
  simp only
  congr 1
  · split_ifs <;> omega
  · split_ifs <;> omega

/-- The iteration for a range of a source without pages and without outline: no
page is copied and no bookmark emitted; only the running offset moves. -/
theorem processPageRange_nopages (sourceDocument : Document)
    (hp : sourceDocument.pages = []) (ho : sourceDocument.outline = none)
    (st : CombinerState) (r : sPageRange) :
    processPageRange sourceDocument sourceDocument.getNumPages st r
      = some { document := st.document, newNode := st.newNode,
               targetDocumentPageIndex := (st.targetDocumentPageIndex + 1) % 4294967296 } := by
  have hnum : sourceDocument.getNumPages = 0 := by
    rw [Document.getNumPages, hp]
    rfl
  have hsub : u32sub 0 1 = 4294967295 := by norm_num [u32sub]
  have hsub2 : u32sub 4294967295 4294967295 = 0 := by norm_num [u32sub]
  rw [hnum]
  unfold processPageRange
  simp only [adjustPageRange_zero, hsub, hsub2, Nat.zero_sub, copyPages,
    BookmarkTreeNode.createFromDocument, ho]
  rfl

/-- The loop over the ranges of a source without pages and without outline leaves
the output document and the bookmark of the input document as they are. -/
theorem processPageRanges_nopages (sourceDocument : Document)
    (hp : sourceDocument.pages = []) (ho : sourceDocument.outline = none) :
    ∀ (ranges : List sPageRange) (st : CombinerState),
      ∃ t, processPageRanges sourceDocument sourceDocument.getNumPages ranges st
        = some { document := st.document, newNode := st.newNode,
                 targetDocumentPageIndex := t }
  | [], st => ⟨st.targetDocumentPageIndex, rfl⟩
  | r :: rest, st => by
    rw [processPageRanges, processPageRange_nopages sourceDocument hp ho st r]
    exact processPageRanges_nopages sourceDocument hp ho rest _

/-- The ranges of an input file select no more pages than they span. -/
theorem InputFile.selectedPages_length_le (input : InputFile) :
    input.selectedPages.length ≤ input.pageTotal := by
  unfold InputFile.selectedPages InputFile.pageTotal
  induction input.resolvedRanges with
  | nil => simp
  | cons r rest ih =>
    simp only [List.flatMap_cons, List.length_append, List.map_cons, List.sum_cons,
      List.length_take]
    omega

/-- The ranges of a source with at least one page select as many pages as they
span. -/
theorem InputFile.selectedPages_length (input : InputFile)
    (h1 : 1 ≤ input.sourceDocument.pages.length)
    (hN : input.sourceDocument.pages.length < 2147483648)
    (hr : ∀ r ∈ input.argument.pageRanges,
      1 ≤ r.firstPage ∧ (r.lastPage = 0 ∨ r.firstPage ≤ r.lastPage)) :
    input.selectedPages.length = input.pageTotal :=
  flatMap_ranges_length input.sourceDocument input.resolvedRanges
    (InputFile.resolvedRanges_resolved input h1 hN hr)

/-- A source without pages has no selected pages. -/
theorem InputFile.selectedPages_nopages (input : InputFile)
    (hp : input.sourceDocument.pages = []) : input.selectedPages = [] := by
  unfold InputFile.selectedPages
  rw [hp]
  induction input.resolvedRanges with
  | nil => rfl
  | cons r rest ih => simp [List.flatMap_cons, ih]

/-- The ranges that `main` processes for an input file span at least one page:
there is at least one range, the default one when the argument has none. -/
theorem InputFile.one_le_pageTotal (input : InputFile) : 1 ≤ input.pageTotal := by
  have hne : input.resolvedRanges ≠ [] := by
    unfold InputFile.resolvedRanges defaultPageRanges
    split_ifs with hlen
    · simp
    · intro hc
      rw [List.map_eq_nil_iff] at hc
      exact hlen (by rw [hc]; rfl)
  unfold InputFile.pageTotal
  cases hrr : input.resolvedRanges with
  | nil => exact absurd hrr hne
  | cons r rest =>
    simp only [List.map_cons, List.sum_cons]
    omega

/-- The pages selected from a list of input files are no more than their ranges
span. -/
theorem selectedPages_sum_le :
    ∀ (inputs : List InputFile),
      (inputs.flatMap InputFile.selectedPages).length ≤ (inputs.map InputFile.pageTotal).sum
  | [] => by simp
  | input :: rest => by
    have h1 := InputFile.selectedPages_length_le input
    have h2 := selectedPages_sum_le rest
    simp only [List.flatMap_cons, List.length_append, List.map_cons, List.sum_cons]
    omega

/-- The pass of `main` over one input document whose source has at least one page
or no outline, when the output has an outline: the loop over the ranges runs
to its end from the new bookmark of the document, which keeps its entry; the
pass succeeds, the output gains as many pages as the ranges select, and the
root of its outline gains that bookmark as its last child. -/
theorem copyInputDocument_general (pathSep : Char) (document : Document) (input : InputFile)
    (root : OutlineTreeNode) (hroot : document.outline = some root)
    (h1 : 1 ≤ input.sourceDocument.pages.length ∨ input.sourceDocument.outline = none)
    (hN : input.sourceDocument.pages.length < 2147483648)
    (hnd : (input.sourceDocument.pages.map Page.pageId).Nodup)
    (hsize : ∀ r, input.sourceDocument.outline = some r →
      (OutlineTreeNode.forestNodes r.children).length < 4294967296)
    (hr : ∀ r ∈ input.argument.pageRanges,
      1 ≤ r.firstPage ∧ (r.lastPage = 0 ∨ r.firstPage ≤ r.lastPage))
    (hout : document.pages.length + input.pageTotal < 4294967296) :
    ∃ stR, processPageRanges input.sourceDocument input.sourceDocument.getNumPages
        (defaultPageRanges input.argument.pageRanges input.sourceDocument.getNumPages)
        { document := document,
          newNode := makeOutlineNode document.pages.length
            (filenameWithoutPrecedingPath pathSep input.argument.fullPath),
          targetDocumentPageIndex := document.pages.length } = some stR ∧
      stR.newNode.data = (makeOutlineNode document.pages.length
        (filenameWithoutPrecedingPath pathSep input.argument.fullPath)).data ∧
      stR.document.pages.length = document.pages.length + input.selectedPages.length ∧
      copyInputDocument pathSep document input.argument input.sourceDocument
        = some { stR.document with outline := some (root.appendChild stR.newNode) } := by
  by_cases hpos : 1 ≤ input.sourceDocument.pages.length
  · obtain ⟨stR, hrun, hdata, hlen, hstep⟩ := copyInputDocument_spec pathSep document input
      root hroot hpos hN hnd hsize hr hout
    exact ⟨stR, hrun, hdata,
      by rw [hlen, InputFile.selectedPages_length input hpos hN hr], hstep⟩
  · have hp : input.sourceDocument.pages = [] := List.length_eq_zero.mp (by omega)
    have ho : input.sourceDocument.outline = none := by
      rcases h1 with h | h
      · exact absurd h hpos
      · exact h
    have hdnum : document.getNumPages = document.pages.length :=
      Document.getNumPages_eq _ (by omega)
    obtain ⟨t, hrun⟩ := processPageRanges_nopages input.sourceDocument hp ho
      (defaultPageRanges input.argument.pageRanges input.sourceDocument.getNumPages)
      { document := document,
        newNode := makeOutlineNode document.pages.length
          (filenameWithoutPrecedingPath pathSep input.argument.fullPath),
        targetDocumentPageIndex := document.pages.length }
    refine ⟨_, hrun, rfl, ?_, ?_⟩
    · rw [InputFile.selectedPages_nopages input hp]
      rfl
    · unfold copyInputDocument
      simp only [hroot, hdnum, hrun]

/-- The passes of `main` over a list of input documents whose sources have at
least one page or no outline, from an output whose outline root has the
children `cs`: they succeed; the root gains one child for each input document,
in order; and the child of an input document is the bookmark that the loop
over its ranges returns, started from the new bookmark made for the number of
output pages before the document. -/
theorem copyInputDocuments_general (pathSep : Char) :
    ∀ (inputs : List InputFile) (document : Document) (cs : List OutlineTreeNode),
      document.outline = some (OutlineTreeNode.mk none cs) →
      (∀ input ∈ inputs,
        (1 ≤ input.sourceDocument.pages.length ∨ input.sourceDocument.outline = none) ∧
        input.sourceDocument.pages.length < 2147483648 ∧
        (input.sourceDocument.pages.map Page.pageId).Nodup ∧
        (∀ r, input.sourceDocument.outline = some r →
          (OutlineTreeNode.forestNodes r.children).length < 4294967296) ∧
        ∀ r ∈ input.argument.pageRanges,
          1 ≤ r.firstPage ∧ (r.lastPage = 0 ∨ r.firstPage ≤ r.lastPage)) →
      document.pages.length + (inputs.map InputFile.pageTotal).sum < 4294967296 →
      ∃ out newChildren,
        copyInputDocuments pathSep inputs document = some out ∧
        out.outline = some (OutlineTreeNode.mk none (cs ++ newChildren)) ∧
        newChildren.length = inputs.length ∧
        ∀ pre input post, inputs = pre ++ input :: post →
          ∃ before stR,
            copyInputDocuments pathSep pre document = some before ∧
            before.pages.length
              = document.pages.length + (pre.flatMap InputFile.selectedPages).length ∧
            processPageRanges input.sourceDocument input.sourceDocument.getNumPages
              (defaultPageRanges input.argument.pageRanges input.sourceDocument.getNumPages)
              { document := before,
                newNode := makeOutlineNode before.pages.length
                  (filenameWithoutPrecedingPath pathSep input.argument.fullPath),
                targetDocumentPageIndex := before.pages.length } = some stR ∧
            newChildren[pre.length]? = some stR.newNode ∧
            stR.newNode.data = (makeOutlineNode before.pages.length
              (filenameWithoutPrecedingPath pathSep input.argument.fullPath)).data
  | [], document, cs, hroot, _, _ => by
    refine ⟨document, [], rfl, by simpa using hroot, rfl, ?_⟩
    intro pre input post hsplit
    simp at hsplit
  | first :: rest, document, cs, hroot, hwf, hout => by
    simp only [List.map_cons, List.sum_cons] at hout
    obtain ⟨w1, w2, w3, w4, w5⟩ := hwf first (by simp)
    obtain ⟨stR, hrun, hdata, hlen, hstep⟩ := copyInputDocument_general pathSep document first
      (OutlineTreeNode.mk none cs) hroot w1 w2 w3 w4 w5 (by omega)
    have hle := InputFile.selectedPages_length_le first
    obtain ⟨out, newChildren, hcopy, hout2, hlen2, hsplit2⟩ :=
      copyInputDocuments_general pathSep rest
        { stR.document with
          outline := some ((OutlineTreeNode.mk none cs).appendChild stR.newNode) }
        (cs ++ [stR.newNode]) rfl (fun input hin => hwf input (by simp [hin]))
        (by
          show stR.document.pages.length + _ < _
          omega)
    refine ⟨out, stR.newNode :: newChildren, ?_, ?_, ?_, ?_⟩
    · rw [copyInputDocuments, hstep]
      exact hcopy
    · rw [hout2, List.append_assoc]
      rfl
    · simp [hlen2]
    · intro pre input post hsplit
      cases pre with
      | nil =>
        simp only [List.nil_append, List.cons.injEq] at hsplit
        obtain ⟨rfl, -⟩ := hsplit
        exact ⟨document, stR, rfl, by simp, hrun, by simp, hdata⟩
      | cons p pre2 =>
        simp only [List.cons_append, List.cons.injEq] at hsplit
        obtain ⟨rfl, hrest⟩ := hsplit
        obtain ⟨before, stR2, hb, hbl, hrun2, hidx, hdata2⟩ := hsplit2 pre2 input post hrest
        refine ⟨before, stR2, ?_, ?_, hrun2, ?_, hdata2⟩
        · rw [copyInputDocuments, hstep]
          exact hb
        · rw [hbl]
          show stR.document.pages.length + _ = _
          simp only [List.flatMap_cons, List.length_append]
          omega
        · simpa using hidx

/-- The whole of `main` on at most 2048 input files whose sources have at least
one page or no outline: it succeeds; the root of the output outline has one
child for each of them, in order; the child of an input file is the bookmark
that the loop over its ranges returns, started from a new entry labelled with
the file name without its path, on the page after the output pages copied
before. -/
theorem combine_outline_general (pathSep : Char) (outputFileFormat : eFileFormat)
    (inputs : List InputFile) (g : RandState) (hne : inputs ≠ [])
    (hlen : inputs.length ≤ 2048)
    (hwf : ∀ input ∈ inputs,
      (1 ≤ input.sourceDocument.pages.length ∨ input.sourceDocument.outline = none) ∧
      input.sourceDocument.pages.length < 2147483648 ∧
      (input.sourceDocument.pages.map Page.pageId).Nodup ∧
      (∀ r, input.sourceDocument.outline = some r →
        (OutlineTreeNode.forestNodes r.children).length < 4294967296) ∧
      ∀ r ∈ input.argument.pageRanges,
        1 ≤ r.firstPage ∧ (r.lastPage = 0 ∨ r.firstPage ≤ r.lastPage))
    (hout : (inputs.map InputFile.pageTotal).sum < 4294967296) :
    ∃ out children,
      combine pathSep outputFileFormat inputs g = some out ∧
      out.outline = some (OutlineTreeNode.mk none children) ∧
      children.length = inputs.length ∧
      ∀ pre input post, inputs = pre ++ input :: post →
        ∃ st0 stR,
          processInputs pathSep outputFileFormat pre (initialState g) = some st0 ∧
          st0.document.pages.length = (pre.flatMap InputFile.selectedPages).length ∧
          processPageRanges input.sourceDocument input.sourceDocument.getNumPages
            (defaultPageRanges input.argument.pageRanges input.sourceDocument.getNumPages)
            { document := st0.document,
              newNode := makeOutlineNode st0.document.pages.length
                (filenameWithoutPrecedingPath pathSep input.argument.fullPath),
              targetDocumentPageIndex := st0.document.pages.length } = some stR ∧
          children[pre.length]? = some stR.newNode ∧
          stR.newNode.data = some
            { title := filenameWithoutPrecedingPath pathSep input.argument.fullPath,
              isOpen := true,
              target := some (Target.page (st0.document.pages.length + 1)),
              color := some blueColor, textStyle := eTextStyleBold } := by
  have htake : inputs.take 2048 = inputs := List.take_of_length_le hlen
  have hdoc : (initialState g).document
      = { pages := [], outline := some (OutlineTreeNode.mk none []) } := rfl
  obtain ⟨out0, children, hcopy, houtline, hlen2, hsplit⟩ :=
    copyInputDocuments_general pathSep inputs (initialState g).document [] rfl hwf
      (by
        rw [hdoc]
        simpa using hout)
  have hrun := processInputs_document pathSep outputFileFormat inputs (initialState g)
  rw [hcopy] at hrun
  obtain ⟨st, hst, hstdoc⟩ := Option.map_eq_some'.mp hrun
  have hempty : inputs.isEmpty = false := by
    cases inputs with
    | nil => exact absurd rfl hne
    | cons a l => rfl
  simp only [List.nil_append] at houtline
  have hcomb : ∃ out, combine pathSep outputFileFormat inputs g = some out ∧
      out.outline = st.document.outline := by
    rw [combine, hempty, htake, hst]
    simp only [Bool.false_eq_true, if_false]
    by_cases hpdf : outputFileFormat = eFileFormat.eFFPDF
    · simp only [hpdf, if_true]
      exact ⟨_, rfl, rfl⟩
    · simp only [hpdf, if_false]
      exact ⟨_, rfl, rfl⟩
  obtain ⟨out, hcombine, hout3⟩ := hcomb
  refine ⟨out, children, hcombine, by rw [hout3, hstdoc, houtline], hlen2, ?_⟩
  intro pre input post hpre
  obtain ⟨before, stR, hb, hbl, hrunR, hidx, hdata⟩ := hsplit pre input post hpre
  have hrun0 := processInputs_document pathSep outputFileFormat pre (initialState g)
  rw [hb] at hrun0
  obtain ⟨st0, hst0, hst0doc⟩ := Option.map_eq_some'.mp hrun0
  rw [hdoc] at hbl
  simp only [List.length_nil, Nat.zero_add] at hbl
  have hpos := InputFile.one_le_pageTotal input
  have hsel := selectedPages_sum_le pre
  have hsum : (pre.map InputFile.pageTotal).sum + input.pageTotal
      ≤ (inputs.map InputFile.pageTotal).sum := by
    rw [hpre]
    simp only [List.map_append, List.map_cons, List.sum_append, List.sum_cons]
    omega
  refine ⟨st0, stR, hst0, by rw [hst0doc, hbl], by rw [hst0doc]; exact hrunR, hidx, ?_⟩
  rw [hdata, hst0doc, makeOutlineNode, OutlineTreeNode.data,
    Nat.mod_eq_of_lt (by omega)]

/-- C18, as the claim states it, fails for more than 2048 input files: of 2049
input files of one page each, `main` processes the first 2048, and the root of
the output outline has 2048 children, not one for each input file.  It also
fails for an input file without pages whose document has an outline: the
range of such a file is adjusted to 0-0, `createFromDocument` asks for the
page -1, and `main` throws, so that there is no output outline; and `main`
throws on an empty list of input files. -/
theorem attachment_root_counterexample :
    (∃ out children,
      combine '/' eFileFormat.eFFPDF (List.replicate 2049 exampleSingle) exampleRand = some out ∧
      out.outline = some (OutlineTreeNode.mk none children) ∧
      children.length = 2048 ∧
      children.length ≠ (List.replicate 2049 exampleSingle).length) ∧
    exampleNoPages.sourceDocument.pages.length = 0 ∧
    combine '/' eFileFormat.eFFPDF [exampleNoPages] exampleRand = none ∧
    combine '/' eFileFormat.eFFPDF [] exampleRand = none := by
  refine ⟨?_, rfl, rfl, rfl⟩
  have hwf : ∀ input ∈ (List.replicate 2049 exampleSingle).take 2048,
      1 ≤ input.sourceDocument.pages.length ∧
      input.sourceDocument.pages.length < 2147483648 ∧
      (input.sourceDocument.pages.map Page.pageId).Nodup ∧
      (∀ r, input.sourceDocument.outline = some r →
        (OutlineTreeNode.forestNodes r.children).length < 4294967296) ∧
      ∀ r ∈ input.argument.pageRanges,
        1 ≤ r.firstPage ∧ (r.lastPage = 0 ∨ r.firstPage ≤ r.lastPage) := by
    intro input hin
    have hx : input = exampleSingle := List.eq_of_mem_replicate (List.mem_of_mem_take hin)
    subst hx
    refine ⟨by decide, by decide, by decide, ?_, by decide⟩
    intro r h
    cases h
  have htotal : exampleSingle.pageTotal = 1 := by decide
  have hout : (((List.replicate 2049 exampleSingle).take 2048).map InputFile.pageTotal).sum
      < 4294967296 := by
    rw [List.take_replicate, List.map_replicate, List.sum_replicate, htotal]
    simp
  obtain ⟨out, children, hcombine, houtline, hlen, -⟩ := combine_outline '/'
    eFileFormat.eFFPDF (List.replicate 2049 exampleSingle) exampleRand
    (by
      intro hc
      have hl := congrArg List.length hc
      rw [List.length_replicate, List.length_nil] at hl
      omega)
    hwf hout
  rw [List.length_take, List.length_replicate] at hlen
  refine ⟨out, children, hcombine, houtline, by omega, ?_⟩
  rw [List.length_replicate]
  omega

/-- C18, amended. The attachment root of each input document, for a list of at
least one and at most 2048 input files, each with a source that has at least
one page or no outline, fewer than 2^31 pages, pairwise distinct page
identifiers, an outline of fewer than 2^32 entries and ranges as
`processRange` stores them (a first page of at least 1, a last page of 0 or not
before the first page), the resolved ranges spanning fewer than 2^32 pages in
all: `main` succeeds; the root of the output outline has exactly one child for
each input file, in input order; the child of an input file carries the entry
labelled with the file name without its path, on page `P + 1`, where `P` is
the number of output pages when the pass over the file starts, the number of
pages selected from the files before it; and that child is the bookmark that
the loop over the ranges of this file returns, the node to which every
iteration of that loop attaches the bookmarks it emits. -/
theorem per_document_attachment_root (pathSep : Char) (outputFileFormat : eFileFormat)
    (inputs : List InputFile) (g : RandState) (hne : inputs ≠ [])
    (hlen : inputs.length ≤ 2048)
    (hwf : ∀ input ∈ inputs,
      (1 ≤ input.sourceDocument.pages.length ∨ input.sourceDocument.outline = none) ∧
      input.sourceDocument.pages.length < 2147483648 ∧
      (input.sourceDocument.pages.map Page.pageId).Nodup ∧
      (∀ r, input.sourceDocument.outline = some r →
        (OutlineTreeNode.forestNodes r.children).length < 4294967296) ∧
      ∀ r ∈ input.argument.pageRanges,
        1 ≤ r.firstPage ∧ (r.lastPage = 0 ∨ r.firstPage ≤ r.lastPage))
    (hout : (inputs.map InputFile.pageTotal).sum < 4294967296) :
    ∃ out children,
      combine pathSep outputFileFormat inputs g = some out ∧
      out.outline = some (OutlineTreeNode.mk none children) ∧
      children.length = inputs.length ∧
      ∀ pre input post, inputs = pre ++ input :: post →
        ∃ st0 stR,
          processInputs pathSep outputFileFormat pre (initialState g) = some st0 ∧
          st0.document.pages.length = (pre.flatMap InputFile.selectedPages).length ∧
          processPageRanges input.sourceDocument input.sourceDocument.getNumPages
            (defaultPageRanges input.argument.pageRanges input.sourceDocument.getNumPages)
            { document := st0.document,
              newNode := makeOutlineNode st0.document.pages.length
                (filenameWithoutPrecedingPath pathSep input.argument.fullPath),
              targetDocumentPageIndex := st0.document.pages.length } = some stR ∧
          children[pre.length]? = some stR.newNode ∧
          stR.newNode.data = some
            { title := filenameWithoutPrecedingPath pathSep input.argument.fullPath,
              isOpen := true,
              target := some (Target.page (st0.document.pages.length + 1)),
              color := some blueColor, textStyle := eTextStyleBold } :=
  combine_outline_general pathSep outputFileFormat inputs g hne hlen hwf hout

/-- The hypotheses of the amended C18 hold for the two sources of the scenario
with a source without pages and without outline between them. -/
theorem per_document_attachment_root_witness :
    [scenarioA, exampleBlank, scenarioB].length ≤ 2048 ∧
    ([scenarioA, exampleBlank, scenarioB].map InputFile.pageTotal).sum < 4294967296 ∧
    exampleBlank.sourceDocument.pages.length = 0 ∧
    ∃ out children,
      combine '/' eFileFormat.eFFPDF [scenarioA, exampleBlank, scenarioB] exampleRand
        = some out ∧
      out.outline = some (OutlineTreeNode.mk none children) ∧
      children.length = [scenarioA, exampleBlank, scenarioB].length ∧
      ∀ pre input post, [scenarioA, exampleBlank, scenarioB] = pre ++ input :: post →
        ∃ st0 stR,
          processInputs '/' eFileFormat.eFFPDF pre (initialState exampleRand) = some st0 ∧
          st0.document.pages.length = (pre.flatMap InputFile.selectedPages).length ∧
          processPageRanges input.sourceDocument input.sourceDocument.getNumPages
            (defaultPageRanges input.argument.pageRanges input.sourceDocument.getNumPages)
            { document := st0.document,
              newNode := makeOutlineNode st0.document.pages.length
                (filenameWithoutPrecedingPath '/' input.argument.fullPath),
              targetDocumentPageIndex := st0.document.pages.length } = some stR ∧
          children[pre.length]? = some stR.newNode ∧
          stR.newNode.data = some
            { title := filenameWithoutPrecedingPath '/' input.argument.fullPath,
              isOpen := true,
              target := some (Target.page (st0.document.pages.length + 1)),
              color := some blueColor, textStyle := eTextStyleBold } :=
  ⟨by decide, by decide, by decide,
    per_document_attachment_root '/' eFileFormat.eFFPDF [scenarioA, exampleBlank, scenarioB]
      exampleRand (by simp) (by decide)
      (by
        intro input hin
        simp only [List.mem_cons, List.mem_singleton, List.not_mem_nil, or_false] at hin
        rcases hin with rfl | rfl | rfl
        · refine ⟨Or.inl (by decide), by decide, by decide, ?_, by decide⟩
          intro r h
          cases h
          decide
        · refine ⟨Or.inr rfl, by decide, by decide, ?_, by decide⟩
          intro r h
          cases h
        · refine ⟨Or.inl (by decide), by decide, by decide, ?_, by decide⟩
          intro r h
          cases h
          decide)
      (by decide)⟩

/-! ## Arguments: where `split_argument` departs from its description -/

/-- C29, at failing inputs. The argument "dir/a.pdf" has its last `/` before its
last full stop: `split_argument` takes no extension from it, so the extension
is empty, the file format unknown and the full path "dir/a"; the same holds
for "./a.pdf".  Without a `/` before the extension the parts are as
described: "a.PDF" gives the base name "a", the extension ".pdf" and the PDF
format, and "dir/a.pdf/2-3", whose last `/` follows the extension, gives the
base name "dir/a" and the range 2-3. -/
theorem split_argument_directory_separator :
    split_argument "dir/a.pdf"
      = some { fullPath := "dir/a", basename := "dir/a", ext := "", modifier := "",
               fileFormat := eFileFormat.eFFUnknown, pageRanges := [] } ∧
    split_argument "./a.pdf"
      = some { fullPath := "./a", basename := "./a", ext := "", modifier := "",
               fileFormat := eFileFormat.eFFUnknown, pageRanges := [] } ∧
    split_argument "a.PDF"
      = some { fullPath := "a.pdf", basename := "a", ext := ".pdf", modifier := "",
               fileFormat := eFileFormat.eFFPDF, pageRanges := [] } ∧
    split_argument "dir/a.pdf/2-3"
      = some { fullPath := "dir/a.pdf", basename := "dir/a", ext := ".pdf", modifier := "2",
               fileFormat := eFileFormat.eFFPDF,
               pageRanges := [{ firstPage := 2, lastPage := 3 }] } := by
  refine ⟨?_, ?_, ?_, ?_⟩ <;> decide

/-! ## Named destinations: the suffix characters -/

/-- C28, at a failing input. The member `suffixChars` has 62 characters, so the
index `rand() % 63` is 62, one past its last character, when `rand()` returns
62: the character drawn is then the terminating null character, which is not
in `suffixChars`. -/
theorem suffix_index_past_the_end :
    suffixChars.length = 62 ∧ 62 % 63 = 62 ∧
    suffixCharAt (62 % 63) = Char.ofNat 0 ∧
    suffixCharAt (62 % 63) ∉ suffixChars.toList ∧
    (({ m_destinations := [], m_names := ["X"] } : NamedDestinations).append
        { draws := fun _ => 62 } { name := "X" }).1.m_names
      = ["X", "X" ++ String.mk [Char.ofNat 46, Char.ofNat 0, Char.ofNat 0]] := by
  refine ⟨?_, ?_, ?_, ?_, ?_⟩ <;> decide

/-! ## The bookmark tree: nodes that are not emitted -/

/-- C27. Emitting fails soft. In the loop of `copyNodeTree` over the children of
any node, a child whose entry has no page-rectangle target, or whose page
identifier is not in the map, changes nothing: the loop returns what it
returns for the same children without that child.  Neither the child nor a
node below it is emitted, the call does not fail because of it, and the
children after it are processed as they are without it. -/
theorem emit_fails_soft (targetDocument : Document) (delta : Int) (map : PageIdToIndexMap)
    (node : BookmarkTreeNode) (post : List BookmarkTreeNode) (outline : OutlineEntry)
    (houtline : node.m_outline = some outline)
    (hskip : getOutlinePageId outline = none ∨
      ∃ pageId, getOutlinePageId outline = some pageId ∧ map.find pageId = none) :
    ∀ (pre : List BookmarkTreeNode) (root : OutlineTreeNode),
      copyNodeTreeLoop (pre ++ node :: post) targetDocument delta map root
        = copyNodeTreeLoop (pre ++ post) targetDocument delta map root
  | [], root => by
    rw [List.nil_append, List.nil_append, copyNodeTreeLoop]
    rcases hskip with h | ⟨pageId, h1, h2⟩
    · simp only [houtline, h]
    · simp only [houtline, h1, h2]
  | p :: pre, root => by
    have ih := emit_fails_soft targetDocument delta map node post outline houtline hskip pre
    rw [List.cons_append, List.cons_append, copyNodeTreeLoop]
    conv_rhs => rw [copyNodeTreeLoop]
    cases p.m_outline with
    | none => rfl
    | some o =>
      dsimp only
      cases getOutlinePageId o with
      | none =>
        dsimp only
        exact ih root
      | some pid =>
        dsimp only
        cases map.find pid with
        | none =>
          dsimp only
          exact ih root
        | some mapEntry =>
          dsimp only
          cases getOutlineRectTarget o with
          | none => rfl
          | some target =>
            cases targetDocument.getPage (toUInt32 (addInt32 mapEntry delta)) with
            | none => rfl
            | some page =>
              dsimp only
              cases copyNodeTree p targetDocument delta map
                  (OutlineTreeNode.mk (some { o with
                    target := some (Target.pageRect { target with pageId := page.pageId }) })
                    []) with
              | none => rfl
              | some added =>
                dsimp only
                exact ih _

/-- The hypotheses of C27 hold for a bookmark on a whole page, which has no
page-rectangle target: it is passed over with the bookmark below it, and the
bookmark after it is emitted. -/
theorem emit_fails_soft_witness :
    examplePageBookmark.m_outline = some { title := "cover", target := some (Target.page 1) } ∧
    getOutlinePageId { title := "cover", target := some (Target.page 1) } = none ∧
    copyNodeTreeLoop
        ([] ++ examplePageBookmark :: [BookmarkTreeNode.mk exampleSource (some exampleAnnex) []])
        exampleTarget (-2) [(13, 2)] (OutlineTreeNode.mk none [])
      = copyNodeTreeLoop ([] ++ [BookmarkTreeNode.mk exampleSource (some exampleAnnex) []])
          exampleTarget (-2) [(13, 2)] (OutlineTreeNode.mk none []) ∧
    copyNodeTreeLoop ([] ++ [BookmarkTreeNode.mk exampleSource (some exampleAnnex) []])
        exampleTarget (-2) [(13, 2)] (OutlineTreeNode.mk none [])
      = some (OutlineTreeNode.mk none [OutlineTreeNode.mk (some exampleAnnex) []]) :=
  ⟨rfl, rfl,
    emit_fails_soft exampleTarget (-2) [(13, 2)] examplePageBookmark
      [BookmarkTreeNode.mk exampleSource (some exampleAnnex) []]
      { title := "cover", target := some (Target.page 1) } rfl (Or.inl rfl) []
      (OutlineTreeNode.mk none []),
    rfl⟩

/-! ## The bookmark tree: the shape of the built tree -/

/-- Below a path that holds data that is not kept, no path is kept. -/
theorem OutlineTreeNode.filter_forestPaths_of_not_kept (pageIds : List DOMid) :
    ∀ (ts : List OutlineTreeNode) (pre : List (Option OutlineEntry)),
      pre.all (dataKept pageIds) = false →
      (OutlineTreeNode.forestPaths pre ts).filter (fun path => path.all (dataKept pageIds)) = []
  | [], pre, _ => by simp [OutlineTreeNode.forestPaths]
  | OutlineTreeNode.mk d cs :: rest, pre, h => by
    have hpre : (pre ++ [d]).all (dataKept pageIds) = false := by
      rw [List.all_append, h]
      rfl
    rw [OutlineTreeNode.forestPaths, OutlineTreeNode.paths, List.filter_append,
      List.filter_cons, hpre,
      OutlineTreeNode.filter_forestPaths_of_not_kept pageIds cs (pre ++ [d]) hpre,
      OutlineTreeNode.filter_forestPaths_of_not_kept pageIds rest pre h]
    simp

/-- The paths of the forest that `buildBookmarkTree` builds are the paths of the
source forest on which all the data is kept, in the same order. -/
theorem buildForest_paths (document : Document) (pageIds : List DOMid) :
    ∀ (ts : List OutlineTreeNode) (pre : List (Option OutlineEntry)),
      pre.all (dataKept pageIds) = true →
      BookmarkTreeNode.forestPaths pre (buildForest document pageIds ts)
        = (OutlineTreeNode.forestPaths pre ts).filter
            (fun path => path.all (dataKept pageIds))
  | [], pre, _ => by simp [buildForest, BookmarkTreeNode.forestPaths, OutlineTreeNode.forestPaths]
  | OutlineTreeNode.mk none cs :: rest, pre, h => by
    have hpre : (pre ++ [none]).all (dataKept pageIds) = false := by
      rw [List.all_append]
      simp [dataKept]
    rw [buildForest, OutlineTreeNode.forestPaths, OutlineTreeNode.paths, List.filter_append,
      List.filter_cons, hpre,
      OutlineTreeNode.filter_forestPaths_of_not_kept pageIds cs (pre ++ [none]) hpre,
      buildForest_paths document pageIds rest pre h]
    simp
  | OutlineTreeNode.mk (some e) cs :: rest, pre, h => by
    rw [buildForest, OutlineTreeNode.forestPaths, OutlineTreeNode.paths, List.filter_append,
      List.filter_cons]
    by_cases hq : bookmarkHasPageId e pageIds = true
    · have hpre : (pre ++ [some e]).all (dataKept pageIds) = true := by
        rw [List.all_append, h]
        simp [dataKept, hq]
      rw [if_pos hq, BookmarkTreeNode.forestPaths, BookmarkTreeNode.paths,
        buildForest_paths document pageIds cs (pre ++ [some e]) hpre,
        buildForest_paths document pageIds rest pre h, hpre]
      simp
    · have hpre : (pre ++ [some e]).all (dataKept pageIds) = false := by
        rw [List.all_append]
        simp [dataKept, hq]
      rw [if_neg hq, hpre,
        OutlineTreeNode.filter_forestPaths_of_not_kept pageIds cs (pre ++ [some e]) hpre,
        buildForest_paths document pageIds rest pre h]
      simp

/-- C25. The tree built by `buildBookmarkTree` from an empty root, for any outline
and any set of page identifiers: its paths (an entry together with the
entries of its ancestors, from the top) are, in the same order and as often,
the paths of the source outline on which every node has an entry whose target
is on a page of the set.  So an entry is in the built tree exactly when it and
all its ancestors qualify, under the same chain of ancestors and in the same
order among its siblings.  For a document without an outline
`createFromDocument` returns the root without children. -/
theorem built_tree_characterisation (document : Document) (pageIds : List DOMid)
    (outlineRoot : OutlineTreeNode) :
    BookmarkTreeNode.forestPaths []
        (buildBookmarkTree (BookmarkTreeNode.mk document none []) pageIds outlineRoot).m_children
      = (OutlineTreeNode.forestPaths [] outlineRoot.children).filter
          (fun path => path.all (dataKept pageIds)) ∧
    (∀ path, path ∈ BookmarkTreeNode.forestPaths []
        (buildBookmarkTree (BookmarkTreeNode.mk document none []) pageIds outlineRoot).m_children
      ↔ path ∈ OutlineTreeNode.forestPaths [] outlineRoot.children ∧
        ∀ data ∈ path, ∃ outlineEntry, data = some outlineEntry ∧
          bookmarkHasPageId outlineEntry pageIds = true) ∧
    ∀ (startPageIndex endPageIndex : Int), document.outline = none →
      BookmarkTreeNode.createFromDocument document startPageIndex endPageIndex
        = some (BookmarkTreeNode.mk document none []) := by
  have hpaths := buildForest_paths document pageIds outlineRoot.children [] rfl
  rw [buildBookmarkTree_eq]
  simp only [BookmarkTreeNode.m_children, List.nil_append]
  refine ⟨hpaths, ?_, ?_⟩
  · intro path
    rw [hpaths, List.mem_filter, List.all_eq_true]
    constructor
    · rintro ⟨h1, h2⟩
      refine ⟨h1, fun data hd => ?_⟩
      have hk := h2 data hd
      cases data with
      | none => simp [dataKept] at hk
      | some e => exact ⟨e, rfl, by simpa [dataKept] using hk⟩
    · rintro ⟨h1, h2⟩
      refine ⟨h1, fun data hd => ?_⟩
      obtain ⟨e, rfl, he⟩ := h2 data hd
      simpa [dataKept] using he
  · intro startPageIndex endPageIndex hnone
    simp [BookmarkTreeNode.createFromDocument, hnone]

/-! ## The bookmark tree: building, then emitting -/

/-- Two forests in relation have the same number of nodes. -/
theorem ForestRel.length_eq {R : Option OutlineEntry → Option OutlineEntry → Prop} :
    ∀ (bs : List BookmarkTreeNode) (cs : List OutlineTreeNode), ForestRel R bs cs →
      (OutlineTreeNode.forestNodes cs).length = (BookmarkTreeNode.forestNodes bs).length
  | [], [], _ => by simp [OutlineTreeNode.forestNodes, BookmarkTreeNode.forestNodes]
  | [], _ :: _, hr => by simp [ForestRel] at hr
  | _ :: _, [], hr => by simp [ForestRel] at hr
  | BookmarkTreeNode.mk _ o bs1 :: bs, OutlineTreeNode.mk d cs1 :: cs, hr => by
    simp only [ForestRel, TreeRel] at hr
    have h1 := ForestRel.length_eq bs1 cs1 hr.1.2
    have h2 := ForestRel.length_eq bs cs hr.2
    simp only [OutlineTreeNode.forestNodes, OutlineTreeNode.nodes, BookmarkTreeNode.forestNodes,
      BookmarkTreeNode.nodes, List.length_append, List.length_cons]
    omega

/-- The tree that `createFromDocument` builds for the pages at the indices
`a .. b` of a document: every node of it carries an entry whose target is on
one of these pages. -/
theorem createFromDocument_kept (document : Document) (a b : Nat) (hab : a ≤ b)
    (hb : b < document.pages.length) (hN : document.pages.length < 2147483648)
    (hsize : ∀ root, document.outline = some root →
      (OutlineTreeNode.forestNodes root.children).length < 4294967296) :
    ∃ forest,
      BookmarkTreeNode.createFromDocument document (a : Int) (b : Int)
        = some (BookmarkTreeNode.mk document none forest) ∧
      (BookmarkTreeNode.forestNodes forest).length < 4294967296 ∧
      ∀ n ∈ BookmarkTreeNode.forestNodes forest, ∃ e, n.m_outline = some e ∧
        ∃ target j p, getOutlineRectTarget e = some target ∧ a ≤ j ∧ j < b + 1 ∧
          document.pages[j]? = some p ∧ p.pageId = target.pageId := by
  unfold BookmarkTreeNode.createFromDocument
  cases ho : document.outline with
  | none =>
    exact ⟨[], rfl, by simp [BookmarkTreeNode.forestNodes],
      by simp [BookmarkTreeNode.forestNodes]⟩
  | some root =>
    have hc : ((b : Int) + 1 - (a : Int)).toNat = b - a + 1 := by omega
    obtain ⟨pageIds, hrun, hmem⟩ := collectPageIds_spec document (b - a + 1) a []
      (by omega) (by omega)
    simp only [hc, hrun, buildBookmarkTree_eq, List.nil_append]
    refine ⟨_, rfl, ?_, ?_⟩
    · exact Nat.lt_of_le_of_lt (buildForest_length_le _ _ _) (hsize root ho)
    · intro n hn
      obtain ⟨e, he1, he2, -⟩ := buildForest_node document pageIds root.children n hn
      refine ⟨e, he1, ?_⟩
      have hmem2 : ∀ x, x ∈ pageIds ↔ x ∈ ([] : List DOMid) ∨
          ∃ j p, a ≤ j ∧ j < b + 1 ∧ document.pages[j]? = some p ∧ p.pageId = x := by
        intro x
        rw [hmem x]
        have hb2 : a + (b - a + 1) = b + 1 := by omega
        rw [hb2]
      exact kept_entry_target document pageIds _ _ hmem2 e he2

/-- C26. Building, then emitting, loses nothing. For a document with pairwise
distinct page identifiers and the pages at the indices `a <= b` of it, let
`i + delta` be an index of the target document for every `i` from `a` to `b`.
Then `createFromDocument` returns a tree, and `appendToDocument` of that tree
returns; the attachment node keeps its entry and its children and has, after
them, a forest of the shape of the tree, the entry at each node being the copy
of the entry at the corresponding node of the tree on the target page at
`i + delta`, where `i` is the index of the source page of that entry; and the
number of new nodes is `getChildCount(true)` of the tree. -/
theorem build_then_emit (document : Document) (a b : Nat) (targetDocument : Document)
    (delta : Int) (attach : OutlineTreeNode)
    (hnd : (document.pages.map Page.pageId).Nodup)
    (hN : document.pages.length < 2147483648)
    (hsize : ∀ root, document.outline = some root →
      (OutlineTreeNode.forestNodes root.children).length < 4294967296)
    (hab : a ≤ b) (hb : b < document.pages.length)
    (htgt : targetDocument.pages.length ≤ 2147483648)
    (hvalid : ∀ i, a ≤ i → i ≤ b →
      0 ≤ (i : Int) + delta ∧ ((i : Int) + delta).toNat < targetDocument.pages.length) :
    ∃ tree added,
      BookmarkTreeNode.createFromDocument document (a : Int) (b : Int) = some tree ∧
      tree.appendToDocument targetDocument delta (some attach)
        = some (targetDocument,
            some (OutlineTreeNode.mk attach.data (attach.children ++ added))) ∧
      ForestRel (fun o d => ∃ e target i page, o = some e ∧
          getOutlineRectTarget e = some target ∧ a ≤ i ∧ i ≤ b ∧
          (document.pages[i]?).map Page.pageId = some target.pageId ∧
          targetDocument.pages[((i : Int) + delta).toNat]? = some page ∧
          d = some { e with
            target := some (Target.pageRect { target with pageId := page.pageId }) })
        tree.m_children added ∧
      (OutlineTreeNode.forestNodes added).length = tree.getChildCount true := by
  obtain ⟨forest, hcreate, hlen, hall⟩ := createFromDocument_kept document a b hab hb hN hsize
  have hnum : document.getNumPages = document.pages.length :=
    Document.getNumPages_eq _ (by omega)
  obtain ⟨map, hmap, -, -, hfound⟩ := buildPageIdToPageIndexMapLoop_spec document
    document.pages.length 0 [] (by omega)
  have hmap2 : buildPageIdToPageIndexMap document = some map := by
    unfold buildPageIdToPageIndexMap
    rw [hnum]
    exact hmap
  have hindex : ∀ j, a ≤ j → j < b + 1 →
      toUInt32 (addInt32 (toInt32 j) delta) = ((j : Int) + delta).toNat := by
    intro j hj1 hj2
    obtain ⟨hv1, hv2⟩ := hvalid j hj1 (by omega)
    rw [toUInt32_addInt32, toInt32_of_lt j (by omega)]
    unfold toUInt32
    omega
  have hlook : ∀ e, (∃ target j p, getOutlineRectTarget e = some target ∧ a ≤ j ∧
        j < b + 1 ∧ document.pages[j]? = some p ∧ p.pageId = target.pageId) →
      ∃ target mapEntry page, getOutlineRectTarget e = some target ∧
        map.find target.pageId = some mapEntry ∧
        targetDocument.getPage (toUInt32 (addInt32 mapEntry delta)) = some page := by
    rintro e ⟨target, j, p, ht, hj1, hj2, hj3, hj4⟩
    obtain ⟨-, hv2⟩ := hvalid j hj1 (by omega)
    refine ⟨target, toInt32 j, targetDocument.pages[((j : Int) + delta).toNat], ht, ?_, ?_⟩
    · rw [← hj4]
      exact hfound hnd j p (by omega) (by omega) hj3
    · rw [hindex j hj1 hj2]
      simp only [Document.getPage]
      exact List.getElem?_eq_getElem hv2
  obtain ⟨added, hemit, hrel⟩ := copyNodeTreeLoop_ok targetDocument delta map _ hlook forest
    attach hall
  have hrel2 := ForestRel.mono
    (fun o d => ∃ e target i page, o = some e ∧
      getOutlineRectTarget e = some target ∧ a ≤ i ∧ i ≤ b ∧
      (document.pages[i]?).map Page.pageId = some target.pageId ∧
      targetDocument.pages[((i : Int) + delta).toNat]? = some page ∧
      d = some { e with
        target := some (Target.pageRect { target with pageId := page.pageId }) })
    (by
      rintro o d ⟨e, target, mapEntry, page, ho, ⟨target2, j, p, ht2, hj1, hj2, hj3, hj4⟩, ht,
        hm, hp, hd⟩
      have htt : target2 = target := Option.some.inj (ht2.symm.trans ht)
      rw [htt] at hj4
      have hm2 := hfound hnd j p (by omega) (by omega) hj3
      rw [hj4, hm] at hm2
      have hme : mapEntry = toInt32 j := Option.some.inj hm2
      rw [hme, hindex j hj1 hj2] at hp
      refine ⟨e, target, j, page, ho, ht, hj1, by omega, ?_, hp, hd⟩
      rw [hj3, Option.map_some', hj4])
    forest added hrel
  refine ⟨BookmarkTreeNode.mk document none forest, added, hcreate, ?_, hrel2, ?_⟩
  · unfold BookmarkTreeNode.appendToDocument
    simp only [BookmarkTreeNode.m_sourceDocument, hmap2, copyNodeTree, hemit]
  · rw [ForestRel.length_eq forest added hrel]
    simp only [BookmarkTreeNode.getChildCount, Bool.not_true, Bool.false_eq_true, if_false]
    rw [BookmarkTreeNode.countRecursive_eq, BookmarkTreeNode.m_children,
      Nat.mod_eq_of_lt hlen]

/-- The hypotheses of C26 hold for the third page of the example document and a
target document that holds that page at index 0, with the delta -2. -/
theorem build_then_emit_witness :
    (exampleSource.pages.map Page.pageId).Nodup ∧
    (∀ i : Nat, 2 ≤ i → i ≤ 2 →
      0 ≤ (i : Int) + (-2) ∧ ((i : Int) + (-2)).toNat < exampleTarget.pages.length) ∧
    ∃ tree added,
      BookmarkTreeNode.createFromDocument exampleSource ((2 : Nat) : Int) ((2 : Nat) : Int)
        = some tree ∧
      tree.appendToDocument exampleTarget (-2) (some (makeOutlineNode 0 "a.pdf"))
        = some (exampleTarget,
            some (OutlineTreeNode.mk (makeOutlineNode 0 "a.pdf").data
              ((makeOutlineNode 0 "a.pdf").children ++ added))) ∧
      ForestRel (fun o d => ∃ (e : OutlineEntry) (target : PageRectTarget) (i : Nat) (page : Page),
          o = some e ∧
          getOutlineRectTarget e = some target ∧ 2 ≤ i ∧ i ≤ 2 ∧
          (exampleSource.pages[i]?).map Page.pageId = some target.pageId ∧
          exampleTarget.pages[((i : Int) + (-2)).toNat]? = some page ∧
          d = some { e with
            target := some (Target.pageRect { target with pageId := page.pageId }) })
        tree.m_children added ∧
      (OutlineTreeNode.forestNodes added).length = tree.getChildCount true :=
  have hvalid : ∀ i : Nat, 2 ≤ i → i ≤ 2 →
      0 ≤ (i : Int) + (-2) ∧ ((i : Int) + (-2)).toNat < exampleTarget.pages.length := by
    intro i h1 h2
    have hi : i = 2 := by omega
    subst hi
    decide
  ⟨by decide, hvalid,
    build_then_emit exampleSource 2 2 exampleTarget (-2) (makeOutlineNode 0 "a.pdf")
      (by decide) (by decide)
      (by
        intro root h
        cases h
        decide)
      (by decide) (by decide) (by decide) hvalid⟩

end MakoCombiner

namespace MakoImposer

/-! ## The imposer: the name of the output file -/

/-- C22, at a failing input. For the arguments "in.pdf" and "out.pdf",
`parse_params` sets the output file to "out_booklet.pdf", not to the declared
"out.pdf": the suffix `_booklet` is added to the base name of a declared
output file too.  Without a declared output file the output file is
"in_booklet.pdf". -/
theorem declared_output_gets_suffix :
    (parse_params '/' ["in.pdf", "out.pdf"] []).map sParameters.outputFullPath
      = some "out_booklet.pdf" ∧
    (parse_params '/' ["in.pdf", "out.pdf"] []).map sParameters.outputBasename
      = some "out_booklet" ∧
    (parse_params '/' ["in.pdf"] []).map sParameters.outputFullPath
      = some "in_booklet.pdf" := by
  refine ⟨?_, ?_, ?_⟩ <;> decide

/-! ## The imposer: the pages on the spreads -/

/-- The spread `i` without the `uint32` arithmetic: page A has the number `2 i`
in sequential mode and `i` in booklet mode, page B the number `2 i + 1` and
`2 numSpreads - 1 - i`; a number that is no page of the document gives a blank
side; the even spreads of a booklet have page B on the left. -/
theorem spread_eq (sequential : Bool) (n i : Nat) (hn : n + 3 < 4294967296)
    (hi : i < numSpreads sequential n) :
    spread sequential n (numSpreads sequential n) i
      = if !sequential && i % 2 == 0 then
          { left := if (if sequential then 2 * i + 1 else 2 * numSpreads sequential n - 1 - i) < n
              then some (if sequential then 2 * i + 1 else 2 * numSpreads sequential n - 1 - i)
              else none,
            right := if (if sequential then 2 * i else i) < n
              then some (if sequential then 2 * i else i) else none }
        else
          { left := if (if sequential then 2 * i else i) < n
              then some (if sequential then 2 * i else i) else none,
            right := if (if sequential then 2 * i + 1 else 2 * numSpreads sequential n - 1 - i) < n
              then some (if sequential then 2 * i + 1 else 2 * numSpreads sequential n - 1 - i)
              else none } := by
  cases sequential with
  | true =>
    have hS : numSpreads true n = (n + 1) / 2 := by
      simp only [numSpreads, if_true]
      omega
    rw [hS] at hi
    have hA : (i * 2) % 4294967296 = 2 * i := by omega
    have hB : (2 * i + 1) % 4294967296 = 2 * i + 1 := by omega
    simp only [spread, hA, hB, if_true, Bool.not_true, Bool.false_and, Bool.false_eq_true,
      if_false]
  | false =>
    have hS : numSpreads false n = (n + 3) / 4 * 2 := by
      simp only [numSpreads, Bool.false_eq_true, if_false]
      omega
    have hB : MakoCombiner.u32sub (MakoCombiner.u32sub ((numSpreads false n * 2) % 4294967296) i) 1
        = 2 * numSpreads false n - 1 - i := by
      rw [hS] at hi ⊢
      unfold MakoCombiner.u32sub
      omega
    simp only [spread, hB, Bool.false_eq_true, if_false]

/-- The pages on the two sides of the spread `i` of a booklet. -/
theorem mem_sides_booklet (n i : Nat) (hn : n + 3 < 4294967296)
    (hi : i < numSpreads false n) (k : Nat) :
    k ∈ (spread false n (numSpreads false n) i).left.toList
        ++ (spread false n (numSpreads false n) i).right.toList
      ↔ k < n ∧ (k = i ∨ k = 2 * numSpreads false n - 1 - i) := by
  rw [spread_eq false n i hn hi]
  simp only [Bool.not_false, Bool.true_and, Bool.false_eq_true, if_false]
  split_ifs <;> simp [Option.toList] <;> omega

/-- The pages on the two sides of the spread `i` in sequential mode. -/
theorem mem_sides_sequential (n i : Nat) (hn : n + 3 < 4294967296)
    (hi : i < numSpreads true n) (k : Nat) :
    k ∈ (spread true n (numSpreads true n) i).left.toList
        ++ (spread true n (numSpreads true n) i).right.toList
      ↔ k < n ∧ (k = 2 * i ∨ k = 2 * i + 1) := by
  rw [spread_eq true n i hn hi]
  simp only [Bool.not_true, Bool.false_and, Bool.false_eq_true, if_false, if_true]
  split_ifs <;> simp [Option.toList] <;> omega

/-- The two sides of a spread hold different pages. -/
theorem nodup_sides (sequential : Bool) (n i : Nat) (hn : n + 3 < 4294967296)
    (hi : i < numSpreads sequential n) :
    ((spread sequential n (numSpreads sequential n) i).left.toList
      ++ (spread sequential n (numSpreads sequential n) i).right.toList).Nodup := by
  have hS : numSpreads false n = (n + 3) / 4 * 2 := by
    simp only [numSpreads, Bool.false_eq_true, if_false]
    omega
  rw [spread_eq sequential n i hn hi]
  cases sequential with
  | true =>
    simp only [Bool.not_true, Bool.false_and, Bool.false_eq_true, if_false, if_true]
    split_ifs <;> simp [Option.toList]
  | false =>
    rw [hS] at hi ⊢
    simp only [Bool.not_false, Bool.true_and, Bool.false_eq_true, if_false]
    split_ifs <;> simp [Option.toList] <;> omega

/-- C30. Page coverage of the imposer, for a document of `n >= 1` pages (with
`n + 3` in the range of `uint32`).  In booklet mode there are
`(n + 3) / 4 * 2` spreads and the spread `i` has the pages `i` and
`2 numSpreads - 1 - i`; in sequential mode there are `(n + 1) / 2` spreads and
the spread `i` has the pages `2 i` and `2 i + 1`; a side whose page number is
`n` or more is blank; and the pages on the sides of all the spreads are the
pages `0 .. n - 1`, each once. -/
theorem page_coverage (sequential : Bool) (n : Nat) (h1 : 1 ≤ n) (hn : n + 3 < 4294967296) :
    (spreads sequential n).length
      = (if sequential then (n + 1) / 2 else (n + 3) / 4 * 2) ∧
    (∀ i, i < (spreads sequential n).length →
      ∃ s, (spreads sequential n)[i]? = some s ∧
        ∀ k, k ∈ s.left.toList ++ s.right.toList ↔
          k < n ∧ (k = (if sequential then 2 * i else i) ∨
            k = (if sequential then 2 * i + 1 else 2 * (spreads sequential n).length - 1 - i))) ∧
    (placed (spreads sequential n)).Perm (List.range n) := by
  have hlen : (spreads sequential n).length = numSpreads sequential n := by
    simp [spreads]
  have hS : numSpreads sequential n
      = (if sequential then (n + 1) / 2 else (n + 3) / 4 * 2) := by
    cases sequential with
    | true =>
      simp only [numSpreads, if_true]
      omega
    | false =>
      simp only [numSpreads, Bool.false_eq_true, if_false]
      omega
  have hmem : ∀ i, i < numSpreads sequential n → ∀ k,
      k ∈ (spread sequential n (numSpreads sequential n) i).left.toList
          ++ (spread sequential n (numSpreads sequential n) i).right.toList
        ↔ k < n ∧ (k = (if sequential then 2 * i else i) ∨
            k = (if sequential then 2 * i + 1 else 2 * numSpreads sequential n - 1 - i)) := by
    intro i hi k
    cases sequential with
    | true => simpa using mem_sides_sequential n i hn hi k
    | false => simpa using mem_sides_booklet n i hn hi k
  refine ⟨by rw [hlen, hS], ?_, ?_⟩
  · intro i hi
    rw [hlen] at hi ⊢
    refine ⟨spread sequential n (numSpreads sequential n) i, ?_, hmem i hi⟩
    simp [spreads, hi]
  · have hplaced : placed (spreads sequential n)
        = (List.range (numSpreads sequential n)).flatMap (fun i =>
            (spread sequential n (numSpreads sequential n) i).left.toList
              ++ (spread sequential n (numSpreads sequential n) i).right.toList) := by
      simp [placed, spreads, List.flatMap_map]
    rw [hplaced]
    refine (List.perm_ext_iff_of_nodup ?_ (List.nodup_range n)).mpr ?_
    · rw [List.nodup_flatMap]
      refine ⟨fun i hi => nodup_sides sequential n i hn (List.mem_range.mp hi), ?_⟩
      refine (List.nodup_range _).pairwise_of_forall_ne ?_
      intro i hi j hj hij
      rw [List.mem_range] at hi hj
      simp only [Function.onFun]
      rw [List.disjoint_left]
      intro k hk1 hk2
      have m1 := (hmem i hi k).mp hk1
      have m2 := (hmem j hj k).mp hk2
      rw [hS] at hi hj m1 m2
      cases sequential with
      | true =>
        simp only [if_true] at m1 m2 hi hj
        omega
      | false =>
        simp only [Bool.false_eq_true, if_false] at m1 m2 hi hj
        omega
    · intro k
      rw [List.mem_flatMap, List.mem_range]
      constructor
      · rintro ⟨i, hi, hk⟩
        exact ((hmem i (List.mem_range.mp hi) k).mp hk).1
      · intro hk
        cases sequential with
        | true =>
          have hS2 : numSpreads true n = (n + 1) / 2 := by simpa using hS
          refine ⟨k / 2, List.mem_range.mpr (by omega), ?_⟩
          rw [hmem (k / 2) (by omega) k]
          simp only [if_true]
          omega
        | false =>
          have hS2 : numSpreads false n = (n + 3) / 4 * 2 := by simpa using hS
          by_cases hlow : k < numSpreads false n
          · refine ⟨k, List.mem_range.mpr hlow, ?_⟩
            rw [hmem k hlow k]
            exact ⟨hk, Or.inl rfl⟩
          · have hi : 2 * numSpreads false n - 1 - k < numSpreads false n := by
              rw [hS2] at hlow ⊢
              omega
            refine ⟨2 * numSpreads false n - 1 - k, List.mem_range.mpr hi, ?_⟩
            rw [hmem _ hi k]
            simp only [Bool.false_eq_true, if_false]
            rw [hS2] at hlow ⊢
            omega

/-- The hypotheses of C30 hold for a booklet of five pages: four spreads, the
pages 0 to 4 each on one side, three sides blank. -/
theorem page_coverage_witness :
    spreads false 5
      = [{ left := none, right := some 0 }, { left := some 1, right := none },
         { left := none, right := some 2 }, { left := some 3, right := some 4 }] ∧
    (placed (spreads false 5)).Perm (List.range 5) :=
  ⟨by decide, (page_coverage false 5 (by decide) (by decide)).2.2⟩

end MakoImposer

namespace MakoWatermarker

/-! ## The watermarker: where `parse_params` departs from its description -/

/-- The test of the argument `i=` is true for every value: no value equals "yes",
"true", "y" and "t" at once, so one of the four comparisons is not zero. -/
theorem incremental_test_true (value : String) :
    (wcscmp value "yes" ≠ 0 || wcscmp value "true" ≠ 0 || wcscmp value "y" ≠ 0
      || wcscmp value "t" ≠ 0) = true := by
  by_cases h : value = "yes"
  · subst h
    decide
  · simp [wcscmp, h]

/-- C23, at a failing input. With the argument `i=no`, `parse_params` leaves
`useIncrementalOutput` true, as it does with `i=yes` and without the
argument. -/
theorem incremental_switch_stays_on :
    (parse_params '/' ["in.pdf", "i=no"]).map parameters.useIncrementalOutput = some true ∧
    (parse_params '/' ["in.pdf", "i=No"]).map parameters.useIncrementalOutput = some true ∧
    (parse_params '/' ["in.pdf", "i=yes"]).map parameters.useIncrementalOutput = some true ∧
    (parse_params '/' ["in.pdf"]).map parameters.useIncrementalOutput = some true := by
  refine ⟨?_, ?_, ?_, ?_⟩ <;> decide

/-- C24, at a failing input. With the argument `a=-90`, `parse_params` stores the
angle 90: the sign is lost in `abs`, and `a=-200` is stored as 180.  The
angles from 0 to 180 are stored as they are, `a=200` as 180, and without the
argument the angle is 0. -/
theorem negative_angle_loses_sign :
    (parse_params '/' ["in.pdf", "a=-90"]).map parameters.angle = some 90 ∧
    (parse_params '/' ["in.pdf", "a=-200"]).map parameters.angle = some 180 ∧
    (parse_params '/' ["in.pdf", "a=45"]).map parameters.angle = some 45 ∧
    (parse_params '/' ["in.pdf", "a=200"]).map parameters.angle = some 180 ∧
    (parse_params '/' ["in.pdf"]).map parameters.angle = some 0 := by
  refine ⟨?_, ?_, ?_, ?_, ?_⟩ <;> decide

end MakoWatermarker

namespace MakoSplitter

open MakoCombiner (Document Page)

/-! ## The splitter: the jobs of `dumpChunks` -/

/-- The inner loop of `dumpChunks` clones the pages `index .. index + count - 1`,
in order. -/
theorem clonePages_eq (document : Document) :
    ∀ (count index : Nat) (clonedPages : List Page),
      index + count ≤ document.pages.length →
      clonePages document count index clonedPages
        = some (clonedPages ++ (document.pages.drop index).take count)
  | 0, index, clonedPages, _ => by simp [clonePages]
  | count + 1, index, clonedPages, h => by
    have hlt : index < document.pages.length := by omega
    rw [clonePages]
    simp only [Document.getPage, List.getElem?_eq_getElem hlt]
    rw [clonePages_eq document count (index + 1) _ (by omega),
      List.drop_eq_getElem_cons hlt, List.take_succ_cons]
    simp

/-- The job made for the pages `first .. first + size - 1` holds these pages. -/
theorem makeJob_pages (document : Document) (folderPath outputFile : String)
    (outputType : MakoImposer.eFileFormat) (deepCopy : Bool) (first size : Nat)
    (h : first + size ≤ document.pages.length) :
    ∃ job, makeJob document folderPath outputFile outputType deepCopy first size = some job ∧
      job.clonedPages = (document.pages.drop first).take size ∧
      job.chunkSize = size ∧
      job.outputFile = folderPath ++ outputFile ++ pageIndex ((first + 1) % 4294967296) size
        ++ MakoImposer.extensionFromFormat outputType := by
  unfold makeJob
  rw [clonePages_eq document size first [] h]
  exact ⟨_, rfl, by simp, rfl, rfl⟩

/-- The worker after the worker `i mod w` is the worker `(i + 1) mod w`. -/
theorem nextWorker_mod (availableWorkers i : Nat) (h : 0 < availableWorkers) :
    nextWorker availableWorkers (i % availableWorkers) = (i + 1) % availableWorkers := by
  have hlt := Nat.mod_lt i h
  unfold nextWorker
  rw [Nat.add_mod]
  by_cases hc : i % availableWorkers = availableWorkers - 1
  · rw [if_pos hc, hc]
    by_cases h1 : availableWorkers = 1
    · subst h1
      rfl
    · rw [Nat.mod_eq_of_lt (show 1 < availableWorkers by omega)]
      have hs : availableWorkers - 1 + 1 = availableWorkers := by omega
      rw [hs, Nat.mod_self]
  · rw [if_neg hc]
    by_cases h1 : availableWorkers = 1
    · omega
    · rw [Nat.mod_eq_of_lt (show 1 < availableWorkers by omega),
        Nat.mod_eq_of_lt (show i % availableWorkers + 1 < availableWorkers by omega)]

/-- Pushing a job to a worker adds one to the number of jobs. -/
theorem sum_length_set :
    ∀ (jobs : List (List sJob)) (x : Nat) (worker : List sJob) (job : sJob),
      jobs[x]? = some worker →
      ((jobs.set x (worker ++ [job])).map List.length).sum = (jobs.map List.length).sum + 1
  | [], x, worker, job, h => by simp at h
  | w :: rest, 0, worker, job, h => by
    simp only [List.getElem?_cons_zero, Option.some.injEq] at h
    subst h
    simp only [List.set_cons_zero, List.map_cons, List.sum_cons, List.length_append,
      List.length_singleton]
    omega
  | w :: rest, x + 1, worker, job, h => by
    simp only [List.getElem?_cons_succ] at h
    have ih := sum_length_set rest x worker job h
    simp only [List.set_cons_succ, List.map_cons, List.sum_cons, ih]
    omega

/-- The first loop of `dumpChunks`, from the chunk `i` on, when the workers hold
the blocks before `i` in turn: it returns, the workers hold the blocks before
`i + count` in turn, the worker `w` having the blocks `k` with
`k mod availableWorkers = w` in increasing order, and the number of jobs is
`i + count`. -/
theorem dumpChunksLoop_spec (document : Document) (folderPath outputFile : String)
    (outputType : MakoImposer.eFileFormat) (deepCopy : Bool) (chunkSize availableWorkers : Nat)
    (haW : 0 < availableWorkers) (hN : document.pages.length < 4294967296) :
    ∀ (count i : Nat) (jobs : List (List sJob)),
      (i + count) * chunkSize ≤ document.pages.length →
      jobs.length = availableWorkers →
      (jobs.map List.length).sum = i →
      (∀ w, w < availableWorkers →
        (jobs[w]?).map (List.map sJob.clonedPages)
          = some (((List.range i).filter (fun k => k % availableWorkers = w)).map
              (block document chunkSize))) →
      ∃ jobs1,
        dumpChunksLoop document folderPath outputFile outputType deepCopy chunkSize
          availableWorkers count i jobs (i % availableWorkers)
          = some (jobs1, (i + count) % availableWorkers) ∧
        jobs1.length = availableWorkers ∧
        (jobs1.map List.length).sum = i + count ∧
        ∀ w, w < availableWorkers →
          (jobs1[w]?).map (List.map sJob.clonedPages)
            = some (((List.range (i + count)).filter (fun k => k % availableWorkers = w)).map
                (block document chunkSize))
  | 0, i, jobs, _, hlen, hsum, hall => ⟨jobs, rfl, hlen, hsum, hall⟩
  | count + 1, i, jobs, hle, hlen, hsum, hall => by
    have hmul : (i + (count + 1)) * chunkSize
        = i * chunkSize + chunkSize + count * chunkSize := by ring
    have hfirst : (i * chunkSize) % 4294967296 = i * chunkSize :=
      Nat.mod_eq_of_lt (by omega)
    obtain ⟨job, hjob, hpages, -, -⟩ := makeJob_pages document folderPath outputFile outputType
      deepCopy (i * chunkSize) chunkSize (by omega)
    have hx : i % availableWorkers < jobs.length := by
      rw [hlen]
      exact Nat.mod_lt i haW
    have hworker : jobs[i % availableWorkers]? = some (jobs[i % availableWorkers]) :=
      List.getElem?_eq_getElem hx
    obtain ⟨jobs1, hrun, hlen1, hsum1, hall1⟩ := dumpChunksLoop_spec document folderPath
      outputFile outputType deepCopy chunkSize availableWorkers haW hN count (i + 1)
      (jobs.set (i % availableWorkers) (jobs[i % availableWorkers] ++ [job]))
      (by
        have h2 : (i + 1 + count) * chunkSize = (i + (count + 1)) * chunkSize := by ring
        omega)
      (by rw [List.length_set, hlen])
      (by rw [sum_length_set jobs _ _ job hworker, hsum])
      (by
        intro w hw
        rw [List.range_succ, List.filter_append, List.map_append]
        by_cases hwx : i % availableWorkers = w
        · subst hwx
          rw [List.getElem?_set_self hx]
          have hold := hall (i % availableWorkers) hw
          rw [hworker] at hold
          simp only [Option.map_some', Option.some.injEq] at hold ⊢
          rw [List.map_append, hold]
          simp [block, hpages]
        · rw [List.getElem?_set_ne hwx, hall w hw]
          simp [hwx])
    refine ⟨jobs1, ?_, hlen1, ?_, ?_⟩
    · rw [dumpChunksLoop, hfirst, hjob]
      simp only [pushJob, hworker]
      rw [nextWorker_mod availableWorkers i haW, hrun]
      have h3 : i + 1 + count = i + (count + 1) := by omega
      rw [h3]
    · rw [hsum1]
      omega
    · intro w hw
      have h3 : i + 1 + count = i + (count + 1) := by omega
      rw [← h3]
      exact hall1 w hw

/-- The first `t` blocks of a document, one after the other, are its first
`t * chunkSize` pages. -/
theorem flatMap_block (document : Document) (chunkSize : Nat) :
    ∀ t, (List.range t).flatMap (block document chunkSize)
      = document.pages.take (t * chunkSize)
  | 0 => by simp
  | t + 1 => by
    rw [List.range_succ, List.flatMap_append, flatMap_block document chunkSize t]
    simp only [List.flatMap_cons, List.flatMap_nil, List.append_nil, block]
    rw [Nat.succ_mul, List.take_add]

/-- The number of blocks, full ones and a last shorter one, is the quotient
rounded up. -/
theorem ceil_div (n c : Nat) (hc : 0 < c) :
    n / c + (if n % c = 0 then 0 else 1) = (n + c - 1) / c := by
  have hdm := Nat.div_add_mod n c
  have hlt := Nat.mod_lt n hc
  by_cases h0 : n % c = 0
  · rw [if_pos h0]
    have hn : n + c - 1 = c - 1 + c * (n / c) := by omega
    have hz : (c - 1) / c = 0 := Nat.div_eq_of_lt (by omega)
    rw [hn, Nat.add_mul_div_left _ _ hc, hz]
    omega
  · rw [if_neg h0]
    have hm := Nat.mul_add c (n / c) 1
    have hn : n + c - 1 = (n % c - 1) + c * (n / c + 1) := by omega
    have hz : (n % c - 1) / c = 0 := Nat.div_eq_of_lt (by omega)
    rw [hn, Nat.add_mul_div_left _ _ hc, hz]
    omega

/-- Pushing the job of the block `i` to the worker `i mod availableWorkers`, when
the workers hold the blocks before `i` in turn. -/
theorem pushJob_spec (document : Document) (chunkSize availableWorkers : Nat)
    (haW : 0 < availableWorkers) (i : Nat) (jobs : List (List sJob)) (job : sJob)
    (hjob : job.clonedPages = block document chunkSize i)
    (hlen : jobs.length = availableWorkers)
    (hsum : (jobs.map List.length).sum = i)
    (hall : ∀ w, w < availableWorkers →
      (jobs[w]?).map (List.map sJob.clonedPages)
        = some (((List.range i).filter (fun k => k % availableWorkers = w)).map
            (block document chunkSize))) :
    ∃ jobs1, pushJob jobs (i % availableWorkers) job = some jobs1 ∧
      jobs1.length = availableWorkers ∧
      (jobs1.map List.length).sum = i + 1 ∧
      ∀ w, w < availableWorkers →
        (jobs1[w]?).map (List.map sJob.clonedPages)
          = some (((List.range (i + 1)).filter (fun k => k % availableWorkers = w)).map
              (block document chunkSize)) := by
  have hx : i % availableWorkers < jobs.length := by
    rw [hlen]
    exact Nat.mod_lt i haW
  have hworker : jobs[i % availableWorkers]? = some (jobs[i % availableWorkers]) :=
    List.getElem?_eq_getElem hx
  refine ⟨jobs.set (i % availableWorkers) (jobs[i % availableWorkers] ++ [job]), ?_, ?_, ?_, ?_⟩
  · simp only [pushJob, hworker]
  · rw [List.length_set, hlen]
  · rw [sum_length_set jobs _ _ job hworker, hsum]
  · intro w hw
    rw [List.range_succ, List.filter_append, List.map_append]
    by_cases hwx : i % availableWorkers = w
    · subst hwx
      rw [List.getElem?_set_self hx]
      have hold := hall (i % availableWorkers) hw
      rw [hworker] at hold
      simp only [Option.map_some', Option.some.injEq] at hold ⊢
      rw [List.map_append, hold]
      simp [hjob]
    · rw [List.getElem?_set_ne hwx, hall w hw]
      simp [hwx]

/-- When the workers hold the blocks in turn and there are no more workers than
blocks, no worker is without a job. -/
theorem no_idle_worker (jobs : List (List sJob)) (availableWorkers total : Nat)
    (f : Nat → List Page) (hlen : jobs.length = availableWorkers)
    (hle : availableWorkers ≤ total)
    (hall : ∀ w, w < availableWorkers →
      (jobs[w]?).map (List.map sJob.clonedPages)
        = some (((List.range total).filter (fun k => k % availableWorkers = w)).map f)) :
    jobs.any List.isEmpty = false := by
  rw [List.any_eq_false]
  intro x hx hempty
  obtain ⟨w, hw⟩ := List.mem_iff_getElem?.1 hx
  have hwlt : w < availableWorkers := by
    rw [← hlen]
    by_contra hge
    rw [List.getElem?_eq_none (by omega)] at hw
    exact Option.noConfusion hw
  have hthis := hall w hwlt
  rw [hw, List.isEmpty_iff.1 hempty] at hthis
  simp only [Option.map_some', List.map_nil, Option.some.injEq] at hthis
  have hmem : w ∈ (List.range total).filter (fun k => k % availableWorkers = w) := by
    rw [List.mem_filter, List.mem_range]
    exact ⟨by omega, by simp [Nat.mod_eq_of_lt hwlt]⟩
  have hnil := List.map_eq_nil_iff.1 hthis.symm
  rw [hnil] at hmem
  exact List.not_mem_nil _ hmem

/-- The jobs of `dumpChunks` for a chunk size between 1 and the page count: the
function gets to the threads, and the workers hold the blocks of the document
in turn. -/
theorem dumpChunks_spec (hardwareConcurrency : Nat) (pathSep : Char) (document : Document)
    (chunkSize : Nat) (folder outputFile : String) (outputType : MakoImposer.eFileFormat)
    (runSingleThreaded deepCopy : Bool)
    (hc1 : 1 ≤ chunkSize) (hcn : chunkSize ≤ document.pages.length)
    (hN : document.pages.length < 4294967296) (hfolder : folder.length ≠ 0)
    (hw : runSingleThreaded = true ∨ 1 ≤ hardwareConcurrency) :
    ∃ workers,
      dumpChunks hardwareConcurrency pathSep document document.pages.length chunkSize folder
        outputFile outputType runSingleThreaded deepCopy = some workers ∧
      1 ≤ workers.length ∧
      (workers.map List.length).sum
        = document.pages.length / chunkSize
          + (if document.pages.length % chunkSize = 0 then 0 else 1) ∧
      ∀ w, w < workers.length →
        (workers[w]?).map (List.map sJob.clonedPages)
          = some (((List.range (document.pages.length / chunkSize
                + (if document.pages.length % chunkSize = 0 then 0 else 1))).filter
              (fun k => k % workers.length = w)).map (block document chunkSize)) := by
  have hc0 : chunkSize ≠ 0 := by omega
  have hq : 1 ≤ document.pages.length / chunkSize := Nat.div_pos hcn hc1
  have hqc : document.pages.length / chunkSize * chunkSize ≤ document.pages.length :=
    Nat.div_mul_le_self _ _
  have hdm : document.pages.length / chunkSize * chunkSize
      + document.pages.length % chunkSize = document.pages.length := Nat.div_add_mod' _ _
  obtain ⟨aW, haWdef, haW, haWq⟩ : ∃ aW,
      (if document.pages.length / chunkSize = 0 ∨ runSingleThreaded = true then 1
        else if document.pages.length / chunkSize < hardwareConcurrency then
          document.pages.length / chunkSize
        else hardwareConcurrency) = aW ∧ 1 ≤ aW ∧ aW ≤ document.pages.length / chunkSize := by
    refine ⟨_, rfl, ?_, ?_⟩
    · split_ifs <;> first | omega | (rcases hw with hs | hh <;> simp_all)
    · split_ifs <;> omega
  obtain ⟨folderPath, hfolderPath⟩ : ∃ folderPath,
      (if MakoCombiner.substrFrom folder (folder.length - 1) ≠ String.singleton pathSep then
          folder ++ String.singleton pathSep
        else folder) = folderPath := ⟨_, rfl⟩
  obtain ⟨jobs, hloop, hlen, hsum, hall⟩ :=
    dumpChunksLoop_spec document folderPath outputFile outputType deepCopy chunkSize aW
      (by omega) hN (document.pages.length / chunkSize) 0 (List.replicate aW [])
      (by rw [Nat.zero_add]; exact hqc) (List.length_replicate _ _)
      (by simp)
      (by
        intro w hwlt
        rw [List.getElem?_replicate, if_pos hwlt]
        rfl)
  rw [Nat.zero_mod, Nat.zero_add] at hloop
  rw [Nat.zero_add] at hsum hall
  have hrun : dumpChunks hardwareConcurrency pathSep document document.pages.length chunkSize
      folder outputFile outputType runSingleThreaded deepCopy
      = match (if document.pages.length % chunkSize ≠ 0 then
            match makeJob document folderPath outputFile outputType deepCopy
                ((document.pages.length / chunkSize * chunkSize) % 4294967296)
                (document.pages.length % chunkSize) with
            | none => none
            | some job => pushJob jobs (document.pages.length / chunkSize % aW) job
          else some jobs) with
        | none => none
        | some jobs1 => if jobs1.any List.isEmpty then none else some jobs1 := by
    unfold dumpChunks
    rw [if_neg hc0]
    simp only []
    rw [haWdef, if_neg (by
      intro h
      rcases h with h | h
      · omega
      · exact hfolder h), hfolderPath, hloop]
  by_cases h0 : document.pages.length % chunkSize = 0
  · have hidle := no_idle_worker jobs aW (document.pages.length / chunkSize)
      (block document chunkSize) hlen haWq hall
    rw [if_neg (by simpa using h0)] at hrun
    simp only [hidle] at hrun
    refine ⟨jobs, hrun, by omega, ?_, ?_⟩
    · rw [hsum, if_pos h0, Nat.add_zero]
    · intro w hwlt
      rw [hlen] at hwlt ⊢
      rw [if_pos h0, Nat.add_zero]
      exact hall w hwlt
  · have hfirst : (document.pages.length / chunkSize * chunkSize) % 4294967296
        = document.pages.length / chunkSize * chunkSize := Nat.mod_eq_of_lt (by omega)
    obtain ⟨job, hjob, hpages, _, _⟩ := makeJob_pages document folderPath outputFile outputType
      deepCopy (document.pages.length / chunkSize * chunkSize)
      (document.pages.length % chunkSize) (by omega)
    have hblock : job.clonedPages
        = block document chunkSize (document.pages.length / chunkSize) := by
      have hl : (document.pages.drop (document.pages.length / chunkSize * chunkSize)).length
          = document.pages.length % chunkSize := by
        rw [List.length_drop]
        omega
      have hlt := Nat.mod_lt document.pages.length (show 0 < chunkSize by omega)
      rw [hpages, block, List.take_of_length_le (by omega), List.take_of_length_le (by omega)]
    obtain ⟨jobs1, hpush, hlen1, hsum1, hall1⟩ := pushJob_spec document chunkSize aW (by omega)
      (document.pages.length / chunkSize) jobs job hblock hlen hsum hall
    have hidle := no_idle_worker jobs1 aW (document.pages.length / chunkSize + 1)
      (block document chunkSize) hlen1 (by omega) hall1
    rw [if_pos (by simpa using h0), hfirst, hjob] at hrun
    simp only [hpush, hidle] at hrun
    refine ⟨jobs1, hrun, by omega, ?_, ?_⟩
    · rw [hsum1, if_neg h0]
    · intro w hwlt
      rw [hlen1] at hwlt ⊢
      rw [if_neg h0]
      exact hall1 w hwlt

/-- C21: Splitter chunking.  For a document of `n` pages, `1 ≤ n`, and a requested
chunk size, `main` passes to `dumpChunks` the chunk size `c` that is 1 for a
request of 0 and `n` for a request above `n`; `dumpChunks` then reaches its
threads with `total = ceil(n / c)` jobs, dealt to the workers in turn, whose page
lists are the consecutive blocks of `c` pages of the document, in order; the
blocks one after the other are the pages of the document; every block has `c`
pages except the last when `c` does not divide `n`, which has `n mod c`; and a
request of 0, or none (the default is 1), gives one job of one page per page.
The page count is a `uint32`, the folder is not empty as `dumpChunks` reads its
last character, and without the single-thread switch the machine reports at
least one hardware thread. -/
theorem splitter_chunking (hardwareConcurrency : Nat) (pathSep : Char) (document : Document)
    (requested : Nat) (folder outputFile : String) (outputType : MakoImposer.eFileFormat)
    (runSingleThreaded deepCopy : Bool) (n c total : Nat)
    (hn : n = document.getNumPages) (hc : c = adjustChunkSize n requested)
    (ht : total = (n + c - 1) / c)
    (h1 : 1 ≤ document.pages.length) (hN : document.pages.length < 4294967296)
    (hfolder : folder.length ≠ 0)
    (hw : runSingleThreaded = true ∨ 1 ≤ hardwareConcurrency) :
    (requested = 0 → c = 1) ∧ (n < requested → c = n) ∧
    (1 ≤ requested → requested ≤ n → c = requested) ∧
    (∃ workers,
      dumpChunks hardwareConcurrency pathSep document n c folder outputFile outputType
        runSingleThreaded deepCopy = some workers ∧
      1 ≤ workers.length ∧
      (workers.map List.length).sum = total ∧
      ∀ w, w < workers.length →
        (workers[w]?).map (List.map sJob.clonedPages)
          = some (((List.range total).filter (fun k => k % workers.length = w)).map
              (block document c))) ∧
    (List.range total).flatMap (block document c) = document.pages ∧
    (∀ k, k < total →
      (block document c k).length = if k + 1 = total ∧ n % c ≠ 0 then n % c else c) ∧
    (requested = 0 ∨ requested = ({ } : sParameters).chunkSize →
      total = n ∧ ∀ k, k < n → block document c k = (document.pages.drop k).take 1) := by
  have hnum : n = document.pages.length := by
    rw [hn, Document.getNumPages, Nat.mod_eq_of_lt hN]
  have hcase : (requested = 0 → c = 1) ∧ (n < requested → c = n) ∧
      (1 ≤ requested → requested ≤ n → c = requested) := by
    rw [hc]
    simp only [adjustChunkSize]
    refine ⟨?_, ?_, ?_⟩
    · intro h
      split_ifs <;> omega
    · intro h
      split_ifs <;> omega
    · intro h h2
      split_ifs <;> omega
  have hc1 : 1 ≤ c ∧ c ≤ n := by
    rw [hc]
    simp only [adjustChunkSize]
    split_ifs <;> omega
  have htot : total = n / c + (if n % c = 0 then 0 else 1) := by
    rw [ht, ceil_div n c (by omega)]
  have hdm : n / c * c + n % c = n := Nat.div_add_mod' _ _
  have hlt := Nat.mod_lt n (show 0 < c by omega)
  have hblock : ∀ k, (block document c k).length = min c (n - k * c) := by
    intro k
    rw [block, List.length_take, List.length_drop, hnum]
  refine ⟨hcase.1, hcase.2.1, hcase.2.2, ?_, ?_, ?_, ?_⟩
  · rw [htot, hnum]
    rw [hnum] at hc1
    exact dumpChunks_spec hardwareConcurrency pathSep document c folder outputFile outputType
      runSingleThreaded deepCopy hc1.1 hc1.2 hN hfolder hw
  · rw [flatMap_block, List.take_of_length_le]
    rw [← hnum, htot]
    by_cases h0 : n % c = 0
    · rw [if_pos h0, Nat.add_zero]
      omega
    · rw [if_neg h0, Nat.add_mul]
      omega
  · intro k hk
    rw [hblock]
    by_cases hlast : k + 1 = total ∧ n % c ≠ 0
    · rw [if_pos hlast]
      have hkq : k = n / c := by
        rw [htot, if_neg hlast.2] at hlast
        omega
      rw [hkq]
      omega
    · rw [if_neg hlast]
      have hkq : k + 1 ≤ n / c := by
        by_cases h0 : n % c = 0
        · rw [htot, if_pos h0] at hk
          omega
        · rw [htot, if_neg h0] at hk hlast
          by_contra hge
          exact hlast ⟨by omega, h0⟩
      have hmul : (k + 1) * c ≤ n / c * c := Nat.mul_le_mul_right c hkq
      rw [Nat.add_mul] at hmul
      omega
  · intro hreq
    have hcone : c = 1 := by
      rcases hreq with h | h
      · exact hcase.1 h
      · have h2 : requested = 1 := h
        rw [h2] at hcase
        exact hcase.2.2 (by omega) (by omega)
    subst hcone
    refine ⟨?_, ?_⟩
    · rw [ht]
      omega
    · intro k _
      rw [block, Nat.mul_one]

/-- A witness of C21: the five pages of `exampleFive` in chunks of 2 on two
hardware threads give three jobs, of the pages 1-2, 3-4 and 5. -/
theorem splitter_chunking_witness :
    (∃ workers,
      dumpChunks 2 '/' exampleFive 5 2 "out" "doc" MakoImposer.eFileFormat.eFFPDF false false
        = some workers ∧
      1 ≤ workers.length ∧
      (workers.map List.length).sum = 3 ∧
      ∀ w, w < workers.length →
        (workers[w]?).map (List.map sJob.clonedPages)
          = some (((List.range 3).filter (fun k => k % workers.length = w)).map
              (block exampleFive 2))) ∧
    (List.range 3).flatMap (block exampleFive 2) = exampleFive.pages ∧
    (∀ k, k < 3 →
      (block exampleFive 2 k).length = if k + 1 = 3 ∧ 5 % 2 ≠ 0 then 5 % 2 else 2) :=
  have h := splitter_chunking 2 '/' exampleFive 2 "out" "doc" MakoImposer.eFileFormat.eFFPDF
    false false 5 2 3 (by decide) (by decide) (by decide) (by decide) (by decide) (by decide)
    (by decide)
  ⟨h.2.2.2.1, h.2.2.2.2.1, h.2.2.2.2.2.1⟩

end MakoSplitter
